import Mathlib

/-!
# A FAT-style file system over a block device: embedding of `libfs/fs.c`

The C program keeps its state in process-wide globals (`root`, `super_block`,
`FAT`, `mounted`, `descriptor_table`, `file_table`) and talks to a block
device.  The embedding passes that state explicitly.  Arrays are total maps
from indices to values (an out-of-bounds C access has no defined value; the
map simply answers), machine integers are `Nat`/`Int` with the conversions of
the C code written out (`to_int`, `to_uint32`, `to_size_t`), a C string is the
list of its bytes before the terminator, and a byte buffer is a map from
positions to bytes.
-/

namespace FS

/-! ## Constants -/

/-- Modelled from the spec: `BLOCK_SIZE` of `disk.h` (the header is not among
the sources); the block size is fixed at 4096 bytes. -/
def BLOCK_SIZE : Nat := 4096

/-- Modelled from the spec: `FS_FILENAME_LEN` of `fs.h`, the filename length
bound 16 (terminator included). -/
def FS_FILENAME_LEN : Nat := 16

/-- Modelled from the spec: `FS_FILE_MAX_COUNT` of `fs.h`, the directory-slot
limit 128. -/
def FS_FILE_MAX_COUNT : Nat := 128

/-- Modelled from the spec: `FS_OPEN_MAX_COUNT` of `fs.h`, the
open-file/descriptor limit 32. -/
def FS_OPEN_MAX_COUNT : Nat := 32

/-- The end-of-chain mark, `#define FAT_EOC 0xFFFF`. -/
def FAT_EOC : Nat := 0xFFFF

/-! ## Machine integers -/

/-- Conversion of an unsigned value to `int` (32 bits, two's complement). -/
def to_int (x : Nat) : Int :=
  if x % 2 ^ 32 < 2 ^ 31 then ((x % 2 ^ 32 : Nat) : Int)
  else ((x % 2 ^ 32 : Nat) : Int) - 2 ^ 32

/-- Conversion of an `int` to `size_t` (64 bits): the value modulo `2 ^ 64`. -/
def to_size_t (x : Int) : Nat := (x % 2 ^ 64).toNat

/-- Conversion of an `int` or `size_t` to `uint32_t`. -/
def to_uint32 (x : Int) : Nat := (x % 2 ^ 32).toNat

/-- Conversion of an `int` to `uint16_t`. -/
def to_uint16 (x : Int) : Nat := (x % 2 ^ 16).toNat

/-- Conversion of an `int` to `uint8_t`. -/
def to_uint8 (x : Int) : Nat := (x % 2 ^ 8).toNat

/-- Array store `a[i] = v`. -/
def upd {α : Type} (a : Nat → α) (i : Nat) (v : α) : Nat → α :=
  fun j => if j = i then v else a j

/-- The loop `for (i = start; i < start + n; i++) if (p i) return i; return -1;`. -/
def find_first (p : Nat → Bool) : Nat → Nat → Int
  | 0, _ => -1
  | n + 1, i => if p i then (i : Int) else find_first p n (i + 1)

/-- The loop `for (i = start; i < start + n; i++) if (p i) c++;` started at
count `0`. -/
def count_loop (p : Nat → Bool) : Nat → Nat → Nat
  | 0, _ => 0
  | n + 1, i => (if p i then 1 else 0) + count_loop p n (i + 1)

/-! ## The block device -/

/-- Modelled from the spec: the block device of `disk.h`/`disk.c`, which is an
external collaborator and not among the sources.  It has `count` blocks of
`BLOCK_SIZE` bytes; `blocks b j` is byte `j` of block `b`.  A read or write of
a block index below `count` succeeds, any other index is an error. -/
structure Disk where
  count : Nat
  blocks : Nat → Nat → Nat

/-- Modelled from the spec: `block_disk_count()`. -/
def block_disk_count (d : Disk) : Nat := d.count

/-- Modelled from the spec: `block_read(block, buf)`; `none` is the error
result, in which case the buffer is left as it was. -/
def block_read (d : Disk) (block : Nat) : Option (Nat → Nat) :=
  if block < d.count then some (d.blocks block) else none

/-- Modelled from the spec: `block_write(block, buf)` stores the first
`BLOCK_SIZE` bytes of the buffer; `none` is the error result, in which case the
device is left as it was. -/
def block_write (d : Disk) (block : Nat) (buf : Nat → Nat) : Option Disk :=
  let img : Nat → Nat := fun j => if j < BLOCK_SIZE then buf j else d.blocks block j
  if block < d.count then some { d with blocks := upd d.blocks block img } else none

/-! ## Data model -/

/-- The packed `struct superblock`. -/
structure superblock where
  signature : List Nat
  virtual_disk_amount : Nat
  root_index : Nat
  data_start_index : Nat
  data_amount : Nat
  FAT_amount : Nat
  padding : Nat → Nat

/-- The packed `struct rootdir`; `filename` is the C string held in the
16-byte array (its bytes before the terminator).  The ten padding bytes are
never read or written by the program and are left out. -/
structure rootdir where
  filename : List Nat
  file_size : Nat
  first_index : Nat
deriving DecidableEq

/-- The `struct open_file` of the open-file table. -/
structure open_file where
  filename : List Nat
  open_count : Nat
  root_index : Nat
deriving DecidableEq

/-- The `struct descriptor` of the file-descriptor table. -/
structure descriptor where
  open_file_index : Int
  offset : Nat
deriving DecidableEq

/-- The `enum block_type`. -/
inductive block_type where
  | First
  | Middle
  | Last
  | Short
deriving DecidableEq

/-- The globals of `fs.c`, together with the device they are mounted on. -/
structure State where
  root : Nat → rootdir
  super_block : superblock
  FAT : Nat → Nat
  mounted : Bool
  descriptor_table : Nat → descriptor
  file_table : Nat → open_file
  disk : Disk

/-- The result of an operation that returns an `int`. -/
structure Ret where
  val : Int
  st : State

/-- The result of a read: the returned `int`, the state, and the caller's
buffer afterwards. -/
structure RetBuf where
  val : Int
  st : State
  buf : Nat → Nat

/-! ## Superblock validation, mount and unmount -/

/-- The bytes of the string `"ECS150FS"`. -/
def ECS150FS : List Nat := [69, 67, 83, 49, 53, 48, 70, 83]

/-- `error_check`: the six tests on the superblock read from block 0. -/
def error_check (s : State) : Int :=
  if s.super_block.signature ≠ ECS150FS then -1
  else if (s.super_block.virtual_disk_amount : Int) ≠ block_disk_count s.disk then -1
  else if (s.super_block.root_index : Int) ≠ s.super_block.FAT_amount + 1 then -1
  else if (s.super_block.data_start_index : Int) ≠ s.super_block.root_index + 1 then -1
  else if (s.super_block.data_amount : Int)
      ≠ (block_disk_count s.disk : Int) - s.super_block.FAT_amount - 2 then -1
  else if (s.super_block.FAT_amount : Int)
      ≠ ((2 * s.super_block.data_amount : Nat) + BLOCK_SIZE - 1 : Int) / BLOCK_SIZE then -1
  else 0

/-- `descriptor_check`: `-1` when some descriptor slot is in use. -/
def descriptor_check (s : State) : Int :=
  if find_first (fun i => decide ((s.descriptor_table i).open_file_index ≠ -1))
      FS_OPEN_MAX_COUNT 0 ≠ -1 then -1 else 0

/-- `file_is_open`: the first slot of the open-file table with this name. -/
def file_is_open (s : State) (filename : List Nat) : Int :=
  find_first (fun i => decide ((s.file_table i).filename = filename)) FS_OPEN_MAX_COUNT 0

/-- `reset_file`. -/
def reset_file (s : State) (index : Nat) (filename : List Nat) (open_count : Nat)
    (root_index : Nat) : State :=
  { s with file_table := upd s.file_table index ⟨filename, open_count, root_index⟩ }

/-- `reset_descriptor`. -/
def reset_descriptor (s : State) (index : Nat) (offset : Nat) (open_file_index : Int) : State :=
  { s with descriptor_table := upd s.descriptor_table index ⟨open_file_index, offset⟩ }

/-- The loop of `initialize_descriptor_table` over `n` slots from slot `i`. -/
def initialize_loop : Nat → Nat → State → State
  | 0, _, s => s
  | n + 1, i, s =>
      initialize_loop n (i + 1) (reset_file (reset_descriptor s i 0 (-1)) i [] 0 FS_FILE_MAX_COUNT)

/-- `initialize_descriptor_table`. -/
def initialize_descriptor_table (s : State) : State :=
  initialize_loop FS_OPEN_MAX_COUNT 0 s

/-- Little-endian 16-bit word `k` of a byte buffer. -/
def word16 (b : Nat → Nat) (k : Nat) : Nat := b (2 * k) + 256 * b (2 * k + 1)

/-- Little-endian 32-bit word starting at byte `k`. -/
def word32 (b : Nat → Nat) (k : Nat) : Nat :=
  b k + 256 * b (k + 1) + 65536 * b (k + 2) + 16777216 * b (k + 3)

/-- The bytes of a run of `uint16_t` values starting at entry `base`, as the
device sees the memory at `FAT + base`. -/
def bytes_of_words (a : Nat → Nat) (base : Nat) : Nat → Nat :=
  fun j => if j % 2 = 0 then a (base + j / 2) % 256 else a (base + j / 2) / 256 % 256

/-- The C string held in a 16-byte array starting at byte `k`: the bytes
before the first zero byte. -/
def cstring_at (b : Nat → Nat) (k : Nat) : List Nat :=
  ((List.range FS_FILENAME_LEN).map (fun j => b (k + j))).takeWhile (fun c => decide (c ≠ 0))

/-- Block 0 read into a `struct superblock`. -/
def superblock_of_block (b : Nat → Nat) : superblock :=
  { signature := (List.range 8).map b
    virtual_disk_amount := word16 b 4
    root_index := word16 b 5
    data_start_index := word16 b 6
    data_amount := word16 b 7
    FAT_amount := b 16
    padding := fun j => b (17 + j) }

/-- The bytes of a `struct superblock`. -/
def block_of_superblock (sb : superblock) : Nat → Nat :=
  fun j =>
    if j < 8 then sb.signature.getD j 0
    else if j < 16 then
      bytes_of_words (fun k => if k = 4 then sb.virtual_disk_amount else if k = 5 then sb.root_index
        else if k = 6 then sb.data_start_index else sb.data_amount) 0 j
    else if j = 16 then sb.FAT_amount % 256
    else sb.padding (j - 17)

/-- The directory block read into the array of 128 `struct rootdir`. -/
def root_of_block (b : Nat → Nat) : Nat → rootdir :=
  fun i =>
    { filename := cstring_at b (32 * i)
      file_size := word32 b (32 * i + 16)
      first_index := word16 b (16 * i + 10) }

/-- The bytes of the array of `struct rootdir`: name and terminator, the size
and the first index in little-endian order.  In `fs.c` the bytes of the name
field after the terminator keep what earlier names left there (`strcpy` stops
at the terminator) and the padding keeps what was read at mount; names are
strings here, so these bytes are written as zero.  `root_of_block` reads the
same entries from either image: `cstring_at` stops at the terminator. -/
def block_of_root (r : Nat → rootdir) : Nat → Nat :=
  fun j =>
    let e := r (j / 32)
    let k := j % 32
    if k < 16 then e.filename.getD k 0
    else if k < 20 then e.file_size / 256 ^ (k - 16) % 256
    else if k < 22 then e.first_index / 256 ^ (k - 20) % 256
    else 0

/-- One `block_read(i, FAT + (i - 1) * BLOCK_SIZE)`: `FAT` points to
`uint16_t`, so the block lands at entry `(i - 1) * BLOCK_SIZE` and fills the
`BLOCK_SIZE / 2` entries from there. -/
def read_FAT_block (FAT : Nat → Nat) (i : Nat) (b : Nat → Nat) : Nat → Nat :=
  fun e =>
    if (i - 1) * BLOCK_SIZE ≤ e ∧ e < (i - 1) * BLOCK_SIZE + BLOCK_SIZE / 2
    then word16 b (e - (i - 1) * BLOCK_SIZE) else FAT e

/-- The loop `for (i = 1; i <= FAT_amount; i++) if (block_read(i, FAT + ...)) return -1;`
of `fs_mount`, with `n` iterations left from `i`: `-1` when a read fails, with
the FAT as far as it was filled. -/
def mount_FAT_loop (d : Disk) : Nat → Nat → (Nat → Nat) → Int × (Nat → Nat)
  | 0, _, FAT => (0, FAT)
  | n + 1, i, FAT =>
      match block_read d i with
      | none => (-1, FAT)
      | some b => mount_FAT_loop d n (i + 1) (read_FAT_block FAT i b)

/-- `fs_mount`.  `dev` is what `block_disk_open(diskname)` finds (`none` when
the disk cannot be opened) and `heap` the contents of the memory `malloc`
hands out for `FAT`, which C leaves indeterminate. -/
def fs_mount (s : State) (dev : Option Disk) (heap : Nat → Nat) : Ret :=
  match dev with
  | none => ⟨-1, s⟩
  | some d =>
    match block_read d 0 with
    | none => ⟨-1, { s with disk := d }⟩
    | some b0 =>
      let s1 := { s with disk := d, super_block := superblock_of_block b0 }
      if error_check s1 ≠ 0 then ⟨-1, s1⟩
      else
        let r := mount_FAT_loop d s1.super_block.FAT_amount 1 heap
        if r.1 ≠ 0 then ⟨-1, { s1 with FAT := r.2 }⟩
        else
          match block_read d s1.super_block.root_index with
          | none => ⟨-1, { s1 with FAT := r.2 }⟩
          | some br =>
            ⟨0, { initialize_descriptor_table { s1 with FAT := r.2, root := root_of_block br }
                  with mounted := true }⟩

/-- The loop `for (i = 1; i <= FAT_amount; i++) if (block_write(i, FAT + ...)) return -1;`
of `fs_umount`, with `n` iterations left from `i`: `-1` when a write fails,
with the device as far as it was written. -/
def umount_FAT_loop (FAT : Nat → Nat) : Nat → Nat → Disk → Int × Disk
  | 0, _, d => (0, d)
  | n + 1, i, d =>
      match block_write d i (bytes_of_words FAT ((i - 1) * BLOCK_SIZE)) with
      | none => (-1, d)
      | some d1 => umount_FAT_loop FAT n (i + 1) d1

/-- `fs_umount`.  The device of a mounted volume is open, so
`block_disk_close()` succeeds. -/
def fs_umount (s : State) : Ret :=
  if s.mounted = false then ⟨-1, s⟩
  else if descriptor_check s ≠ 0 then ⟨-1, s⟩
  else
    match block_write s.disk 0 (block_of_superblock s.super_block) with
    | none => ⟨-1, s⟩
    | some d1 =>
      let r := umount_FAT_loop s.FAT s.super_block.FAT_amount 1 d1
      if r.1 ≠ 0 then ⟨-1, { s with disk := r.2 }⟩
      else
        match block_write r.2 s.super_block.root_index (block_of_root s.root) with
        | none => ⟨-1, { s with disk := r.2 }⟩
        | some d3 => ⟨0, { s with disk := d3, mounted := false }⟩

/-! ## Scans over the tables -/

/-- `get_empty_block_num`: the number of entries `FAT[i] == 0`, `i < data_amount`. -/
def get_empty_block_num (s : State) : Nat :=
  count_loop (fun i => decide (s.FAT i = 0)) s.super_block.data_amount 0

/-- `get_empty_dir_num`: the number of directory slots with the empty name. -/
def get_empty_dir_num (s : State) : Nat :=
  count_loop (fun i => decide ((s.root i).filename = [])) FS_FILE_MAX_COUNT 0

/-- `get_empty_block`: the first `i < data_amount` with `FAT[i] == 0`, or `-1`. -/
def get_empty_block (s : State) : Int :=
  find_first (fun i => decide (s.FAT i = 0)) s.super_block.data_amount 0

/-- `get_empty_fd`: the first descriptor slot whose `open_file_index` is `-1`. -/
def get_empty_fd (s : State) : Int :=
  find_first (fun i => decide ((s.descriptor_table i).open_file_index = -1)) FS_OPEN_MAX_COUNT 0

/-- `get_empty_open_file`: the first slot of the open-file table with the
empty name. -/
def get_empty_open_file (s : State) : Int :=
  find_first (fun i => decide ((s.file_table i).filename = [])) FS_OPEN_MAX_COUNT 0

/-- `get_dir`: the first directory slot holding this name, or `-1`. -/
def get_dir (s : State) (filename : List Nat) : Int :=
  find_first (fun i => decide ((s.root i).filename = filename)) FS_FILE_MAX_COUNT 0

/-! ## Directory operations -/

/-- The loop `for (f_len = 0; f_len < FS_FILENAME_LEN; f_len++) if (filename[f_len] == 0) break;`
of `check_file` with `n` iterations left; the byte at `f_len` is the
terminator once `f_len` has reached the length of the string. -/
def check_file_loop (filename : List Nat) : Nat → Nat → Nat
  | 0, f_len => f_len
  | n + 1, f_len =>
      if filename.length ≤ f_len then f_len else check_file_loop filename n (f_len + 1)

/-- `check_file`: `0` for a usable file name on a mounted volume, else `-1`. -/
def check_file (s : State) (filename : List Nat) : Int :=
  if s.mounted = false then -1
  else if filename = [] then -1
  else if check_file_loop filename FS_FILENAME_LEN 0 ≥ FS_FILENAME_LEN then -1
  else 0

/-- `free_FAT`: the `while (FAT[index] != FAT_EOC)` walk that zeroes every
visited entry and then the last one.  The C loop has no bound, so the walk
takes fuel; `none` means the fuel ran out before the walk ended. -/
def free_FAT : Nat → (Nat → Nat) → Nat → Option (Nat → Nat)
  | 0, _, _ => none
  | fuel + 1, FAT, index =>
      if FAT index ≠ FAT_EOC then free_FAT fuel (upd FAT index 0) (FAT index)
      else some (upd FAT index 0)

/-- `fs_create`. -/
def fs_create (s : State) (filename : List Nat) : Ret :=
  if check_file s filename ≠ 0 then ⟨-1, s⟩
  else if (get_empty_dir_num s : Int) ≤ 0 then ⟨-1, s⟩
  else if get_dir s filename ≠ -1 then ⟨-1, s⟩
  else
    let empty_blk := get_empty_block s
    if empty_blk = -1 then ⟨-1, s⟩
    else
      let empty_dir := (get_dir s []).toNat
      ⟨0, { s with
            root := upd s.root empty_dir ⟨filename, 0, to_uint16 empty_blk⟩
            FAT := upd s.FAT empty_blk.toNat FAT_EOC }⟩

/-- `fs_delete`; `fuel` bounds the walk of `free_FAT`, and the result is
`none` when that walk does not end within it. -/
def fs_delete (fuel : Nat) (s : State) (filename : List Nat) : Option Ret :=
  if check_file s filename ≠ 0 then some ⟨-1, s⟩
  else if get_dir s filename = -1 then some ⟨-1, s⟩
  else if file_is_open s filename ≠ -1 then some ⟨-1, s⟩
  else
    let file_dir := (get_dir s filename).toNat
    let root1 := upd s.root file_dir { s.root file_dir with filename := [] }
    match free_FAT fuel s.FAT (root1 file_dir).first_index with
    | none => none
    | some FAT1 => some ⟨0, { s with root := root1, FAT := FAT1 }⟩

/-! ## Open, close, stat, seek -/

/-- `check_fd`: the open-file index behind a valid descriptor, else `-1`. -/
def check_fd (s : State) (fd : Int) : Int :=
  if s.mounted = false then -1
  else if fd ≥ FS_OPEN_MAX_COUNT ∨ fd < 0 then -1
  else
    let open_file_index := (s.descriptor_table fd.toNat).open_file_index
    if open_file_index ≥ FS_OPEN_MAX_COUNT ∨ open_file_index < 0 then -1
    else if (s.file_table open_file_index.toNat).filename = [] then -1
    else open_file_index

/-- `fs_open`. -/
def fs_open (s : State) (filename : List Nat) : Ret :=
  if check_file s filename ≠ 0 then ⟨-1, s⟩
  else if get_dir s filename = -1 then ⟨-1, s⟩
  else
    let fd := get_empty_fd s
    let open_file_index := file_is_open s filename
    if fd = -1 then ⟨-1, s⟩
    else if open_file_index ≠ -1 then
      let k := open_file_index.toNat
      let e : open_file :=
        { s.file_table k with open_count := to_uint8 ((s.file_table k).open_count + 1) }
      let s1 := { s with file_table := upd s.file_table k e }
      ⟨fd, reset_descriptor s1 fd.toNat 0 open_file_index⟩
    else
      let open_file_index := get_empty_open_file s
      if open_file_index ≠ -1 then
        ⟨fd, reset_descriptor
          (reset_file s open_file_index.toNat filename 1 (to_uint8 (get_dir s filename)))
          fd.toNat 0 open_file_index⟩
      else ⟨-1, s⟩

/-- `fs_close`. -/
def fs_close (s : State) (fd : Int) : Ret :=
  let open_file_index := check_fd s fd
  if open_file_index = -1 then ⟨-1, s⟩
  else
    let s1 := reset_descriptor s fd.toNat 0 (-1)
    let k := open_file_index.toNat
    let c := to_uint8 (((s1.file_table k).open_count : Int) - 1)
    let s2 := { s1 with file_table := upd s1.file_table k { s1.file_table k with open_count := c } }
    if (c : Int) ≤ 0 then ⟨0, reset_file s2 k [] 0 FS_FILE_MAX_COUNT⟩ else ⟨0, s2⟩

/-- `fs_stat`: the file size converted to the `int` that is returned. -/
def fs_stat (s : State) (fd : Int) : Int :=
  let open_file_index := check_fd s fd
  if open_file_index = -1 then -1
  else to_int (s.root (s.file_table open_file_index.toNat).root_index).file_size

/-- `check_offset`; `offset` is a `size_t`, so `offset < 0` is never true and
`offset > file_size` compares it with `file_size` converted to `size_t`. -/
def check_offset (s : State) (fd : Int) (offset : Nat) : Int :=
  let file_size := fs_stat s fd
  if file_size < 0 then -1
  else if offset > to_size_t file_size then -1
  else 0

/-- `fs_lseek`; `offset` is the `size_t` argument. -/
def fs_lseek (s : State) (fd : Int) (offset : Nat) : Ret :=
  if check_fd s fd = -1 then ⟨-1, s⟩
  else if check_offset s fd offset ≠ 0 then ⟨-1, s⟩
  else
    let d : descriptor := { s.descriptor_table fd.toNat with offset := to_uint32 offset }
    ⟨0, { s with descriptor_table := upd s.descriptor_table fd.toNat d }⟩

/-! ## The byte-range engine -/

/-- The loop `while (block_num > 0) { block_index = FAT[block_index]; block_num--; }`.
The FAT is a total map here, where `fs.c` has an array of `FAT_cells` cells;
`follow_cells` lists the cells the loop reads, to say when they lie inside it. -/
def follow (FAT : Nat → Nat) : Nat → Nat → Nat
  | 0, block_index => block_index
  | block_num + 1, block_index => follow FAT block_num (FAT block_index)

/-- `get_block_index_by_offset`: the chain node `offset / BLOCK_SIZE` links
after the first block of the file behind `fd`. -/
def get_block_index_by_offset (s : State) (fd : Nat) (offset : Nat) : Nat :=
  let fd_index := (s.descriptor_table fd).open_file_index.toNat
  let root_index := (s.file_table fd_index).root_index
  let block_index := (s.root root_index).first_index
  follow s.FAT (offset / BLOCK_SIZE) block_index

/-- `update_size`: `count` is a `size_t`, so `offset + count > file_size`
compares in `size_t`, and the two stores truncate to `uint32_t`. -/
def update_size (s : State) (fd : Nat) (count : Nat) : State :=
  let file_size := fs_stat s fd
  let fd_index := (s.descriptor_table fd).open_file_index.toNat
  let root_index := (s.file_table fd_index).root_index
  let offset := (s.descriptor_table fd).offset
  let e : rootdir := { s.root root_index with file_size := to_uint32 (offset + count : Nat) }
  let s1 : State :=
    if (offset + count) % 2 ^ 64 > to_size_t file_size then
      { s with root := upd s.root root_index e }
    else s
  let d : descriptor := { s1.descriptor_table fd with offset := to_uint32 (offset + count : Nat) }
  { s1 with descriptor_table := upd s1.descriptor_table fd d }

/-- The loop `while (new_block_num > 0)` of `allocate_new_block`, with
`new_block_num` iterations left at `block_index`. -/
def allocate_loop : Nat → State → Nat → Ret
  | 0, s, _ => ⟨0, s⟩
  | new_block_num + 1, s, block_index =>
      if s.FAT block_index = FAT_EOC then
        let new_block_index := get_empty_block s
        if new_block_index = -1 then ⟨-1, s⟩
        else
          let FAT1 := upd s.FAT block_index (to_uint16 new_block_index)
          let FAT2 := upd FAT1 new_block_index.toNat FAT_EOC
          allocate_loop new_block_num { s with FAT := FAT2 } new_block_index.toNat
      else allocate_loop new_block_num s (s.FAT block_index)

/-- `allocate_new_block`; `written_size` is a `size_t`, and so is
`(offset + written_size - 1) / BLOCK_SIZE`. -/
def allocate_new_block (s : State) (fd : Nat) (written_size : Nat) : Ret :=
  let fd_index := (s.descriptor_table fd).open_file_index.toNat
  let root_index := (s.file_table fd_index).root_index
  let block_index := (s.root root_index).first_index
  let offset := (s.descriptor_table fd).offset
  let new_block_num := to_size_t ((offset : Int) + written_size - 1) / BLOCK_SIZE
  allocate_loop new_block_num s block_index

/-- `read_by_blk`: the block is read into a scratch buffer and a part of it
copied to the caller's buffer at `buf + pos`.  `junk` is what the fresh
scratch buffer holds, which is what is copied when the device read fails. -/
def read_by_blk (s : State) (junk : Nat → Nat) (blk_index : Nat) (buf : Nat → Nat) (pos : Nat)
    (read_size : Nat) (type : block_type) (fd : Nat) : Nat → Nat :=
  let my_buf := match block_read s.disk blk_index with
    | some b => b
    | none => junk
  match type with
  | .First => fun i =>
      if pos ≤ i ∧ i < pos + read_size then my_buf (BLOCK_SIZE - read_size + (i - pos)) else buf i
  | .Middle => fun i =>
      if pos ≤ i ∧ i < pos + BLOCK_SIZE then my_buf (i - pos) else buf i
  | .Last => fun i =>
      if pos ≤ i ∧ i < pos + read_size then my_buf (i - pos) else buf i
  | .Short => fun i =>
      if pos ≤ i ∧ i < pos + read_size
      then my_buf ((s.descriptor_table fd).offset % BLOCK_SIZE + (i - pos)) else buf i

/-- The state of the transfer loops: bytes left, current chain node, and the
position reached in the caller's buffer. -/
structure Cursor where
  data_amount : Nat
  current_block : Nat
  pos : Nat
deriving DecidableEq

/-- The loop `while (data_amount > BLOCK_SIZE)` of `read_blks`.  Each round
takes `BLOCK_SIZE` bytes off `data_amount`, so `fuel = data_amount` rounds are
never used up.  The FAT and the caller's buffer are total maps here;
`read_loop_cells` lists the FAT cells the loop reads and `fs_read_stored` counts
the bytes stored, to say when both stay inside the memory `fs.c` has. -/
def read_loop (s : State) (junk : Nat → Nat) (fd : Nat) :
    Nat → Cursor → (Nat → Nat) → Cursor × (Nat → Nat)
  | 0, c, buf => (c, buf)
  | fuel + 1, c, buf =>
      if c.data_amount > BLOCK_SIZE then
        read_loop s junk fd fuel
          ⟨c.data_amount - BLOCK_SIZE, s.FAT c.current_block, c.pos + BLOCK_SIZE⟩
          (read_by_blk s junk (s.super_block.data_start_index + c.current_block) buf c.pos
            BLOCK_SIZE .Middle fd)
      else (c, buf)

/-- `read_blks`: returns the `size_t` result, the state and the buffer. -/
def read_blks (s : State) (junk : Nat → Nat) (fd : Nat) (buf : Nat → Nat) (read_size : Nat) :
    Nat × State × (Nat → Nat) :=
  let offset := (s.descriptor_table fd).offset
  let first_block_amount := BLOCK_SIZE - offset % BLOCK_SIZE
  let current_block := get_block_index_by_offset s fd offset
  let d : descriptor := { s.descriptor_table fd with offset := to_uint32 (offset + read_size : Nat) }
  let s1 : State := { s with descriptor_table := upd s.descriptor_table fd d }
  if read_size ≤ first_block_amount then
    (read_size, s1,
      read_by_blk s junk (s.super_block.data_start_index + current_block) buf 0 read_size .Short fd)
  else
    let buf1 := read_by_blk s junk (s.super_block.data_start_index + current_block) buf 0
      first_block_amount .First fd
    let r := read_loop s junk fd (read_size - first_block_amount)
      ⟨read_size - first_block_amount, s.FAT current_block, first_block_amount⟩ buf1
    (read_size, s1,
      read_by_blk s junk (s.super_block.data_start_index + r.1.current_block) r.2 r.1.pos
        r.1.data_amount .Last fd)

/-- `write_by_blk`: the block is read into a scratch buffer, a part of it
overwritten from the caller's buffer at `buf + pos`, and the block written
back.  When the device read fails so does the write of the same block, and
the device is left as it was. -/
def write_by_blk (s : State) (blk_index : Nat) (buf : Nat → Nat) (pos : Nat) (write_size : Nat)
    (type : block_type) (fd : Nat) : State :=
  match block_read s.disk blk_index with
  | none => s
  | some my_buf =>
    let img : Nat → Nat :=
      match type with
      | .First => fun j =>
          if BLOCK_SIZE - write_size ≤ j ∧ j < BLOCK_SIZE
          then buf (pos + (j - (BLOCK_SIZE - write_size))) else my_buf j
      | .Middle => fun j => if j < BLOCK_SIZE then buf (pos + j) else my_buf j
      | .Last => fun j => if j < write_size then buf (pos + j) else my_buf j
      | .Short => fun j =>
          let o := (s.descriptor_table fd).offset % BLOCK_SIZE
          if o ≤ j ∧ j < o + write_size then buf (pos + (j - o)) else my_buf j
    match block_write s.disk blk_index img with
    | none => s
    | some d => { s with disk := d }

/-- The loop `while (data_amount > BLOCK_SIZE)` of `write_blks`.  The first
component is `true` when the loop left through the end-of-chain test (the
early `return`).  Each round takes `BLOCK_SIZE` bytes off `data_amount`, so
`fuel = data_amount` rounds are never used up. -/
def write_loop (fd : Nat) (buf : Nat → Nat) : Nat → Cursor → State → Bool × Cursor × State
  | 0, c, s => (false, c, s)
  | fuel + 1, c, s =>
      if c.data_amount > BLOCK_SIZE then
        if c.current_block = FAT_EOC then (true, c, s)
        else
          write_loop fd buf fuel
            ⟨c.data_amount - BLOCK_SIZE, s.FAT c.current_block, c.pos + BLOCK_SIZE⟩
            (write_by_blk s (s.super_block.data_start_index + c.current_block) buf c.pos
              BLOCK_SIZE .Middle fd)
      else (false, c, s)

/-- `write_blks`: returns the `size_t` result and the state. -/
def write_blks (s : State) (fd : Nat) (buf : Nat → Nat) (write_size : Nat) : Nat × State :=
  let offset := (s.descriptor_table fd).offset
  let first_block_amount := BLOCK_SIZE - offset % BLOCK_SIZE
  let current_block := get_block_index_by_offset s fd offset
  if write_size ≤ first_block_amount then
    let s1 := write_by_blk s (s.super_block.data_start_index + current_block) buf 0 write_size
      .Short fd
    (write_size, update_size s1 fd write_size)
  else
    let s1 := write_by_blk s (s.super_block.data_start_index + current_block) buf 0
      first_block_amount .First fd
    let r := write_loop fd buf (write_size - first_block_amount)
      ⟨write_size - first_block_amount, s1.FAT current_block, first_block_amount⟩ s1
    if r.1 then
      (write_size - r.2.1.data_amount, update_size r.2.2 fd (write_size - r.2.1.data_amount))
    else
      let s2 := write_by_blk r.2.2 (r.2.2.super_block.data_start_index + r.2.1.current_block) buf
        r.2.1.pos r.2.1.data_amount .Last fd
      (write_size, update_size s2 fd write_size)

/-- `fs_write`; `count` is the `size_t` argument, the result of `write_blks`
is returned as an `int`.  The result of `allocate_new_block` is not looked at. -/
def fs_write (s : State) (fd : Int) (buf : Nat → Nat) (count : Nat) : Ret :=
  let open_file_index := check_fd s fd
  if open_file_index = -1 then ⟨-1, s⟩
  else
    let s1 := (allocate_new_block s fd.toNat count).st
    let r := write_blks s1 fd.toNat buf count
    ⟨to_int r.1, r.2⟩

/-- `fs_read`; `count` is the `size_t` argument.  `offset >= file_size`
compares in `unsigned int`, `offset + count <= file_size` in `size_t`, and
`read_size` is an `int` that `read_blks` takes as a `size_t`. -/
def fs_read (s : State) (junk : Nat → Nat) (fd : Int) (buf : Nat → Nat) (count : Nat) : RetBuf :=
  let file_size := fs_stat s fd
  let open_file_index := check_fd s fd
  if open_file_index = -1 then ⟨-1, s, buf⟩
  else
    let offset := (s.descriptor_table fd.toNat).offset
    if offset ≥ to_uint32 file_size then ⟨0, s, buf⟩
    else
      let read_size : Int :=
        if (offset + count) % 2 ^ 64 ≤ to_size_t file_size then to_int count
        else to_int (to_uint32 (file_size - offset))
      let r := read_blks s junk fd.toNat buf (to_size_t read_size)
      ⟨to_int r.1, r.2.1, r.2.2⟩


/-! ## Vocabulary of the statements -/

/-- The open-file table slot a descriptor refers to. -/
def entry_of (s : State) (fd : Int) : Nat :=
  (s.descriptor_table fd.toNat).open_file_index.toNat

/-- The directory slot of the file behind a descriptor. -/
def slot_of (s : State) (fd : Int) : Nat :=
  (s.file_table (entry_of s fd)).root_index

/-- The size of the file behind a descriptor. -/
def size_of (s : State) (fd : Int) : Nat :=
  (s.root (slot_of s fd)).file_size

/-- The cursor of a descriptor. -/
def cursor_of (s : State) (fd : Int) : Nat :=
  (s.descriptor_table fd.toNat).offset

/-- The state `s` with the cursor of descriptor slot `fd` set to `offset` and
nothing else changed. -/
def with_cursor (s : State) (fd : Nat) (offset : Nat) : State :=
  let d : descriptor := ⟨(s.descriptor_table fd).open_file_index, offset⟩
  { s with descriptor_table := upd s.descriptor_table fd d }

/-- The two states have the same directory, descriptor table, open-file
table, mount flag and superblock; they may differ in the FAT and on the device. -/
def same_tables (s t : State) : Prop :=
  t.root = s.root ∧ t.descriptor_table = s.descriptor_table ∧ t.file_table = s.file_table ∧
    t.mounted = s.mounted ∧ t.super_block = s.super_block

/-- Walking the FAT from block `b` visits exactly the blocks of the list, in
order, and the entry of the last one is the end-of-chain mark. -/
def is_chain (FAT : Nat → Nat) : Nat → List Nat → Bool
  | _, [] => false
  | b, [x] => decide (x = b) && decide (FAT b = FAT_EOC)
  | b, x :: y :: l =>
      decide (x = b) && decide (FAT b ≠ FAT_EOC) && decide (FAT b = y) && is_chain FAT y (y :: l)

/-- Every slot of the open-file table that holds a name is referred to by some
descriptor. -/
def registry_in_use (s : State) : Prop :=
  ∀ k, k < 32 → (s.file_table k).filename ≠ [] →
    ∃ fd, fd < 32 ∧ (s.descriptor_table fd).open_file_index = (k : Int)

instance (s : State) : Decidable (registry_in_use s) := by
  unfold registry_in_use
  infer_instance

/-- The conditions on a superblock and the block count `B` of the device, in
the words of the layout: the signature is `"ECS150FS"`, the total is `B`, the
directory follows the FAT, the data region follows the directory, the data
blocks are what is left of the device, and the FAT has
`ceil(2 * data_blocks / 4096)` blocks. -/
def superblock_ok (sb : superblock) (B : Nat) : Prop :=
  sb.signature = ECS150FS ∧
  sb.virtual_disk_amount = B ∧
  sb.root_index = sb.FAT_amount + 1 ∧
  sb.data_start_index = sb.root_index + 1 ∧
  (sb.data_amount : Int) = (B : Int) - sb.FAT_amount - 2 ∧
  (sb.FAT_amount : Int) = ⌈((2 * sb.data_amount : Nat) : ℚ) / 4096⌉

/-- The state after `fs_create` has been called with each name of the list in
turn. -/
def create_all : State → List (List Nat) → State
  | s, [] => s
  | s, n :: ns => create_all (fs_create s n).st ns

/-- The values returned by `fs_create` called with each name of the list in
turn. -/
def create_results : State → List (List Nat) → List Int
  | _, [] => []
  | s, n :: ns => (fs_create s n).val :: create_results (fs_create s n).st ns

/-- The file name `"f<i>"` written with the byte `i` after the letter (`i` from
1), 128 pairwise distinct valid names for `i < 128`. -/
def numbered_names : List (List Nat) := (List.range 128).map (fun i => [102, i + 1])

/-- The number of descriptor slots bound to slot `k` of the open-file table. -/
def bound_count (s : State) (k : Nat) : Nat :=
  count_loop (fun fd => decide ((s.descriptor_table fd).open_file_index = (k : Int)))
    FS_OPEN_MAX_COUNT 0

/-- The descriptor table and the open-file table agree: every descriptor is
unused (`-1`) or bound to a slot in `[0, 32)`, the `open_count` of every slot is
the number of descriptors bound to it, and a slot has the empty name exactly
when its count is 0. -/
def registry_ok (s : State) : Prop :=
  (∀ fd, fd < 32 → (s.descriptor_table fd).open_file_index = -1 ∨
    (0 ≤ (s.descriptor_table fd).open_file_index ∧
      (s.descriptor_table fd).open_file_index < 32)) ∧
  (∀ k, k < 32 → (s.file_table k).open_count = bound_count s k) ∧
  (∀ k, k < 32 → ((s.file_table k).filename = [] ↔ (s.file_table k).open_count = 0))

instance (s : State) : Decidable (registry_ok s) := by
  unfold registry_ok
  infer_instance

/-- The state after `fs_open(name)` has been called `n` times in a row. -/
def open_all (s : State) (name : List Nat) : Nat → State
  | 0 => s
  | n + 1 => (fs_open (open_all s name n) name).st

/-! ## Concrete volumes and scenarios -/

/-- The superblock of a volume with `data_blocks` data blocks. -/
def mkfs_superblock (data_blocks : Nat) : superblock :=
  { signature := ECS150FS
    virtual_disk_amount := data_blocks + (2 * data_blocks + BLOCK_SIZE - 1) / BLOCK_SIZE + 2
    root_index := (2 * data_blocks + BLOCK_SIZE - 1) / BLOCK_SIZE + 1
    data_start_index := (2 * data_blocks + BLOCK_SIZE - 1) / BLOCK_SIZE + 2
    data_amount := data_blocks
    FAT_amount := (2 * data_blocks + BLOCK_SIZE - 1) / BLOCK_SIZE
    padding := fun _ => 0 }

/-- A device holding a valid superblock, a FAT whose entries are all free and
an empty directory. -/
def blank_disk (data_blocks : Nat) : Disk :=
  { count := data_blocks + (2 * data_blocks + BLOCK_SIZE - 1) / BLOCK_SIZE + 2
    blocks := fun b =>
      if b = 0 then block_of_superblock (mkfs_superblock data_blocks) else fun _ => 0 }

/-- The globals before any mount. -/
def unmounted : State :=
  { root := fun _ => ⟨[], 0, 0⟩
    super_block := ⟨[], 0, 0, 0, 0, 0, fun _ => 0⟩
    FAT := fun _ => 0
    mounted := false
    descriptor_table := fun _ => ⟨-1, 0⟩
    file_table := fun _ => ⟨[], 0, 0⟩
    disk := ⟨0, fun _ _ => 0⟩ }

/-- Memory that reads as zero. -/
def zero_mem : Nat → Nat := fun _ => 0

/-- A buffer whose bytes are all `1`. -/
def ones : Nat → Nat := fun _ => 1

/-- A buffer whose bytes are all `1` except byte 4096, which is `2`. -/
def marked : Nat → Nat := fun i => if i = 4096 then 2 else 1

/-- The file name `"a"`. -/
def name_a : List Nat := [97]

/-- The file name `"b"`. -/
def name_b : List Nat := [98]

/-- The state after mounting a blank volume of `data_blocks` data blocks. -/
def mounted_blank (data_blocks : Nat) : State :=
  (fs_mount unmounted (some (blank_disk data_blocks)) zero_mem).st

/-- On a blank volume of 8 data blocks: create `a`, create `b`, delete `a`.
File `b` owns block 1 and block 0 is free again. -/
def hole_state : State :=
  match fs_delete 8 (fs_create (fs_create (mounted_blank 8) name_a).st name_b).st name_a with
  | some r => r.st
  | none => mounted_blank 8

/-- `hole_state` with `b` opened (descriptor 0). -/
def hole_open : State := (fs_open hole_state name_b).st

/-- `hole_open` after writing 8192 bytes through descriptor 0 and closing it. -/
def hole_written : State := (fs_close (fs_write hole_open 0 ones 8192).st 0).st

/-- On a blank volume of one data block: create `a` and open it once
(descriptor 0).  The file owns the only data block. -/
def full_open : State := (fs_open (fs_create (mounted_blank 1) name_a).st name_a).st

/-- `full_open` with `a` opened a second time (descriptor 1). -/
def full_open_twice : State := (fs_open full_open name_a).st

/-- A mounted volume of 2049 data blocks (its FAT takes two blocks) whose one
file `a` owns every data block: the chain runs `0, 1, ..., 2048`. -/
def two_fat_blocks : State :=
  { mounted_blank 2049 with
    FAT := fun k => if k < 2048 then k + 1 else if k = 2048 then FAT_EOC else 0
    root := upd (mounted_blank 2049).root 0 ⟨name_a, 2049 * 4096, 0⟩ }

/-- A device with one data block, laid out like `blank_disk 1`, whose FAT
entry 0 is the end-of-chain mark and whose directory holds one file `a` with
first block 0 and a recorded size of `2 ^ 31` bytes. -/
def crafted_disk : Disk :=
  { count := 4
    blocks := fun b =>
      if b = 0 then block_of_superblock (mkfs_superblock 1)
      else if b = 1 then bytes_of_words (fun k => if k = 0 then FAT_EOC else 0) 0
      else if b = 2 then
        block_of_root (fun i => if i = 0 then ⟨name_a, 2 ^ 31, 0⟩ else ⟨[], 0, 0⟩)
      else fun _ => 0 }

/-- `crafted_disk` mounted and its file `a` opened (descriptor 0, cursor 0). -/
def huge_open : State :=
  (fs_open (fs_mount unmounted (some crafted_disk) zero_mem).st name_a).st

/-- On a blank volume of one data block: create `a`, open it, write two bytes
and seek to offset 1. -/
def two_bytes : State := (fs_lseek (fs_write full_open 0 ones 2).st 0 1).st

/-- On a blank volume of 8 data blocks: create `a` and open it twice
(descriptors 0 and 1). -/
def busy_state : State :=
  (fs_open (fs_open (fs_create (mounted_blank 8) name_a).st name_a).st name_a).st

/-- `busy_state` after closing descriptor 0 and then descriptor 1. -/
def idle_state : State := (fs_close (fs_close busy_state 0).st 1).st

/-- A call of the file API on a volume: `fs_create`, `fs_delete`, `fs_open`,
`fs_close`, `fs_stat`, `fs_lseek`, `fs_read` (with the contents `junk` of its
scratch buffer and the caller's buffer) and `fs_write`. -/
inductive Call where
  | create (filename : List Nat)
  | delete (filename : List Nat)
  | open_ (filename : List Nat)
  | close (fd : Int)
  | stat (fd : Int)
  | lseek (fd : Int) (offset : Nat)
  | read (fd : Int) (junk buf : Nat → Nat) (count : Nat)
  | write (fd : Int) (buf : Nat → Nat) (count : Nat)

/-- The state after one call; `none` when the walk of `free_FAT` inside
`fs_delete` does not end within `fuel` steps. -/
def step (fuel : Nat) (s : State) : Call → Option State
  | .create filename => some (fs_create s filename).st
  | .delete filename =>
      match fs_delete fuel s filename with
      | some r => some r.st
      | none => none
  | .open_ filename => some (fs_open s filename).st
  | .close fd => some (fs_close s fd).st
  | .stat _ => some s
  | .lseek fd offset => some (fs_lseek s fd offset).st
  | .read fd junk buf count => some (fs_read s junk fd buf count).st
  | .write fd buf count => some (fs_write s fd buf count).st

/-- The state after a sequence of calls. -/
def run (fuel : Nat) : State → List Call → Option State
  | s, [] => some s
  | s, c :: cs =>
      match step fuel s c with
      | some t => run fuel t cs
      | none => none

/-- The non-empty directory slots hold pairwise distinct names. -/
def names_distinct (s : State) : Prop :=
  ∀ i, i < 128 → ∀ j, j < 128 → (s.root i).filename ≠ [] →
    (s.root i).filename = (s.root j).filename → i = j

instance (s : State) : Decidable (names_distinct s) := by
  unfold names_distinct
  infer_instance

/-- Every directory slot holds a name shorter than 16 bytes. -/
def names_short (s : State) : Prop :=
  ∀ i, i < 128 → (s.root i).filename.length < 16

instance (s : State) : Decidable (names_short s) := by
  unfold names_short
  infer_instance

/-- The name of 16 bytes `"aaaaaaaaaaaaaaaa"`, which fills the name field of a
directory slot and leaves no room for the terminator. -/
def long_name : List Nat := List.replicate 16 97

/-- A device laid out like `blank_disk 2` whose directory slot 0 has the 16
bytes of its name field set to `'a'`, size 0 and first block 0 (FAT entry 0 is
the end-of-chain mark, data block 1 is free). -/
def long_name_disk : Disk :=
  { count := 5
    blocks := fun b =>
      if b = 0 then block_of_superblock (mkfs_superblock 2)
      else if b = 1 then bytes_of_words (fun k => if k = 0 then FAT_EOC else 0) 0
      else if b = 2 then
        block_of_root (fun i => if i = 0 then ⟨long_name, 0, 0⟩ else ⟨[], 0, 0⟩)
      else fun _ => 0 }

/-- `long_name_disk` mounted. -/
def long_name_mounted : State := (fs_mount unmounted (some long_name_disk) zero_mem).st

/-- Every live entry of the open-file table points at a directory slot in
`[0, 128)` that holds the entry's name. -/
def links_ok (s : State) : Prop :=
  ∀ k, k < 32 → (s.file_table k).filename ≠ [] →
    (s.file_table k).root_index < 128 ∧
      (s.root (s.file_table k).root_index).filename = (s.file_table k).filename

/-- Every directory slot records a size below `2 ^ 31`. -/
def sizes_ok (s : State) : Prop := ∀ i, i < 128 → (s.root i).file_size < 2 ^ 31

instance (s : State) : Decidable (sizes_ok s) := by
  unfold sizes_ok
  infer_instance

/-- The cursor of every descriptor bound to a live entry of the open-file
table is at most the size of the entry's file. -/
def cursors_ok (s : State) : Prop :=
  ∀ fd k : Nat, fd < 32 → k < 32 → (s.descriptor_table fd).open_file_index = (k : Int) →
    (s.file_table k).filename ≠ [] →
    (s.descriptor_table fd).offset ≤ (s.root (s.file_table k).root_index).file_size

/-- The invariant of a mounted volume carried along a run of calls. -/
def volume_ok (s : State) : Prop :=
  s.mounted = true ∧ registry_ok s ∧ links_ok s ∧ sizes_ok s ∧ cursors_ok s

/-- For a `fs_write` call through a valid descriptor: cursor plus count stays
below `2 ^ 31`.  Every other call passes. -/
def write_in_range (s : State) : Call → Bool
  | .write fd _ count => decide (check_fd s fd ≠ -1 → cursor_of s fd + count < 2 ^ 31)
  | _ => true

/-- Every `fs_write` call of the run is in range in the state it is made in. -/
def writes_in_range (fuel : Nat) : State → List Call → Bool
  | _, [] => true
  | s, c :: cs =>
      write_in_range s c &&
        (match step fuel s c with
         | some t => writes_in_range fuel t cs
         | none => true)

/-- A device laid out like `blank_disk 1` whose directory holds one file `a`
with first block 0 and a recorded size of `2 ^ 31` bytes, and whose FAT entry 0
is 0: the chain of `a` never ends, block 0 follows block 0. -/
def looped_disk : Disk :=
  { count := 4
    blocks := fun b =>
      if b = 0 then block_of_superblock (mkfs_superblock 1)
      else if b = 2 then
        block_of_root (fun i => if i = 0 then ⟨name_a, 2 ^ 31, 0⟩ else ⟨[], 0, 0⟩)
      else fun _ => 0 }

/-- `looped_disk` mounted. -/
def looped_mounted : State := (fs_mount unmounted (some looped_disk) zero_mem).st

/-- On `looped_mounted`: open `a` (descriptor 0), read `2 ^ 31 - 1` bytes, read
2 bytes. -/
def looped_far : State :=
  (fs_read (fs_read (fs_open looped_mounted name_a).st zero_mem 0 zero_mem (2 ^ 31 - 1)).st
    zero_mem 0 zero_mem 2).st

/-- A run on a blank volume: create `a`, open it twice (descriptors 0 and 1),
write 10 bytes through descriptor 0, seek descriptor 1 to offset 5 and read 3
bytes through it, then close descriptor 0. -/
def sample_calls : List Call :=
  [.create name_a, .open_ name_a, .open_ name_a, .write 0 ones 10, .lseek 1 5,
    .read 1 zero_mem zero_mem 3, .close 0]

/-- The byte of the file at position `p`, as a caller sees it: seek the
descriptor to `p` and read one byte into a zeroed buffer. -/
def byte_at (s : State) (junk : Nat → Nat) (fd : Int) (p : Nat) : Nat :=
  (fs_read (fs_lseek s fd p).st junk fd zero_mem 1).buf 0

/-- A buffer whose bytes are all `2`. -/
def twos : Nat → Nat := fun _ => 2

/-- On a blank volume of 30721 data blocks (its FAT takes 16 blocks, so that
entry `0xFFFF` lies inside the memory allocated for the FAT): create `a`, create
`b`, delete `a`, open `b` (descriptor 0).  File `b` owns block 1 and block 0 is
free again. -/
def wide_open : State :=
  match fs_delete 8 (fs_create (fs_create (mounted_blank 30721) name_a).st name_b).st name_a with
  | some r => (fs_open r.st name_b).st
  | none => mounted_blank 30721

/-- `wide_open` after writing 8192 bytes of value 1 through descriptor 0: the
file has size 8192, the chain `1, 0` and the cursor at 8192. -/
def wide_written : State := (fs_write wide_open 0 ones 8192).st

/-- `wide_written` after writing 4096 more bytes, of value 2, at cursor 8192. -/
def wide_extended : State := (fs_write wide_written 0 twos 4096).st

/-- The file name `"c"`. -/
def name_c : List Nat := [99]

/-- On a blank volume: create `a`, create `b`, delete `a`, open `b` (descriptor
0), write 8192 bytes through it and close it. -/
def hole_calls : List Call :=
  [.create name_a, .create name_b, .delete name_a, .open_ name_b, .write 0 ones 8192, .close 0]

/-- On a blank volume of 8 data blocks: create `a` and open it (descriptor 0,
cursor 0).  The file owns block 0 and the other 7 blocks are free. -/
def single_open : State := (fs_open (fs_create (mounted_blank 8) name_a).st name_a).st

/-- No two slots of the open-file table with a non-empty name hold the same
name. -/
def registry_distinct (s : State) : Prop :=
  ∀ j, j < 32 → ∀ k, k < 32 → (s.file_table j).filename ≠ [] →
    (s.file_table j).filename = (s.file_table k).filename → j = k

instance (s : State) : Decidable (registry_distinct s) := by
  unfold registry_distinct
  infer_instance

/-- `looped_disk` mounted, `a` opened (descriptor 0) and `2 ^ 31 - 1` bytes read
through it: the cursor stands at `2 ^ 31 - 1` on a file of recorded size
`2 ^ 31`.  Every block the read visits is data block 0. -/
def looped_near : State :=
  (fs_read (fs_open looped_mounted name_a).st zero_mem 0 zero_mem (2 ^ 31 - 1)).st

/-- The number of `uint16_t` cells of the array that `fs_mount` allocates for the
FAT: `malloc(BLOCK_SIZE * FAT_amount * sizeof(uint16_t))`. -/
def FAT_cells (s : State) : Nat := BLOCK_SIZE * s.super_block.FAT_amount

/-- The FAT cells that the loop of `get_block_index_by_offset` reads: each round
reads `FAT[block_index]`. -/
def follow_cells (FAT : Nat → Nat) : Nat → Nat → List Nat
  | 0, _ => []
  | block_num + 1, block_index => block_index :: follow_cells FAT block_num (FAT block_index)

/-- The FAT cells that the loop `while (data_amount > BLOCK_SIZE)` of `read_blks`
reads: each round reads `FAT[current_block]`. -/
def read_loop_cells (s : State) : Nat → Cursor → List Nat
  | 0, _ => []
  | fuel + 1, c =>
      if c.data_amount > BLOCK_SIZE then
        c.current_block ::
          read_loop_cells s fuel
            ⟨c.data_amount - BLOCK_SIZE, s.FAT c.current_block, c.pos + BLOCK_SIZE⟩
      else []

/-- The FAT cells that `read_blks` reads, in order: those of
`get_block_index_by_offset`, and, when the request leaves the first block,
`FAT[current_block]` after the first transfer and after each whole block. -/
def read_blks_cells (s : State) (fd : Nat) (read_size : Nat) : List Nat :=
  let offset := (s.descriptor_table fd).offset
  let first_block_amount := BLOCK_SIZE - offset % BLOCK_SIZE
  let fd_index := (s.descriptor_table fd).open_file_index.toNat
  let root_index := (s.file_table fd_index).root_index
  let block_index := (s.root root_index).first_index
  let current_block := get_block_index_by_offset s fd offset
  if read_size ≤ first_block_amount then follow_cells s.FAT (offset / BLOCK_SIZE) block_index
  else
    follow_cells s.FAT (offset / BLOCK_SIZE) block_index ++
      current_block ::
        read_loop_cells s (read_size - first_block_amount)
          ⟨read_size - first_block_amount, s.FAT current_block, first_block_amount⟩

/-- The `read_size` that `fs_read` hands to `read_blks`, as the `size_t` it is
taken as; `none` when `fs_read` returns before calling `read_blks`. -/
def fs_read_size (s : State) (fd : Int) (count : Nat) : Option Nat :=
  let file_size := fs_stat s fd
  let open_file_index := check_fd s fd
  if open_file_index = -1 then none
  else
    let offset := (s.descriptor_table fd.toNat).offset
    if offset ≥ to_uint32 file_size then none
    else
      let read_size : Int :=
        if (offset + count) % 2 ^ 64 ≤ to_size_t file_size then to_int count
        else to_int (to_uint32 (file_size - offset))
      some (to_size_t read_size)

/-- The FAT cells that `fs_read` reads: those of its call of `read_blks`. -/
def fs_read_cells (s : State) (fd : Int) (count : Nat) : List Nat :=
  match fs_read_size s fd count with
  | none => []
  | some read_size => read_blks_cells s fd.toNat read_size

/-- The number of bytes that `fs_read` stores into the caller's buffer:
`read_blks` stores `read_size` bytes, from `buf` on. -/
def fs_read_stored (s : State) (fd : Int) (count : Nat) : Nat :=
  match fs_read_size s fd count with
  | none => 0
  | some read_size => read_size


/-! # Theorems -/

/-! ## Basic facts about stores and scans -/

@[simp] theorem upd_same {α : Type} (a : Nat → α) (i : Nat) (v : α) : upd a i v i = v := by
  simp [upd]

theorem upd_other {α : Type} (a : Nat → α) (i j : Nat) (v : α) (h : j ≠ i) :
    upd a i v j = a j := by
  simp [upd, h]

theorem find_first_eq_neg_one_iff (p : Nat → Bool) (n i : Nat) :
    find_first p n i = -1 ↔ ∀ j, i ≤ j → j < i + n → p j = false := by
  induction n generalizing i with
  | zero =>
    simp only [find_first, true_iff]
    intro j h1 h2
    omega
  | succ n ih =>
    simp only [find_first]
    by_cases hp : p i = true
    · simp only [hp, if_true]
      constructor
      · intro h
        omega
      · intro h
        have := h i (le_refl i) (by omega)
        simp [hp] at this
    · simp only [hp, if_false, Bool.false_eq_true]
      rw [ih (i + 1)]
      constructor
      · intro h j h1 h2
        by_cases hj : j = i
        · subst hj
          simpa using hp
        · exact h j (by omega) (by omega)
      · intro h j h1 h2
        exact h j (by omega) (by omega)

theorem find_first_spec (p : Nat → Bool) (n i : Nat) (h : find_first p n i ≠ -1) :
    ∃ k : Nat, find_first p n i = (k : Int) ∧ i ≤ k ∧ k < i + n ∧ p k = true ∧
      ∀ j, i ≤ j → j < k → p j = false := by
  induction n generalizing i with
  | zero => simp [find_first] at h
  | succ n ih =>
    simp only [find_first] at h ⊢
    by_cases hp : p i = true
    · refine ⟨i, by simp [hp], le_refl i, by omega, hp, ?_⟩
      intro j h1 h2
      omega
    · simp only [hp, if_false, Bool.false_eq_true] at h ⊢
      obtain ⟨k, hk, h1, h2, h3, h4⟩ := ih (i + 1) h
      refine ⟨k, hk, by omega, by omega, h3, ?_⟩
      intro j hj1 hj2
      by_cases hj : j = i
      · subst hj
        simpa using hp
      · exact h4 j (by omega) hj2

theorem count_loop_eq_zero_iff (p : Nat → Bool) (n i : Nat) :
    count_loop p n i = 0 ↔ ∀ j, i ≤ j → j < i + n → p j = false := by
  induction n generalizing i with
  | zero =>
    simp only [count_loop, true_iff]
    intro j h1 h2
    omega
  | succ n ih =>
    simp only [count_loop, Nat.add_eq_zero, ih (i + 1)]
    constructor
    · rintro ⟨h0, h⟩ j h1 h2
      by_cases hj : j = i
      · subst hj
        by_cases hp : p j = true
        · simp [hp] at h0
        · simpa using hp
      · exact h j (by omega) (by omega)
    · intro h
      refine ⟨?_, fun j h1 h2 => h j (by omega) (by omega)⟩
      have := h i (le_refl i) (by omega)
      simp [this]

theorem check_file_loop_eq (filename : List Nat) (n f_len : Nat) :
    check_file_loop filename n f_len =
      if filename.length ≤ f_len then f_len else min filename.length (f_len + n) := by
  induction n generalizing f_len with
  | zero =>
    simp only [check_file_loop]
    split <;> omega
  | succ n ih =>
    simp only [check_file_loop]
    by_cases h : filename.length ≤ f_len
    · simp [h]
    · simp only [h, if_false]
      rw [ih (f_len + 1)]
      split <;> omega

theorem check_file_eq_zero_iff (s : State) (filename : List Nat) :
    check_file s filename = 0 ↔
      s.mounted = true ∧ filename ≠ [] ∧ filename.length < 16 := by
  unfold check_file
  rw [check_file_loop_eq]
  simp only [FS_FILENAME_LEN]
  by_cases hm : s.mounted = true
  · by_cases hn : filename = []
    · simp [hm, hn]
    · have hl : 0 < filename.length := List.length_pos.mpr hn
      simp only [hm, hn, if_false, Bool.true_eq_false, not_false_eq_true, true_and, ne_eq]
      have h0 : ¬ filename.length ≤ 0 := by omega
      simp only [h0, if_false, Nat.zero_add]
      by_cases h16 : filename.length < 16
      · have : ¬ (min filename.length 16 ≥ 16) := by omega
        simp [this, h16]
      · have : min filename.length 16 ≥ 16 := by omega
        simp [this, h16]
  · simp [hm]

theorem check_file_cases (s : State) (filename : List Nat) :
    check_file s filename = 0 ∨ check_file s filename = -1 := by
  unfold check_file
  split
  · right; rfl
  · split
    · right; rfl
    · split
      · right; rfl
      · left; rfl


/-! ## Creation -/

theorem get_dir_eq_neg_one_iff (s : State) (filename : List Nat) :
    get_dir s filename = -1 ↔ ∀ i, i < 128 → (s.root i).filename ≠ filename := by
  unfold get_dir
  rw [find_first_eq_neg_one_iff]
  simp only [FS_FILE_MAX_COUNT, Nat.zero_add, decide_eq_false_iff_not, ne_eq]
  exact ⟨fun h i hi => h i (Nat.zero_le i) hi, fun h i _ hi => h i hi⟩

theorem get_empty_dir_num_eq_zero_iff (s : State) :
    get_empty_dir_num s = 0 ↔ ∀ i, i < 128 → (s.root i).filename ≠ [] := by
  unfold get_empty_dir_num
  rw [count_loop_eq_zero_iff]
  simp only [FS_FILE_MAX_COUNT, Nat.zero_add, decide_eq_false_iff_not, ne_eq]
  exact ⟨fun h i hi => h i (Nat.zero_le i) hi, fun h i _ hi => h i hi⟩

theorem get_empty_block_eq_neg_one_iff (s : State) :
    get_empty_block s = -1 ↔ ∀ b, b < s.super_block.data_amount → s.FAT b ≠ 0 := by
  unfold get_empty_block
  rw [find_first_eq_neg_one_iff]
  simp only [Nat.zero_add, decide_eq_false_iff_not, ne_eq]
  exact ⟨fun h i hi => h i (Nat.zero_le i) hi, fun h i _ hi => h i hi⟩

/-- C8: `fs_create(name)` returns `-1` exactly when the volume is unmounted, or the
name is empty, or the name has 16 or more bytes before its terminator, or some
directory entry already has that name, or no directory slot is free, or no data
block is free; otherwise it returns `0`.  Whenever it returns `-1` the whole state,
the directory and the FAT included, is unchanged.  A 15-byte name passes the name
check and is created when the other conditions allow it. -/
theorem fs_create_fails_exactly_when_documented (s : State) (name : List Nat) :
    ((fs_create s name).val = -1 ↔
      (s.mounted = false ∨ name = [] ∨ 16 ≤ name.length ∨
        (∃ i, i < 128 ∧ (s.root i).filename = name) ∨
        (∀ i, i < 128 → (s.root i).filename ≠ []) ∨
        (∀ b, b < s.super_block.data_amount → s.FAT b ≠ 0))) ∧
    ((fs_create s name).val = -1 ∨ (fs_create s name).val = 0) ∧
    ((fs_create s name).val = -1 →
      (fs_create s name).st = s ∧ (fs_create s name).st.root = s.root ∧
        (fs_create s name).st.FAT = s.FAT) ∧
    (name.length = 15 →
      (check_file s name = 0 ↔ s.mounted = true) ∧
      ((fs_create s name).val = 0 ↔
        (s.mounted = true ∧ (∀ i, i < 128 → (s.root i).filename ≠ name) ∧
          (∃ i, i < 128 ∧ (s.root i).filename = []) ∧
          (∃ b, b < s.super_block.data_amount ∧ s.FAT b = 0)))) := by
  have hmain : ((fs_create s name).val = -1 ↔
      (s.mounted = false ∨ name = [] ∨ 16 ≤ name.length ∨
        (∃ i, i < 128 ∧ (s.root i).filename = name) ∨
        (∀ i, i < 128 → (s.root i).filename ≠ []) ∨
        (∀ b, b < s.super_block.data_amount → s.FAT b ≠ 0))) := by
    unfold fs_create
    by_cases hc : check_file s name = 0
    · have hc2 := (check_file_eq_zero_iff s name).mp hc
      obtain ⟨hm, hn, hl⟩ := hc2
      simp only [hc, ne_eq, not_true_eq_false, if_false]
      by_cases hd : (get_empty_dir_num s : Int) ≤ 0
      · have hd0 : get_empty_dir_num s = 0 := by omega
        simp only [hd, if_true, true_iff]
        exact Or.inr (Or.inr (Or.inr (Or.inr (Or.inl ((get_empty_dir_num_eq_zero_iff s).mp hd0)))))
      · have hd0 : ¬ get_empty_dir_num s = 0 := by omega
        have hfree : ¬ ∀ i, i < 128 → (s.root i).filename ≠ [] :=
          fun h => hd0 ((get_empty_dir_num_eq_zero_iff s).mpr h)
        simp only [hd, if_false]
        by_cases hg : get_dir s name = -1
        · have hg2 := (get_dir_eq_neg_one_iff s name).mp hg
          simp only [hg, not_true_eq_false, if_false]
          by_cases hb : get_empty_block s = -1
          · simp only [hb, if_true, true_iff]
            exact Or.inr (Or.inr (Or.inr (Or.inr (Or.inr
              ((get_empty_block_eq_neg_one_iff s).mp hb)))))
          · have hb2 : ¬ ∀ b, b < s.super_block.data_amount → s.FAT b ≠ 0 :=
              fun h => hb ((get_empty_block_eq_neg_one_iff s).mpr h)
            simp only [hb, if_false]
            constructor
            · intro h
              norm_num at h
            · rintro (h | h | h | ⟨i, hi, h⟩ | h | h)
              · simp [hm] at h
              · exact absurd h hn
              · omega
              · exact absurd h (hg2 i hi)
              · exact absurd h hfree
              · exact absurd h hb2
        · simp only [hg, not_false_eq_true, if_true, true_iff]
          have : ¬ ∀ i, i < 128 → (s.root i).filename ≠ name :=
            fun h => hg ((get_dir_eq_neg_one_iff s name).mpr h)
          push_neg at this
          exact Or.inr (Or.inr (Or.inr (Or.inl this)))
    · simp only [hc, ne_eq, not_false_eq_true, if_true, true_iff]
      have hc2 := mt (check_file_eq_zero_iff s name).mpr hc
      by_cases hm : s.mounted = true
      · by_cases hn : name = []
        · exact Or.inr (Or.inl hn)
        · have : ¬ name.length < 16 := fun h => hc2 ⟨hm, hn, h⟩
          exact Or.inr (Or.inr (Or.inl (by omega)))
      · left
        simpa using hm
  have hcases : (fs_create s name).val = -1 ∨ (fs_create s name).val = 0 := by
    unfold fs_create
    split
    · left; rfl
    · split
      · left; rfl
      · split
        · left; rfl
        · dsimp only
          split
          · left; rfl
          · right; rfl
  have hsame : (fs_create s name).val = -1 → (fs_create s name).st = s := by
    unfold fs_create
    split
    · intro _; rfl
    · split
      · intro _; rfl
      · split
        · intro _; rfl
        · dsimp only
          split
          · intro _; rfl
          · intro h
            norm_num at h
  refine ⟨hmain, hcases, fun h => ⟨hsame h, by rw [hsame h], by rw [hsame h]⟩, ?_⟩
  intro h15
  have hne : name ≠ [] := by
    intro h
    rw [h] at h15
    simp at h15
  refine ⟨?_, ?_⟩
  · rw [check_file_eq_zero_iff]
    constructor
    · exact fun h => h.1
    · exact fun h => ⟨h, hne, by omega⟩
  · constructor
    · intro h0
      have hnot : ¬ (fs_create s name).val = -1 := by
        rw [h0]
        norm_num
      rw [hmain] at hnot
      push_neg at hnot
      obtain ⟨h1, _, _, h4, h5, h6⟩ := hnot
      refine ⟨by simpa using h1, h4, ?_, ?_⟩
      · obtain ⟨i, hi, h⟩ := h5
        exact ⟨i, hi, h⟩
      · obtain ⟨b, hb, h⟩ := h6
        exact ⟨b, hb, h⟩
    · rintro ⟨hm, hx, ⟨i, hi, hfree⟩, ⟨b, hb, hblk⟩⟩
      rcases hcases with h | h
      · rw [hmain] at h
        rcases h with h | h | h | ⟨j, hj, h⟩ | h | h
        · simp [hm] at h
        · exact absurd h hne
        · omega
        · exact absurd h (hx j hj)
        · exact absurd hfree (h i hi)
        · exact absurd hblk (h b hb)
      · exact h


/-! ## Descriptors and integer conversions -/

theorem to_int_of_lt {x : Nat} (h : x < 2 ^ 31) : to_int x = (x : Int) := by
  unfold to_int
  have h1 : x % 2 ^ 32 = x := Nat.mod_eq_of_lt (by omega)
  rw [h1]
  rw [if_pos h]

theorem to_int_nonneg_iff {x : Nat} (h : x < 2 ^ 32) : 0 ≤ to_int x ↔ x < 2 ^ 31 := by
  unfold to_int
  have h1 : x % 2 ^ 32 = x := Nat.mod_eq_of_lt h
  rw [h1]
  split <;> omega

theorem to_size_t_of_nat (x : Nat) (h : x < 2 ^ 64) : to_size_t (x : Int) = x := by
  unfold to_size_t
  have : ((x : Int) % 2 ^ 64) = (x : Int) := Int.emod_eq_of_lt (by omega) (by omega)
  rw [this]
  simp

theorem to_uint32_of_nat (x : Nat) (h : x < 2 ^ 32) : to_uint32 (x : Int) = x := by
  unfold to_uint32
  have : ((x : Int) % 2 ^ 32) = (x : Int) := Int.emod_eq_of_lt (by omega) (by omega)
  rw [this]
  simp

theorem upd_self {α : Type} (a : Nat → α) (i : Nat) : upd a i (a i) = a := by
  funext j
  unfold upd
  split
  · next h => rw [h]
  · rfl

theorem check_fd_ne_iff (s : State) (fd : Int) :
    check_fd s fd ≠ -1 ↔
      (s.mounted = true ∧ 0 ≤ fd ∧ fd < 32 ∧
        0 ≤ (s.descriptor_table fd.toNat).open_file_index ∧
        (s.descriptor_table fd.toNat).open_file_index < 32 ∧
        (s.file_table (entry_of s fd)).filename ≠ []) := by
  unfold check_fd entry_of
  simp only [FS_OPEN_MAX_COUNT]
  by_cases hm : s.mounted = true
  · by_cases h1 : (fd ≥ ((32 : Nat) : Int) ∨ fd < 0)
    · simp only [hm, h1, if_true, Bool.true_eq_false, if_false, ne_eq, not_true_eq_false,
        true_and, false_iff]
      intro h
      omega
    · by_cases h2 : ((s.descriptor_table fd.toNat).open_file_index ≥ ((32 : Nat) : Int) ∨
          (s.descriptor_table fd.toNat).open_file_index < 0)
      · simp only [hm, h1, h2, if_true, Bool.true_eq_false, if_false, ne_eq, not_true_eq_false,
          true_and, false_iff]
        intro h
        omega
      · by_cases h3 : (s.file_table (s.descriptor_table fd.toNat).open_file_index.toNat).filename
            = []
        · simp [hm, h1, h2, h3]
        · simp only [hm, h1, h2, h3, if_false, Bool.true_eq_false, ne_eq, not_false_eq_true,
            true_and, and_true]
          constructor
          · intro _
            omega
          · intro _
            omega
  · simp [hm]

theorem check_fd_eq (s : State) (fd : Int) (h : check_fd s fd ≠ -1) :
    check_fd s fd = (s.descriptor_table fd.toNat).open_file_index := by
  unfold check_fd at h ⊢
  split
  · next h1 => simp [h1] at h
  · next h1 =>
    split
    · next h2 => simp [h1, h2] at h
    · next h2 =>
      dsimp only at h ⊢
      split
      · next h3 => simp [h1, h2, h3] at h
      · next h3 =>
        split
        · next h4 => simp [h1, h2, h3, h4] at h
        · rfl

theorem check_fd_toNat (s : State) (fd : Int) (h : check_fd s fd ≠ -1) :
    (check_fd s fd).toNat = entry_of s fd := by
  rw [check_fd_eq s fd h]
  rfl

theorem fs_stat_of_valid (s : State) (fd : Int) (h : check_fd s fd ≠ -1) :
    fs_stat s fd = to_int (size_of s fd) := by
  unfold fs_stat
  simp only [h, if_false]
  rw [check_fd_toNat s fd h]
  rfl

theorem fs_stat_of_invalid (s : State) (fd : Int) (h : check_fd s fd = -1) :
    fs_stat s fd = -1 := by
  unfold fs_stat
  simp [h]


/-! ## Seek -/

/-- C7 (as amended): when the size of the referenced file is below `2 ^ 31`,
`fs_lseek(fd, offset)` returns `0` exactly when `fd` is a valid bound descriptor
(mounted volume, `fd` in `[0, 32)`, bound to a live entry of the open-file table)
and `offset` is at most the file size; on success the state changes only in the
cursor of `fd`, which becomes `offset`; otherwise the call returns `-1` and the
state is unchanged. -/
theorem fs_lseek_bounds (s : State) (fd : Int) (offset : Nat)
    (hsize : check_fd s fd ≠ -1 → size_of s fd < 2 ^ 31) :
    ((fs_lseek s fd offset).val = 0 ↔ (check_fd s fd ≠ -1 ∧ offset ≤ size_of s fd)) ∧
    (check_fd s fd ≠ -1 ↔
      (s.mounted = true ∧ 0 ≤ fd ∧ fd < 32 ∧
        0 ≤ (s.descriptor_table fd.toNat).open_file_index ∧
        (s.descriptor_table fd.toNat).open_file_index < 32 ∧
        (s.file_table (entry_of s fd)).filename ≠ [])) ∧
    ((fs_lseek s fd offset).val = 0 →
      (fs_lseek s fd offset).st = with_cursor s fd.toNat offset) ∧
    ((fs_lseek s fd offset).val ≠ 0 →
      (fs_lseek s fd offset).val = -1 ∧ (fs_lseek s fd offset).st = s) := by
  refine ⟨?_, check_fd_ne_iff s fd, ?_, ?_⟩
  · unfold fs_lseek
    by_cases hv : check_fd s fd = -1
    · simp [hv]
    · have hs := hsize hv
      have hst : fs_stat s fd = (size_of s fd : Int) := by
        rw [fs_stat_of_valid s fd hv, to_int_of_lt hs]
      have h64 : to_size_t (size_of s fd : Int) = size_of s fd :=
        to_size_t_of_nat _ (by omega)
      simp only [hv, if_false, check_offset, hst, h64]
      have hn : ¬ ((size_of s fd : Int) < 0) := by omega
      simp only [hn, if_false]
      by_cases ho : offset > size_of s fd
      · simp only [ho, if_true]
        constructor
        · intro h
          norm_num at h
        · intro h
          omega
      · simp only [ho, if_false]
        simp only [ne_eq, not_true_eq_false, if_false, not_false_eq_true, true_and, true_iff]
        omega
  · unfold fs_lseek
    by_cases hv : check_fd s fd = -1
    · simp [hv]
    · have hs := hsize hv
      have hst : fs_stat s fd = (size_of s fd : Int) := by
        rw [fs_stat_of_valid s fd hv, to_int_of_lt hs]
      have h64 : to_size_t (size_of s fd : Int) = size_of s fd :=
        to_size_t_of_nat _ (by omega)
      simp only [hv, if_false, check_offset, hst, h64]
      have hn : ¬ ((size_of s fd : Int) < 0) := by omega
      simp only [hn, if_false]
      by_cases ho : offset > size_of s fd
      · simp only [ho, if_true]
        intro h
        norm_num at h
      · simp only [ho, if_false]
        simp only [ne_eq, not_true_eq_false, if_false]
        intro _
        have : to_uint32 (offset : Int) = offset := to_uint32_of_nat _ (by omega)
        rw [this]
        rfl
  · unfold fs_lseek
    split
    · intro _
      exact ⟨rfl, rfl⟩
    · split
      · intro _
        exact ⟨rfl, rfl⟩
      · intro h
        exact absurd rfl h

/-- C7 (counterexample): a mounted device records the size `2 ^ 31` for file
`a`; the file is open as descriptor 0, which is valid.  The offset `0` lies
within `[0, file_size]`, and yet `fs_lseek(0, 0)` returns `-1`, because
`fs_stat` hands the size back as a negative `int`. -/
theorem fs_lseek_fails_on_huge_size :
    huge_open.mounted = true ∧ check_fd huge_open 0 = 0 ∧ size_of huge_open 0 = 2 ^ 31 ∧
    (0 : Nat) ≤ size_of huge_open 0 ∧ (fs_lseek huge_open 0 0).val = -1 := by
  decide!

/-- C7 (witness): on a one-block volume with file `a` open as descriptor 0 and
empty, seeking to offset 0 succeeds and seeking to offset 1 fails. -/
theorem fs_lseek_bounds_witness :
    (check_fd full_open 0 ≠ -1 → size_of full_open 0 < 2 ^ 31) ∧
    (fs_lseek full_open 0 0).val = 0 ∧ ¬ (fs_lseek full_open 0 1).val = 0 :=
  ⟨by decide!,
   (fs_lseek_bounds full_open 0 0 (by decide!)).1.mpr (by decide!),
   fun h => absurd ((fs_lseek_bounds full_open 0 1 (by decide!)).1.mp h).2 (by decide!)⟩


/-! ## Runs of the code on concrete volumes -/

/-- C1 (the code at the failing input): on a blank 8-block volume, after
create `a`, create `b`, delete `a`, open `b`, the file `b` has the well-formed
one-block chain `[1]`, block 0 and six more blocks are free, and every data
block is on the device.  Writing 12288 bytes (three blocks) at cursor 0 returns
4096, not 12288: `allocate_new_block` links the free block 0 after block 1, which
makes `FAT[1] == 0` read as free, and the next round hands block 1 out again.
Afterwards the chain is still `[1]`, block 0 is lost (`FAT[0] == 1`) and only 6
blocks are free. -/
theorem fs_write_short_despite_free_blocks :
    hole_open.mounted = true ∧ check_fd hole_open 0 = 0 ∧
    cursor_of hole_open 0 = 0 ∧ size_of hole_open 0 = 0 ∧
    (hole_open.root (slot_of hole_open 0)).first_index = 1 ∧
    is_chain hole_open.FAT 1 [1] = true ∧
    hole_open.FAT 0 = 0 ∧
    get_empty_block_num hole_open = 7 ∧
    hole_open.super_block.data_start_index + hole_open.super_block.data_amount
      ≤ hole_open.disk.count ∧
    (fs_write hole_open 0 ones 12288).val = 4096 ∧
    size_of (fs_write hole_open 0 ones 12288).st 0 = 4096 ∧
    is_chain (fs_write hole_open 0 ones 12288).st.FAT 1 [1] = true ∧
    (fs_write hole_open 0 ones 12288).st.FAT 0 = 1 ∧
    get_empty_block_num (fs_write hole_open 0 ones 12288).st = 6 := by
  decide!

/-- C2 (the code at the failing input): on a volume with one data block, owned
by the open file `a`, no block is free.  A write of 4097 bytes at cursor 0
returns 4097 (not less than the request), the size and the cursor become 4097
although the chain still has one block of 4096 bytes: the first 4096 bytes are
in block 0 of the chain, and the last byte went to block
`data_start_index + 0xFFFF`, which the device does not have. -/
theorem fs_write_full_count_on_full_disk :
    check_fd full_open 0 = 0 ∧ cursor_of full_open 0 = 0 ∧ size_of full_open 0 = 0 ∧
    (full_open.root (slot_of full_open 0)).first_index = 0 ∧
    is_chain full_open.FAT 0 [0] = true ∧
    get_empty_block_num full_open = 0 ∧
    (fs_write full_open 0 ones 4097).val = 4097 ∧
    size_of (fs_write full_open 0 ones 4097).st 0 = 4097 ∧
    cursor_of (fs_write full_open 0 ones 4097).st 0 = 4097 ∧
    is_chain (fs_write full_open 0 ones 4097).st.FAT 0 [0] = true ∧
    (block_read (fs_write full_open 0 ones 4097).st.disk
      (full_open.super_block.data_start_index + 0)).map (fun b => b 4095) = some 1 ∧
    (block_read (fs_write full_open 0 ones 4097).st.disk
      (full_open.super_block.data_start_index + FAT_EOC)).isNone = true := by
  decide!

set_option maxRecDepth 1000000 in
/-- C3 (the code at the failing input): a mounted volume of 2049 data blocks
(two FAT blocks), no descriptor in use, whose file `a` owns the chain
`0, 1, ..., 2048`.  Unmount and mount of the same device both return 0, the
superblock is accepted and `FAT[2047]` comes back, but `FAT[2048]`, the
end-of-chain mark before the unmount, is not read from the device: it is
whatever the fresh memory held (0 for memory that reads as zero).  Both loops
step through `FAT` by `BLOCK_SIZE` entries, not by the `BLOCK_SIZE / 2` entries
a block holds, so entries 2048 to 4095 are neither written nor read. -/
theorem remount_loses_second_FAT_block_entries :
    (two_fat_blocks.mounted = true ∧ descriptor_check two_fat_blocks = 0 ∧
      error_check two_fat_blocks = 0 ∧
      two_fat_blocks.super_block.data_amount = 2049 ∧
      two_fat_blocks.super_block.FAT_amount = 2 ∧
      (fs_umount two_fat_blocks).val = 0 ∧
      (fs_mount (fs_umount two_fat_blocks).st (some (fs_umount two_fat_blocks).st.disk)
        zero_mem).val = 0 ∧
      two_fat_blocks.FAT 2047 = 2048 ∧
      (fs_mount (fs_umount two_fat_blocks).st (some (fs_umount two_fat_blocks).st.disk)
        zero_mem).st.FAT 2047 = 2048 ∧
      two_fat_blocks.FAT 2048 = 65535 ∧
      (fs_mount (fs_umount two_fat_blocks).st (some (fs_umount two_fat_blocks).st.disk)
        zero_mem).st.FAT 2048 = 0) ∧
    ∀ heap : Nat → Nat,
      (fs_mount (fs_umount two_fat_blocks).st (some (fs_umount two_fat_blocks).st.disk)
        heap).st.FAT 2048 = heap 2048 := by
  refine ⟨by decide!, ?_⟩
  intro heap
  rfl

theorem fs_read_through_read_blks (s : State) (junk : Nat → Nat) (fd : Int) (buf : Nat → Nat)
    (count n : Nat) (h : fs_read_size s fd count = some n) :
    (fs_read s junk fd buf count).val = to_int n ∧
    (fs_read s junk fd buf count).buf = (read_blks s junk fd.toNat buf n).2.2 := by
  unfold fs_read_size at h
  unfold fs_read
  by_cases h1 : check_fd s fd = -1
  · simp only [h1, if_true] at h
    exact absurd h (by simp)
  · simp only [h1, if_false] at h ⊢
    by_cases h2 : (s.descriptor_table fd.toNat).offset ≥ to_uint32 (fs_stat s fd)
    · simp only [h2, if_true] at h
      exact absurd h (by simp)
    · simp only [h2, if_false] at h ⊢
      have hn := Option.some.inj h
      rw [hn]
      have hr : (read_blks s junk fd.toNat buf n).1 = n := by
        unfold read_blks
        by_cases hs : n ≤ BLOCK_SIZE - (s.descriptor_table fd.toNat).offset % BLOCK_SIZE
        · rw [if_pos hs]
        · rw [if_neg hs]
      exact ⟨by rw [hr], rfl⟩

theorem read_blks_one_past_block (s : State) (junk : Nat → Nat) (fd : Int) (buf : Nat → Nat)
    (hoff : (s.descriptor_table fd.toNat).offset % BLOCK_SIZE = 0)
    (hfail : (block_read s.disk (s.super_block.data_start_index
      + s.FAT (get_block_index_by_offset s fd.toNat
          (s.descriptor_table fd.toNat).offset))).isNone = true) :
    (read_blks s junk fd.toNat buf 4097).2.2 4096 = junk 0 := by
  have hnone := Option.isNone_iff_eq_none.mp hfail
  unfold read_blks
  simp only [hoff, Nat.sub_zero]
  have hgt : ¬ 4097 ≤ BLOCK_SIZE := by decide
  rw [if_neg hgt]
  have h1 : 4097 - BLOCK_SIZE = 1 := by decide
  simp only [h1]
  have hloop : ∀ b, read_loop s junk fd.toNat 1 ⟨1, s.FAT (get_block_index_by_offset s fd.toNat
      (s.descriptor_table fd.toNat).offset), BLOCK_SIZE⟩ b
      = (⟨1, s.FAT (get_block_index_by_offset s fd.toNat (s.descriptor_table fd.toNat).offset),
          BLOCK_SIZE⟩, b) := by
    intro b
    unfold read_loop
    have : ¬ (1 > BLOCK_SIZE) := by decide
    simp only [this, if_false]
  rw [hloop]
  unfold read_by_blk
  simp only [hnone]
  have : BLOCK_SIZE ≤ 4096 ∧ 4096 < BLOCK_SIZE + 1 := by decide
  simp only [this, and_self, if_true]
  have h0 : 4096 - BLOCK_SIZE = 0 := by decide
  rw [h0]

/-- C4 (the code at the failing input): on a volume with one data block, file
`a` is open twice (descriptors 0 and 1, the same directory slot).  The buffer
`marked` holds the byte 1 everywhere except at position 4096, where it holds 2.
Writing its first 4097 bytes through descriptor 0 at cursor 0 returns 4097 and
seeking descriptor 1 to 0 succeeds.  Reading 4097 bytes through descriptor 1
returns 4097 and byte 4095 of what is read is the byte written, but byte 4096 is
byte 0 of the scratch buffer of `read_by_blk`, whatever that buffer holds
(`junk`), and not the byte 2 that was written: the write of that byte went to
block `data_start_index + 0xFFFF`, which the device does not have, and the
device read behind it fails as well. -/
theorem shared_read_misses_unstored_byte :
    (check_fd full_open_twice 0 = 0 ∧ check_fd full_open_twice 1 = 0 ∧
      slot_of full_open_twice 0 = slot_of full_open_twice 1 ∧
      (fs_write full_open_twice 0 marked 4097).val = 4097 ∧
      (fs_lseek (fs_write full_open_twice 0 marked 4097).st 1 0).val = 0 ∧
      marked 4095 = 1 ∧ marked 4096 = 2 ∧
      (fs_read (fs_lseek (fs_write full_open_twice 0 marked 4097).st 1 0).st zero_mem 1 zero_mem
        4097).buf 4095 = 1 ∧
      (fs_read (fs_lseek (fs_write full_open_twice 0 marked 4097).st 1 0).st zero_mem 1 zero_mem
        4097).buf 4096 = 0 ∧
      (fs_read (fs_lseek (fs_write full_open_twice 0 marked 4097).st 1 0).st ones 1 zero_mem
        4097).buf 4096 = 1 ∧
      (fs_write full_open_twice 0 marked 4097).st.disk.count
        < (fs_write full_open_twice 0 marked 4097).st.super_block.data_start_index + 0xFFFF) ∧
    ∀ junk : Nat → Nat,
      (fs_read (fs_lseek (fs_write full_open_twice 0 marked 4097).st 1 0).st junk 1 zero_mem
        4097).val = 4097 ∧
      (fs_read (fs_lseek (fs_write full_open_twice 0 marked 4097).st 1 0).st junk 1 zero_mem
        4097).buf 4096 = junk 0 := by
  refine ⟨by decide!, ?_⟩
  intro junk
  have hsz : fs_read_size (fs_lseek (fs_write full_open_twice 0 marked 4097).st 1 0).st 1 4097
      = some 4097 := by decide!
  obtain ⟨hv, hb⟩ := fs_read_through_read_blks
    (fs_lseek (fs_write full_open_twice 0 marked 4097).st 1 0).st junk 1 zero_mem 4097 4097 hsz
  refine ⟨by rw [hv]; decide, ?_⟩
  rw [hb]
  exact read_blks_one_past_block (fs_lseek (fs_write full_open_twice 0 marked 4097).st 1 0).st
    junk 1 zero_mem (by decide!) (by decide!)

/-- C10 (the code at the failing input): on a blank 8-block volume, after
create `a`, create `b`, delete `a`, open `b`, write 8192 bytes, close, the file
`b` is not open and its chain is `1, 0`: acyclic and ended by the end-of-chain
mark.  `fs_delete` returns 0, but the number of free blocks grows from 7 to 8, by
one and not by the chain length two: the entry of block 1 was `0`, the index of
its successor, and was already counted as free. -/
theorem fs_delete_frees_fewer_than_chain_length :
    hole_written.mounted = true ∧ get_dir hole_written name_b = 1 ∧
    file_is_open hole_written name_b = -1 ∧
    (hole_written.root 1).first_index = 1 ∧
    is_chain hole_written.FAT 1 [1, 0] = true ∧
    get_empty_block_num hole_written = 7 ∧
    (fs_delete 2 hole_written name_b).map Ret.val = some 0 ∧
    (fs_delete 2 hole_written name_b).map (fun r => get_empty_block_num r.st) = some 8 := by
  decide!


/-! ## Deletion -/

theorem file_is_open_eq_neg_one_iff (s : State) (filename : List Nat) :
    file_is_open s filename = -1 ↔ ∀ k, k < 32 → (s.file_table k).filename ≠ filename := by
  unfold file_is_open
  rw [find_first_eq_neg_one_iff]
  simp only [FS_OPEN_MAX_COUNT, Nat.zero_add, decide_eq_false_iff_not, ne_eq]
  exact ⟨fun h i hi => h i (Nat.zero_le i) hi, fun h i _ hi => h i hi⟩

theorem is_chain_congr (F G : Nat → Nat) (l : List Nat) :
    ∀ b : Nat, (∀ i ∈ l, F i = G i) → is_chain F b l = is_chain G b l := by
  induction l with
  | nil =>
    intro b _
    rfl
  | cons x l ih =>
    intro b h
    cases l with
    | nil =>
      simp only [is_chain]
      by_cases hx : x = b
      · have := h x (by simp)
        rw [hx] at this
        rw [this]
      · simp [hx]
    | cons y l =>
      simp only [is_chain]
      have hy := ih y (fun i hi => h i (List.mem_cons_of_mem x hi))
      rw [hy]
      by_cases hx : x = b
      · have := h x (by simp)
        rw [hx] at this
        rw [this]
      · simp [hx]

theorem free_FAT_of_chain (l : List Nat) :
    ∀ (F : Nat → Nat) (b fuel : Nat), is_chain F b l = true → l.Nodup → l.length ≤ fuel →
      free_FAT fuel F b = some (fun i => if i ∈ l then 0 else F i) := by
  induction l with
  | nil =>
    intro F b fuel h
    simp [is_chain] at h
  | cons x l ih =>
    intro F b fuel h hnd hfuel
    cases l with
    | nil =>
      simp only [is_chain, Bool.and_eq_true, decide_eq_true_eq] at h
      obtain ⟨hx, he⟩ := h
      cases fuel with
      | zero => simp at hfuel
      | succ fuel =>
        simp only [free_FAT, he, ne_eq, not_true_eq_false, if_false]
        congr 1
        funext i
        simp only [upd, List.mem_singleton, hx]
    | cons y l =>
      simp only [is_chain, Bool.and_eq_true, decide_eq_true_eq] at h
      obtain ⟨⟨⟨hx, hne⟩, hy⟩, hrest⟩ := h
      cases fuel with
      | zero => simp at hfuel
      | succ fuel =>
        have hnd2 : (y :: l).Nodup := (List.nodup_cons.mp hnd).2
        have hxn : x ∉ y :: l := (List.nodup_cons.mp hnd).1
        have hcongr : is_chain (upd F b 0) y (y :: l) = is_chain F y (y :: l) := by
          apply is_chain_congr
          intro i hi
          have : i ≠ b := by
            intro hib
            rw [hib, ← hx] at hi
            exact hxn hi
          exact upd_other F b i 0 this
        have hlen : (y :: l).length ≤ fuel := by
          simp only [List.length_cons] at hfuel ⊢
          omega
        have := ih (upd F b 0) y fuel (by rw [hcongr]; exact hrest) hnd2 hlen
        have hstep : free_FAT (fuel + 1) F b = free_FAT fuel (upd F b 0) (F b) := by
          simp only [free_FAT, ne_eq, hne, not_false_eq_true, if_true]
        rw [hstep, hy, this]
        congr 1
        funext i
        by_cases hib : i = b
        · have hix : i = x := by rw [hib, hx]
          simp [hix, ← hx]
        · have hix : i ≠ x := by rw [hx]; exact hib
          simp only [List.mem_cons, hix, false_or]
          split
          · rfl
          · exact upd_other F b i 0 hib

theorem follow_succ (F : Nat → Nat) (n b : Nat) : follow F (n + 1) b = follow F n (F b) := rfl

theorem is_chain_walk (F : Nat → Nat) (l : List Nat) :
    ∀ b : Nat, is_chain F b l = true →
      F (follow F (l.length - 1) b) = FAT_EOC ∧
      ∀ j, j < l.length - 1 → F (follow F j b) ≠ FAT_EOC := by
  induction l with
  | nil =>
    intro b h
    simp [is_chain] at h
  | cons x l ih =>
    intro b h
    cases l with
    | nil =>
      simp only [is_chain, Bool.and_eq_true, decide_eq_true_eq] at h
      refine ⟨h.2, ?_⟩
      intro j hj
      simp at hj
    | cons y l =>
      simp only [is_chain, Bool.and_eq_true, decide_eq_true_eq] at h
      obtain ⟨⟨⟨_, hne⟩, hy⟩, hrest⟩ := h
      obtain ⟨h1, h2⟩ := ih y hrest
      simp only [List.length_cons, Nat.add_sub_cancel] at h1 h2 ⊢
      constructor
      · rw [follow_succ, hy]
        exact h1
      · intro j hj
        cases j with
        | zero => exact hne
        | succ j =>
          rw [follow_succ, hy]
          exact h2 j (by omega)

theorem is_chain_reaches_end (F : Nat → Nat) (l : List Nat) :
    ∀ b : Nat, is_chain F b l = true →
      ∀ z ∈ l, ∃ k, k < l.length ∧ F (follow F k z) = FAT_EOC := by
  induction l with
  | nil =>
    intro b h
    simp [is_chain] at h
  | cons x l ih =>
    intro b h z hz
    have hwalk := is_chain_walk F (x :: l) b h
    have hxb : x = b := by
      cases l with
      | nil =>
        simp only [is_chain, Bool.and_eq_true, decide_eq_true_eq] at h
        exact h.1
      | cons y l =>
        simp only [is_chain, Bool.and_eq_true, decide_eq_true_eq] at h
        exact h.1.1.1
    rcases List.mem_cons.mp hz with hzx | hzl
    · refine ⟨(x :: l).length - 1, by simp, ?_⟩
      rw [hzx, hxb]
      exact hwalk.1
    · cases l with
      | nil => simp at hzl
      | cons y l =>
        simp only [is_chain, Bool.and_eq_true, decide_eq_true_eq] at h
        obtain ⟨k, hk, hkz⟩ := ih y h.2 z hzl
        exact ⟨k, by simp only [List.length_cons] at hk ⊢; omega, hkz⟩

theorem is_chain_nodup (F : Nat → Nat) (l : List Nat) :
    ∀ b : Nat, is_chain F b l = true → l.Nodup := by
  induction l with
  | nil =>
    intro b _
    exact List.nodup_nil
  | cons x l ih =>
    intro b h
    cases l with
    | nil => exact List.nodup_singleton x
    | cons y l =>
      have hwalk := is_chain_walk F (x :: y :: l) b h
      simp only [is_chain, Bool.and_eq_true, decide_eq_true_eq] at h
      obtain ⟨⟨⟨hxb, _⟩, _⟩, hrest⟩ := h
      refine List.nodup_cons.mpr ⟨?_, ih y hrest⟩
      intro hmem
      obtain ⟨k, hk, hkz⟩ := is_chain_reaches_end F (y :: l) y hrest x hmem
      rw [hxb] at hkz
      exact hwalk.2 k (by simp only [List.length_cons] at hk ⊢; omega) hkz

theorem free_FAT_on_loop (fuel : Nat) :
    ∀ (F : Nat → Nat) (b : Nat), F b = 0 → b = 0 → free_FAT fuel F b = none := by
  induction fuel with
  | zero =>
    intro F b _ _
    rfl
  | succ fuel ih =>
    intro F b hF hb
    have hne : F b ≠ FAT_EOC := by
      rw [hF]
      decide
    simp only [free_FAT, hne, ne_eq, not_false_eq_true, if_true]
    apply ih
    · rw [hF, hb]
      exact upd_same _ _ _
    · exact hF

/-- C9 (as amended): (1) if some valid descriptor is open on the file `name`
(it is bound to an entry of the open-file table holding that name),
`fs_delete(name)` returns `-1` and leaves the whole state (directory, FAT,
open-file table, descriptor table) unchanged.  (2) Conversely, on a mounted
volume where `name` is a valid name of an existing file, every named entry of the
open-file table is referred to by some descriptor (as in every state the calls
of the library reach from a mount: `registry_ok_run`,
`registry_in_use_of_registry_ok`), no descriptor slot is open on `name` any
more, and the walk of the FAT from the first block of the file reaches the
end-of-chain mark (through the blocks `l`), `fs_delete(name)` finishes, within as
many steps as the chain has blocks, and returns `0`. -/
theorem fs_delete_busy_guard (s : State) (name : List Nat) :
    (∀ (fuel : Nat) (fd : Int), check_fd s fd ≠ -1 →
        (s.file_table (entry_of s fd)).filename = name →
        fs_delete fuel s name = some ⟨-1, s⟩) ∧
    (s.mounted = true → name ≠ [] → name.length < 16 →
      (∃ i, i < 128 ∧ (s.root i).filename = name) →
      registry_in_use s →
      (∀ fd : Nat, fd < 32 → check_fd s fd ≠ -1 →
        (s.file_table (entry_of s fd)).filename ≠ name) →
      ∀ l : List Nat,
        is_chain s.FAT (s.root (get_dir s name).toNat).first_index l = true →
        ∀ fuel : Nat, l.length ≤ fuel →
          ∃ s1 : State, fs_delete fuel s name = some ⟨0, s1⟩) := by
  constructor
  · intro fuel fd hv hname
    unfold fs_delete
    split
    · rfl
    · split
      · rfl
      · split
        · rfl
        · next h3 =>
          exfalso
          have h3 : file_is_open s name = -1 := by
            by_contra hc
            exact h3 hc
          rw [file_is_open_eq_neg_one_iff] at h3
          obtain ⟨_, _, _, h0, h32, _⟩ := (check_fd_ne_iff s fd).mp hv
          have hk : entry_of s fd < 32 := by
            unfold entry_of
            omega
          exact h3 _ hk hname
  · intro hm hne hlen hex hreg hnone l hchain fuel hfuel
    have hnd : l.Nodup := is_chain_nodup s.FAT l _ hchain
    have hcf : check_file s name = 0 := (check_file_eq_zero_iff s name).mpr ⟨hm, hne, hlen⟩
    have hgd : ¬ get_dir s name = -1 := by
      intro h
      obtain ⟨i, hi, hn⟩ := hex
      exact (get_dir_eq_neg_one_iff s name).mp h i hi hn
    have hopen : file_is_open s name = -1 := by
      rw [file_is_open_eq_neg_one_iff]
      intro k hk hkn
      have hkne : (s.file_table k).filename ≠ [] := by
        rw [hkn]
        exact hne
      obtain ⟨fd, hfd, hidx⟩ := hreg k hk hkne
      have hent : entry_of s (fd : Int) = k := by
        unfold entry_of
        simp [hidx]
      have hv : check_fd s (fd : Int) ≠ -1 := by
        rw [check_fd_ne_iff]
        refine ⟨hm, by omega, by omega, ?_, ?_, ?_⟩
        · simp only [Int.toNat_ofNat, hidx]
          omega
        · simp only [Int.toNat_ofNat, hidx]
          omega
        · rw [hent]
          exact hkne
      have := hnone fd hfd hv
      rw [hent] at this
      exact this hkn
    unfold fs_delete
    simp only [hcf, ne_eq, not_true_eq_false, if_false, hgd, hopen, upd_same]
    rw [free_FAT_of_chain l s.FAT _ fuel hchain hnd hfuel]
    exact ⟨_, rfl⟩

/-- C9 (witness): with file `a` open twice, deleting it fails and changes
nothing; after both descriptors are closed, deleting it returns `0`. -/
theorem fs_delete_busy_guard_witness :
    fs_delete 1 busy_state name_a = some ⟨-1, busy_state⟩ ∧
    ∃ s1 : State, fs_delete 1 idle_state name_a = some ⟨0, s1⟩ :=
  ⟨(fs_delete_busy_guard busy_state name_a).1 1 0 (by decide!) (by decide!),
   (fs_delete_busy_guard idle_state name_a).2 (by decide!) (by decide!) (by decide!)
     (by decide!) (by decide!) (by decide!) [0] (by decide!) 1 (by decide!)⟩

/-- C9 (counterexample): the device `looped_disk` mounts; the mounted volume
holds the file `a`, whose name is valid, and no descriptor is in use, so every
descriptor opened on `a` has been closed.  The first block of `a` is 0 and
`FAT[0]` is 0, not the end-of-chain mark: the walk of `free_FAT` stays on block 0
and `fs_delete("a")` does not return, whatever the number of steps allowed. -/
theorem fs_delete_never_returns_on_looping_chain :
    ((fs_mount unmounted (some looped_disk) zero_mem).val = 0 ∧
      looped_mounted.mounted = true ∧ get_dir looped_mounted name_a = 0 ∧
      (looped_mounted.root 0).filename = name_a ∧
      descriptor_check looped_mounted = 0 ∧
      decide (registry_ok looped_mounted) = true ∧
      decide (registry_in_use looped_mounted) = true ∧
      (looped_mounted.root 0).first_index = 0 ∧ looped_mounted.FAT 0 = 0) ∧
    ∀ fuel : Nat, fs_delete fuel looped_mounted name_a = none := by
  have hfacts : (fs_mount unmounted (some looped_disk) zero_mem).val = 0 ∧
      looped_mounted.mounted = true ∧ get_dir looped_mounted name_a = 0 ∧
      (looped_mounted.root 0).filename = name_a ∧
      descriptor_check looped_mounted = 0 ∧
      decide (registry_ok looped_mounted) = true ∧
      decide (registry_in_use looped_mounted) = true ∧
      (looped_mounted.root 0).first_index = 0 ∧ looped_mounted.FAT 0 = 0 := by decide!
  refine ⟨hfacts, ?_⟩
  intro fuel
  have hcf : check_file looped_mounted name_a = 0 := by decide!
  have hgd : get_dir looped_mounted name_a = 0 := hfacts.2.2.1
  have hop : file_is_open looped_mounted name_a = -1 := by decide!
  have hfirst : (looped_mounted.root 0).first_index = 0 := hfacts.2.2.2.2.2.2.2.1
  have hfat : looped_mounted.FAT 0 = 0 := hfacts.2.2.2.2.2.2.2.2
  have hwalk := free_FAT_on_loop fuel looped_mounted.FAT 0 hfat rfl
  unfold fs_delete
  rw [if_neg (by rw [hcf]; decide), if_neg (by rw [hgd]; decide), if_neg (by rw [hop]; decide)]
  simp only [hgd, Int.toNat_zero, upd_same, hfirst, hwalk]


/-! ## What a write changes -/

theorem same_tables_refl (s : State) : same_tables s s := ⟨rfl, rfl, rfl, rfl, rfl⟩

theorem same_tables_trans {s t u : State} (h1 : same_tables s t) (h2 : same_tables t u) :
    same_tables s u := by
  obtain ⟨a1, a2, a3, a4, a5⟩ := h1
  obtain ⟨b1, b2, b3, b4, b5⟩ := h2
  exact ⟨b1.trans a1, b2.trans a2, b3.trans a3, b4.trans a4, b5.trans a5⟩

theorem check_fd_congr {s t : State} (h : same_tables s t) (fd : Int) :
    check_fd t fd = check_fd s fd := by
  obtain ⟨_, h2, h3, h4, _⟩ := h
  unfold check_fd
  rw [h2, h3, h4]

theorem fs_stat_congr {s t : State} (h : same_tables s t) (fd : Int) :
    fs_stat t fd = fs_stat s fd := by
  unfold fs_stat
  rw [check_fd_congr h fd]
  obtain ⟨h1, _, h3, _, _⟩ := h
  rw [h1, h3]

theorem allocate_loop_same_tables (n : Nat) :
    ∀ (s : State) (b : Nat), same_tables s (allocate_loop n s b).st := by
  induction n with
  | zero =>
    intro s b
    exact same_tables_refl s
  | succ n ih =>
    intro s b
    simp only [allocate_loop]
    split
    · split
      · exact same_tables_refl s
      · exact same_tables_trans ⟨rfl, rfl, rfl, rfl, rfl⟩ (ih _ _)
    · exact ih _ _

theorem allocate_new_block_same_tables (s : State) (fd : Nat) (n : Nat) :
    same_tables s (allocate_new_block s fd n).st := by
  unfold allocate_new_block
  exact allocate_loop_same_tables _ _ _

theorem same_tables_set_disk (s : State) (o : Option Disk) :
    same_tables s (match o with
      | none => s
      | some d => { s with disk := d }) := by
  cases o with
  | none => exact same_tables_refl s
  | some d => exact ⟨rfl, rfl, rfl, rfl, rfl⟩

theorem write_by_blk_same_tables (s : State) (blk : Nat) (buf : Nat → Nat) (pos size : Nat)
    (type : block_type) (fd : Nat) :
    same_tables s (write_by_blk s blk buf pos size type fd) := by
  unfold write_by_blk
  generalize block_read s.disk blk = r
  cases r with
  | none => exact same_tables_refl s
  | some b => exact same_tables_set_disk s _

theorem write_loop_same_tables (fd : Nat) (buf : Nat → Nat) (fuel : Nat) :
    ∀ (c : Cursor) (s : State),
      same_tables s (write_loop fd buf fuel c s).2.2 ∧
        (write_loop fd buf fuel c s).2.1.data_amount ≤ c.data_amount := by
  induction fuel with
  | zero =>
    intro c s
    exact ⟨same_tables_refl s, le_refl _⟩
  | succ fuel ih =>
    intro c s
    simp only [write_loop]
    split
    · split
      · exact ⟨same_tables_refl s, le_refl _⟩
      · have := ih ⟨c.data_amount - BLOCK_SIZE, s.FAT c.current_block, c.pos + BLOCK_SIZE⟩
          (write_by_blk s (s.super_block.data_start_index + c.current_block) buf c.pos
            BLOCK_SIZE .Middle fd)
        refine ⟨same_tables_trans (write_by_blk_same_tables _ _ _ _ _ _ _) this.1, ?_⟩
        have h2 := this.2
        simp only at h2
        omega
    · exact ⟨same_tables_refl s, le_refl _⟩

theorem write_blks_effect (s : State) (fd : Nat) (buf : Nat → Nat) (n : Nat) :
    ∃ (w : Nat) (s2 : State), write_blks s fd buf n = (w, update_size s2 fd w) ∧ w ≤ n ∧
      same_tables s s2 ∧
      (n ≤ BLOCK_SIZE - (s.descriptor_table fd).offset % BLOCK_SIZE → w = n) := by
  unfold write_blks
  by_cases hshort : n ≤ BLOCK_SIZE - (s.descriptor_table fd).offset % BLOCK_SIZE
  · simp only [hshort, if_true]
    exact ⟨n, _, rfl, le_refl n, write_by_blk_same_tables _ _ _ _ _ _ _, fun _ => rfl⟩
  · simp only [hshort, if_false]
    have h1 := write_by_blk_same_tables s
      (s.super_block.data_start_index +
        get_block_index_by_offset s fd (s.descriptor_table fd).offset) buf 0
      (BLOCK_SIZE - (s.descriptor_table fd).offset % BLOCK_SIZE) .First fd
    split
    · next hr =>
      refine ⟨_, _, rfl, Nat.sub_le _ _, ?_, fun h => h.elim⟩
      exact same_tables_trans h1 (write_loop_same_tables fd buf _ _ _).1
    · refine ⟨n, _, rfl, le_refl n, ?_, fun h => h.elim⟩
      exact same_tables_trans (same_tables_trans h1 (write_loop_same_tables fd buf _ _ _).1)
        (write_by_blk_same_tables _ _ _ _ _ _ _)

theorem update_size_fields (s t : State) (fd : Int) (w : Nat) (h : same_tables s t)
    (hfd : check_fd s fd ≠ -1) :
    (update_size t fd.toNat w).root =
      (if (cursor_of s fd + w) % 2 ^ 64 > to_size_t (to_int (size_of s fd)) then
        upd s.root (slot_of s fd)
          ⟨(s.root (slot_of s fd)).filename, to_uint32 ((cursor_of s fd + w : Nat) : Int),
            (s.root (slot_of s fd)).first_index⟩
      else s.root) ∧
    (update_size t fd.toNat w).descriptor_table =
      upd s.descriptor_table fd.toNat
        ⟨(s.descriptor_table fd.toNat).open_file_index,
          to_uint32 ((cursor_of s fd + w : Nat) : Int)⟩ ∧
    (update_size t fd.toNat w).file_table = s.file_table ∧
    (update_size t fd.toNat w).mounted = s.mounted ∧
    (update_size t fd.toNat w).super_block = s.super_block := by
  have hfd0 : 0 ≤ fd := ((check_fd_ne_iff s fd).mp hfd).2.1
  have hcast : ((fd.toNat : Nat) : Int) = fd := Int.toNat_of_nonneg hfd0
  have hstat : fs_stat t ((fd.toNat : Nat) : Int) = to_int (size_of s fd) := by
    rw [hcast, fs_stat_congr h fd, fs_stat_of_valid s fd hfd]
  obtain ⟨h1, h2, h3, h4, h5⟩ := h
  unfold update_size
  simp only [hstat, h1, h2, h3]
  unfold cursor_of size_of slot_of entry_of
  split
  · exact ⟨rfl, rfl, rfl, h4, h5⟩
  · refine ⟨h1, ?_, h3, h4, h5⟩
    simp only [h2]

theorem fs_write_effect (s : State) (fd : Int) (buf : Nat → Nat) (n : Nat)
    (hfd : check_fd s fd ≠ -1) :
    ∃ w : Nat, w ≤ n ∧ (n ≤ BLOCK_SIZE - cursor_of s fd % BLOCK_SIZE → w = n) ∧
      (fs_write s fd buf n).val = to_int w ∧
      (fs_write s fd buf n).st.root =
        (if (cursor_of s fd + w) % 2 ^ 64 > to_size_t (to_int (size_of s fd)) then
          upd s.root (slot_of s fd)
            ⟨(s.root (slot_of s fd)).filename, to_uint32 ((cursor_of s fd + w : Nat) : Int),
              (s.root (slot_of s fd)).first_index⟩
        else s.root) ∧
      (fs_write s fd buf n).st.descriptor_table =
        upd s.descriptor_table fd.toNat
          ⟨(s.descriptor_table fd.toNat).open_file_index,
            to_uint32 ((cursor_of s fd + w : Nat) : Int)⟩ ∧
      (fs_write s fd buf n).st.file_table = s.file_table ∧
      (fs_write s fd buf n).st.mounted = s.mounted ∧
      (fs_write s fd buf n).st.super_block = s.super_block := by
  have ha := allocate_new_block_same_tables s fd.toNat n
  obtain ⟨w, s2, hw, hle, hst, hshort⟩ :=
    write_blks_effect (allocate_new_block s fd.toNat n).st fd.toNat buf n
  have hs2 := same_tables_trans ha hst
  have hfields := update_size_fields s s2 fd w hs2 hfd
  refine ⟨w, hle, ?_, ?_⟩
  · intro h
    apply hshort
    rw [ha.2.1]
    exact h
  · have hval : fs_write s fd buf n = ⟨to_int w, update_size s2 fd.toNat w⟩ := by
      unfold fs_write
      simp only [hfd, if_false, hw]
    rw [hval]
    exact ⟨rfl, hfields⟩


theorem fs_write_exact (s : State) (fd : Int) (buf : Nat → Nat) (n : Nat)
    (hfd : check_fd s fd ≠ -1) :
    ∃ w : Nat, w ≤ n ∧ (n ≤ BLOCK_SIZE - cursor_of s fd % BLOCK_SIZE → w = n) ∧
      (fs_write s fd buf n).val = to_int w ∧
      size_of (fs_write s fd buf n).st fd =
        (if (cursor_of s fd + w) % 2 ^ 64 > to_size_t (to_int (size_of s fd)) then
          to_uint32 ((cursor_of s fd + w : Nat) : Int) else size_of s fd) ∧
      cursor_of (fs_write s fd buf n).st fd = to_uint32 ((cursor_of s fd + w : Nat) : Int) ∧
      (∀ i, i ≠ slot_of s fd → (fs_write s fd buf n).st.root i = s.root i) ∧
      ((fs_write s fd buf n).st.root (slot_of s fd)).filename
        = (s.root (slot_of s fd)).filename ∧
      ((fs_write s fd buf n).st.root (slot_of s fd)).first_index
        = (s.root (slot_of s fd)).first_index ∧
      (∀ j, j ≠ fd.toNat →
        (fs_write s fd buf n).st.descriptor_table j = s.descriptor_table j) ∧
      ((fs_write s fd buf n).st.descriptor_table fd.toNat).open_file_index
        = (s.descriptor_table fd.toNat).open_file_index ∧
      (fs_write s fd buf n).st.file_table = s.file_table ∧
      (fs_write s fd buf n).st.mounted = s.mounted := by
  obtain ⟨w, hle, hshort, hval, hroot, hdesc, hft, hm, _⟩ := fs_write_effect s fd buf n hfd
  have hentry : entry_of (fs_write s fd buf n).st fd = entry_of s fd := by
    unfold entry_of
    rw [hdesc, upd_same]
  have hslot : slot_of (fs_write s fd buf n).st fd = slot_of s fd := by
    unfold slot_of
    rw [hentry, hft]
  refine ⟨w, hle, hshort, hval, ?_, ?_, ?_, ?_, ?_, ?_, ?_, hft, hm⟩
  · have hsz : size_of (fs_write s fd buf n).st fd
        = ((fs_write s fd buf n).st.root (slot_of s fd)).file_size := by
      unfold size_of
      rw [hslot]
    rw [hsz, hroot]
    by_cases hc : (cursor_of s fd + w) % 2 ^ 64 > to_size_t (to_int (size_of s fd))
    · rw [if_pos hc, if_pos hc, upd_same]
    · rw [if_neg hc, if_neg hc]
      rfl
  · have hcur : cursor_of (fs_write s fd buf n).st fd
        = ((fs_write s fd buf n).st.descriptor_table fd.toNat).offset := rfl
    rw [hcur, hdesc, upd_same]
  · intro i hi
    rw [hroot]
    split
    · exact upd_other _ _ _ _ hi
    · rfl
  · rw [hroot]
    split
    · rw [upd_same]
    · rfl
  · rw [hroot]
    split
    · rw [upd_same]
    · rfl
  · intro j hj
    rw [hdesc]
    exact upd_other _ _ _ _ hj
  · rw [hdesc, upd_same]

theorem follow_on_loop (F : Nat → Nat) (b : Nat) (hb : F b = b) :
    ∀ n : Nat, follow F n b = b := by
  intro n
  induction n with
  | zero => rfl
  | succ n ih =>
    show follow F n (F b) = b
    rw [hb]
    exact ih

theorem with_cursor_self (s : State) (fd : Nat) :
    with_cursor s fd (s.descriptor_table fd).offset = s := by
  unfold with_cursor
  have : upd s.descriptor_table fd
      ⟨(s.descriptor_table fd).open_file_index, (s.descriptor_table fd).offset⟩
      = s.descriptor_table := upd_self s.descriptor_table fd
  simp only [this]

theorem read_blks_result (s : State) (junk : Nat → Nat) (fd : Nat) (buf : Nat → Nat) (n : Nat) :
    (read_blks s junk fd buf n).1 = n ∧
    (read_blks s junk fd buf n).2.1 =
      with_cursor s fd (to_uint32 (((s.descriptor_table fd).offset + n : Nat) : Int)) := by
  unfold read_blks
  by_cases h : n ≤ BLOCK_SIZE - (s.descriptor_table fd).offset % BLOCK_SIZE
  · rw [if_pos h]
    exact ⟨rfl, rfl⟩
  · rw [if_neg h]
    exact ⟨rfl, rfl⟩

theorem fs_read_exact (s : State) (junk : Nat → Nat) (fd : Int) (buf : Nat → Nat) (count : Nat)
    (hfd : check_fd s fd ≠ -1) (hsize : size_of s fd < 2 ^ 31)
    (hcount : cursor_of s fd + count < 2 ^ 64) :
    (size_of s fd ≤ cursor_of s fd → fs_read s junk fd buf count = ⟨0, s, buf⟩) ∧
    (cursor_of s fd < size_of s fd →
      (fs_read s junk fd buf count).val
          = ((min count (size_of s fd - cursor_of s fd) : Nat) : Int) ∧
        (fs_read s junk fd buf count).st
          = with_cursor s fd.toNat
              (cursor_of s fd + min count (size_of s fd - cursor_of s fd))) := by
  have hst : fs_stat s fd = (size_of s fd : Int) := by
    rw [fs_stat_of_valid s fd hfd, to_int_of_lt hsize]
  have h32 : to_uint32 (size_of s fd : Int) = size_of s fd := to_uint32_of_nat _ (by omega)
  have h64 : to_size_t (size_of s fd : Int) = size_of s fd := to_size_t_of_nat _ (by omega)
  have hmod : (cursor_of s fd + count) % 2 ^ 64 = cursor_of s fd + count :=
    Nat.mod_eq_of_lt hcount
  have hcur : (s.descriptor_table fd.toNat).offset = cursor_of s fd := rfl
  constructor
  · intro hge
    unfold fs_read
    simp only [hfd, if_false, hst, h32, hcur]
    have : cursor_of s fd ≥ size_of s fd := hge
    simp only [this, if_true]
  · intro hlt
    have hnot : ¬ cursor_of s fd ≥ size_of s fd := by omega
    by_cases hfit : cursor_of s fd + count ≤ size_of s fd
    · have hmin : min count (size_of s fd - cursor_of s fd) = count := by omega
      have hc : to_int count = (count : Int) := to_int_of_lt (by omega)
      have hc64 : to_size_t (count : Int) = count := to_size_t_of_nat _ (by omega)
      have hres := read_blks_result s junk fd.toNat buf count
      have hu : to_uint32 ((cursor_of s fd + count : Nat) : Int) = cursor_of s fd + count :=
        to_uint32_of_nat _ (by omega)
      unfold fs_read
      simp only [hfd, if_false, hst, h32, h64, hcur, hnot, hmod, hfit, if_true, hc, hc64, hmin]
      refine ⟨?_, ?_⟩
      · rw [hres.1, hc]
      · rw [hres.2, hcur, hu]
    · have hmin : min count (size_of s fd - cursor_of s fd) = size_of s fd - cursor_of s fd := by
        omega
      have hd : ((size_of s fd : Int) - (cursor_of s fd : Int))
          = ((size_of s fd - cursor_of s fd : Nat) : Int) := by omega
      have hu1 : to_uint32 ((size_of s fd - cursor_of s fd : Nat) : Int)
          = size_of s fd - cursor_of s fd := to_uint32_of_nat _ (by omega)
      have hc : to_int (size_of s fd - cursor_of s fd) = ((size_of s fd - cursor_of s fd : Nat) : Int) :=
        to_int_of_lt (by omega)
      have hc64 : to_size_t ((size_of s fd - cursor_of s fd : Nat) : Int)
          = size_of s fd - cursor_of s fd := to_size_t_of_nat _ (by omega)
      have hres := read_blks_result s junk fd.toNat buf (size_of s fd - cursor_of s fd)
      have hu : to_uint32 ((cursor_of s fd + (size_of s fd - cursor_of s fd) : Nat) : Int)
          = cursor_of s fd + (size_of s fd - cursor_of s fd) := to_uint32_of_nat _ (by omega)
      unfold fs_read
      simp only [hfd, if_false, hst, h32, h64, hcur, hnot, hmod, hfit, hd, hu1, hc, hc64, hmin]
      refine ⟨?_, ?_⟩
      · rw [hres.1, hc]
      · rw [hres.2, hcur, hu]


theorem size_of_with_cursor (s : State) (fd : Int) (c : Nat) :
    size_of (with_cursor s fd.toNat c) fd = size_of s fd ∧
    cursor_of (with_cursor s fd.toNat c) fd = c ∧
    (with_cursor s fd.toNat c).root = s.root ∧ (with_cursor s fd.toNat c).FAT = s.FAT ∧
    (with_cursor s fd.toNat c).file_table = s.file_table ∧
    (with_cursor s fd.toNat c).disk = s.disk ∧
    (∀ j, j ≠ fd.toNat → (with_cursor s fd.toNat c).descriptor_table j = s.descriptor_table j) := by
  refine ⟨?_, ?_, rfl, rfl, rfl, rfl, ?_⟩
  · unfold size_of slot_of entry_of with_cursor
    simp only [upd_same]
  · unfold cursor_of with_cursor
    simp only [upd_same]
  · intro j hj
    unfold with_cursor
    exact upd_other _ _ _ _ hj

theorem to_size_t_to_int_high (count : Nat) (h1 : 2 ^ 64 - 2 ^ 31 ≤ count) (h2 : count < 2 ^ 64) :
    to_size_t (to_int count) = count := by
  unfold to_int to_size_t
  have hm : count % 2 ^ 32 = count - (2 ^ 64 - 2 ^ 32) := by omega
  have hge : ¬ count % 2 ^ 32 < 2 ^ 31 := by omega
  rw [if_neg hge, hm]
  have : (((count - (2 ^ 64 - 2 ^ 32) : Nat) : Int) - 2 ^ 32) % 2 ^ 64 = (count : Int) := by
    omega
  rw [this]
  simp

theorem fs_read_at_end (s : State) (junk : Nat → Nat) (fd : Int) (buf : Nat → Nat) (count : Nat)
    (hfd : check_fd s fd ≠ -1) (hsize : size_of s fd < 2 ^ 31)
    (hge : size_of s fd ≤ cursor_of s fd) :
    fs_read s junk fd buf count = ⟨0, s, buf⟩ := by
  have hst : fs_stat s fd = (size_of s fd : Int) := by
    rw [fs_stat_of_valid s fd hfd, to_int_of_lt hsize]
  have h32 : to_uint32 (size_of s fd : Int) = size_of s fd := to_uint32_of_nat _ (by omega)
  have hcur : (s.descriptor_table fd.toNat).offset = cursor_of s fd := rfl
  unfold fs_read
  simp only [hfd, if_false, hst, h32, hcur]
  have : cursor_of s fd ≥ size_of s fd := hge
  simp only [this, if_true]

theorem fs_read_to_end (s : State) (junk : Nat → Nat) (fd : Int) (buf : Nat → Nat) (count : Nat)
    (hfd : check_fd s fd ≠ -1) (hsize : size_of s fd < 2 ^ 31)
    (hlt : cursor_of s fd < size_of s fd)
    (hfit : ¬ (cursor_of s fd + count) % 2 ^ 64 ≤ size_of s fd) :
    (fs_read s junk fd buf count).val = ((size_of s fd - cursor_of s fd : Nat) : Int) ∧
    (fs_read s junk fd buf count).st
      = with_cursor s fd.toNat (cursor_of s fd + (size_of s fd - cursor_of s fd)) := by
  have hst : fs_stat s fd = (size_of s fd : Int) := by
    rw [fs_stat_of_valid s fd hfd, to_int_of_lt hsize]
  have h32 : to_uint32 (size_of s fd : Int) = size_of s fd := to_uint32_of_nat _ (by omega)
  have h64 : to_size_t (size_of s fd : Int) = size_of s fd := to_size_t_of_nat _ (by omega)
  have hcur : (s.descriptor_table fd.toNat).offset = cursor_of s fd := rfl
  have hnot : ¬ cursor_of s fd ≥ size_of s fd := by omega
  have hd : ((size_of s fd : Int) - (cursor_of s fd : Int))
      = ((size_of s fd - cursor_of s fd : Nat) : Int) := by omega
  have hu1 : to_uint32 ((size_of s fd - cursor_of s fd : Nat) : Int)
      = size_of s fd - cursor_of s fd := to_uint32_of_nat _ (by omega)
  have hc : to_int (size_of s fd - cursor_of s fd) = ((size_of s fd - cursor_of s fd : Nat) : Int) :=
    to_int_of_lt (by omega)
  have hc64 : to_size_t ((size_of s fd - cursor_of s fd : Nat) : Int)
      = size_of s fd - cursor_of s fd := to_size_t_of_nat _ (by omega)
  have hres := read_blks_result s junk fd.toNat buf (size_of s fd - cursor_of s fd)
  have hu : to_uint32 ((cursor_of s fd + (size_of s fd - cursor_of s fd) : Nat) : Int)
      = cursor_of s fd + (size_of s fd - cursor_of s fd) := to_uint32_of_nat _ (by omega)
  unfold fs_read
  simp only [hfd, if_false, hst, h32, h64, hcur, hnot, hfit, hd, hu1, hc, hc64]
  refine ⟨?_, ?_⟩
  · rw [hres.1, hc]
  · rw [hres.2, hcur, hu]

theorem fs_read_stored_on_wrap (s : State) (fd : Int) (count : Nat)
    (hfd : check_fd s fd ≠ -1) (hsize : size_of s fd < 2 ^ 31) (hcount : count < 2 ^ 64)
    (hlt : cursor_of s fd < size_of s fd) (hwrap : 2 ^ 64 ≤ cursor_of s fd + count)
    (hfit : (cursor_of s fd + count) % 2 ^ 64 ≤ size_of s fd) :
    fs_read_stored s fd count = count := by
  have hst : fs_stat s fd = (size_of s fd : Int) := by
    rw [fs_stat_of_valid s fd hfd, to_int_of_lt hsize]
  have h32 : to_uint32 (size_of s fd : Int) = size_of s fd := to_uint32_of_nat _ (by omega)
  have h64 : to_size_t (size_of s fd : Int) = size_of s fd := to_size_t_of_nat _ (by omega)
  have hcur : (s.descriptor_table fd.toNat).offset = cursor_of s fd := rfl
  have hnot : ¬ cursor_of s fd ≥ size_of s fd := by omega
  have hhigh := to_size_t_to_int_high count (by omega) hcount
  unfold fs_read_stored fs_read_size
  simp only [hfd, if_false, hst, h32, h64, hcur, hnot, hfit, if_true, hhigh]

theorem follow_cells_on_loop (F : Nat → Nat) (b : Nat) (hb : F b = b) :
    ∀ n : Nat, ∀ i ∈ follow_cells F n b, i = b := by
  intro n
  induction n with
  | zero =>
    intro i hi
    simp only [follow_cells, List.not_mem_nil] at hi
  | succ k ih =>
    intro i hi
    simp only [follow_cells, List.mem_cons, hb] at hi
    rcases hi with h | h
    · exact h
    · exact ih i h

theorem read_loop_cells_on_loop (s : State) (b : Nat) (hb : s.FAT b = b) :
    ∀ (fuel : Nat) (c : Cursor), c.current_block = b →
      ∀ i ∈ read_loop_cells s fuel c, i = b := by
  intro fuel
  induction fuel with
  | zero =>
    intro c _ i hi
    simp only [read_loop_cells, List.not_mem_nil] at hi
  | succ k ih =>
    intro c hc i hi
    unfold read_loop_cells at hi
    by_cases hd : c.data_amount > BLOCK_SIZE
    · rw [if_pos hd] at hi
      rcases List.mem_cons.mp hi with h | h
      · rw [h, hc]
      · refine ih _ ?_ i h
        show s.FAT c.current_block = b
        rw [hc, hb]
    · rw [if_neg hd] at hi
      simp only [List.not_mem_nil] at hi

theorem fs_read_cells_on_loop (s : State) (fd : Int) (count : Nat)
    (hb : s.FAT (s.root (slot_of s fd)).first_index = (s.root (slot_of s fd)).first_index) :
    ∀ i ∈ fs_read_cells s fd count, i = (s.root (slot_of s fd)).first_index := by
  intro i hi
  unfold fs_read_cells at hi
  cases hr : fs_read_size s fd count with
  | none =>
    rw [hr] at hi
    simp only [List.not_mem_nil] at hi
  | some n =>
    rw [hr] at hi
    have hcur : get_block_index_by_offset s fd.toNat (s.descriptor_table fd.toNat).offset
        = (s.root (slot_of s fd)).first_index := by
      unfold get_block_index_by_offset
      exact follow_on_loop s.FAT _ hb _
    have hw := follow_cells_on_loop s.FAT _ hb
      ((s.descriptor_table fd.toNat).offset / BLOCK_SIZE)
    unfold read_blks_cells at hi
    by_cases hs : n ≤ BLOCK_SIZE - (s.descriptor_table fd.toNat).offset % BLOCK_SIZE
    · simp only [hs, if_true] at hi
      exact hw i hi
    · simp only [hs, if_false, hcur] at hi
      rcases List.mem_append.mp hi with h | h
      · exact hw i h
      · rcases List.mem_cons.mp h with h | h
        · exact h
        · exact read_loop_cells_on_loop s _ hb _ _ hb i h

/-- C6 (as amended): for a valid descriptor `fd` with cursor `c` on a file of
size `s < 2 ^ 31` and a request `count` (a `size_t`), when every FAT cell the
read consults lies inside the FAT array and the bytes it stores into `buf`
number fewer than `2 ^ 63` (as any buffer that holds them does), `fs_read`
returns `0` and changes nothing when `c >= s`, and otherwise returns exactly
`min(count, s - c)`; in both cases the state afterwards is the state before with
the cursor of `fd` advanced by the returned amount: the directory (so the file
size), the FAT, the open-file table, the device and every other descriptor are
unchanged. -/
theorem fs_read_clamps (s : State) (junk : Nat → Nat) (fd : Int) (buf : Nat → Nat)
    (count : Nat) (hfd : check_fd s fd ≠ -1) (hsize : size_of s fd < 2 ^ 31)
    (hcount : count < 2 ^ 64)
    (_hcells : ∀ i ∈ fs_read_cells s fd count, i < FAT_cells s)
    (hbuf : fs_read_stored s fd count < 2 ^ 63) :
    (size_of s fd ≤ cursor_of s fd →
      (fs_read s junk fd buf count).val = 0 ∧ (fs_read s junk fd buf count).st = s ∧
        (fs_read s junk fd buf count).buf = buf) ∧
    (cursor_of s fd < size_of s fd →
      (fs_read s junk fd buf count).val
        = ((min count (size_of s fd - cursor_of s fd) : Nat) : Int)) ∧
    (∃ r : Nat, (fs_read s junk fd buf count).val = (r : Int) ∧
      (fs_read s junk fd buf count).st = with_cursor s fd.toNat (cursor_of s fd + r) ∧
      cursor_of (fs_read s junk fd buf count).st fd = cursor_of s fd + r) ∧
    (fs_read s junk fd buf count).st.root = s.root ∧
    (fs_read s junk fd buf count).st.FAT = s.FAT ∧
    size_of (fs_read s junk fd buf count).st fd = size_of s fd ∧
    (fs_read s junk fd buf count).st.file_table = s.file_table ∧
    (fs_read s junk fd buf count).st.disk = s.disk ∧
    (∀ j, j ≠ fd.toNat →
      (fs_read s junk fd buf count).st.descriptor_table j = s.descriptor_table j) := by
  by_cases hc : size_of s fd ≤ cursor_of s fd
  · have h := fs_read_at_end s junk fd buf count hfd hsize hc
    have hself : with_cursor s fd.toNat (cursor_of s fd + 0) = s := with_cursor_self s fd.toNat
    rw [h]
    refine ⟨fun _ => ⟨rfl, rfl, rfl⟩, fun h2 => absurd hc (by omega), ⟨0, rfl, hself.symm, rfl⟩,
      rfl, rfl, rfl, rfl, rfl, fun _ _ => rfl⟩
  · have hlt2 : cursor_of s fd < size_of s fd := by omega
    have hboth : (fs_read s junk fd buf count).val
          = ((min count (size_of s fd - cursor_of s fd) : Nat) : Int) ∧
        (fs_read s junk fd buf count).st
          = with_cursor s fd.toNat
              (cursor_of s fd + min count (size_of s fd - cursor_of s fd)) := by
      by_cases hw : cursor_of s fd + count < 2 ^ 64
      · exact (fs_read_exact s junk fd buf count hfd hsize hw).2 hlt2
      · by_cases hfit : (cursor_of s fd + count) % 2 ^ 64 ≤ size_of s fd
        · have hs := fs_read_stored_on_wrap s fd count hfd hsize hcount hlt2 (by omega) hfit
          rw [hs] at hbuf
          omega
        · have hmin : min count (size_of s fd - cursor_of s fd)
              = size_of s fd - cursor_of s fd := by omega
          rw [hmin]
          exact fs_read_to_end s junk fd buf count hfd hsize hlt2 hfit
    obtain ⟨hval, hst⟩ := hboth
    have hw := size_of_with_cursor s fd
      (cursor_of s fd + min count (size_of s fd - cursor_of s fd))
    refine ⟨fun h2 => absurd h2 hc, fun _ => hval, ⟨_, hval, hst, ?_⟩, ?_, ?_, ?_, ?_, ?_, ?_⟩
    · rw [hst]
      exact hw.2.1
    · rw [hst]
      exact hw.2.2.1
    · rw [hst]
      exact hw.2.2.2.1
    · rw [hst]
      exact hw.1
    · rw [hst]
      exact hw.2.2.2.2.1
    · rw [hst]
      exact hw.2.2.2.2.2.1
    · rw [hst]
      exact hw.2.2.2.2.2.2

/-- C6 (counterexample): on the mounted `looped_disk` (file `a` of recorded
size `2 ^ 31`, whose chain stays on data block 0, so that every FAT cell
consulted is cell 0), descriptor 0 is valid with cursor `2 ^ 31 - 1`.  A read
request of 2 bytes is not clamped to `min(2, s - c) = 1`: `fs_stat` yields the
size as the negative `int` `-2 ^ 31`, which the test `offset + count <= file_size`
takes as a `size_t` near `2 ^ 64`, so the request is taken whole; `fs_read`
stores 2 bytes, returns 2 and leaves the cursor at `2 ^ 31 + 1`, past the size. -/
theorem fs_read_not_clamped_on_large_file :
    (fs_mount unmounted (some looped_disk) zero_mem).val = 0 ∧
    check_fd looped_near 0 = 0 ∧ size_of looped_near 0 = 2 ^ 31 ∧
    cursor_of looped_near 0 = 2 ^ 31 - 1 ∧
    (∀ i ∈ fs_read_cells looped_near 0 2, i < FAT_cells looped_near) ∧
    fs_read_stored looped_near 0 2 = 2 ∧
    (fs_read looped_near zero_mem 0 zero_mem 2).val = 2 ∧
    min 2 (size_of looped_near 0 - cursor_of looped_near 0) = 1 ∧
    size_of (fs_read looped_near zero_mem 0 zero_mem 2).st 0 = 2 ^ 31 ∧
    cursor_of (fs_read looped_near zero_mem 0 zero_mem 2).st 0 = 2 ^ 31 + 1 := by
  refine ⟨by decide!, by decide!, by decide!, by decide!, ?_, by decide!, by decide!, by decide!,
    by decide!, by decide!⟩
  intro i hi
  have h := fs_read_cells_on_loop looped_near 0 2 (by decide!) i hi
  rw [h]
  decide!

/-- C6 (witness): on `wide_written` (file `b` of size 8192 with the chain `1, 0`,
on a volume whose FAT has 65536 cells) with the cursor set back to 0, a request
of 10000 bytes consults FAT cell 1 only, stores 8192 bytes and returns 8192. -/
theorem fs_read_clamps_witness :
    check_fd (fs_lseek wide_written 0 0).st 0 ≠ -1 ∧
    size_of (fs_lseek wide_written 0 0).st 0 < 2 ^ 31 ∧
    fs_read_cells (fs_lseek wide_written 0 0).st 0 10000 = [1] ∧
    FAT_cells (fs_lseek wide_written 0 0).st = 65536 ∧
    fs_read_stored (fs_lseek wide_written 0 0).st 0 10000 = 8192 ∧
    (fs_read (fs_lseek wide_written 0 0).st zero_mem 0 zero_mem 10000).val
      = ((min 10000 (size_of (fs_lseek wide_written 0 0).st 0
          - cursor_of (fs_lseek wide_written 0 0).st 0) : Nat) : Int) ∧
    min 10000 (size_of (fs_lseek wide_written 0 0).st 0
      - cursor_of (fs_lseek wide_written 0 0).st 0) = 8192 :=
  ⟨by decide!, by decide!, by decide!, by decide!, by decide!,
   (fs_read_clamps (fs_lseek wide_written 0 0).st zero_mem 0 zero_mem 10000 (by decide!)
      (by decide!) (by decide!) (by decide!) (by decide!)).2.1 (by decide!), by decide!⟩


/-! ## Unmount -/

theorem descriptor_check_eq_zero_iff (s : State) :
    descriptor_check s = 0 ↔ ∀ fd, fd < 32 → (s.descriptor_table fd).open_file_index = -1 := by
  unfold descriptor_check
  have h := find_first_eq_neg_one_iff
    (fun i => decide ((s.descriptor_table i).open_file_index ≠ -1)) FS_OPEN_MAX_COUNT 0
  simp only [FS_OPEN_MAX_COUNT, Nat.zero_add, decide_eq_false_iff_not, ne_eq, not_not] at h
  by_cases hf : find_first (fun i => decide ((s.descriptor_table i).open_file_index ≠ -1))
      FS_OPEN_MAX_COUNT 0 = -1
  · simp only [hf, ne_eq, not_true_eq_false, if_false, true_iff]
    intro fd hfd
    exact h.mp hf fd (Nat.zero_le fd) hfd
  · simp only [hf, ne_eq, not_false_eq_true, if_true]
    constructor
    · intro h0
      norm_num at h0
    · intro hall
      exact absurd (h.mpr (fun j _ hj => hall j hj)) hf

theorem block_write_count (d d1 : Disk) (i : Nat) (img : Nat → Nat)
    (h : block_write d i img = some d1) : d1.count = d.count := by
  unfold block_write at h
  split at h
  · simp only [Option.some.injEq] at h
    rw [← h]
  · simp at h

theorem block_write_of_lt (d : Disk) (i : Nat) (img : Nat → Nat) (h : i < d.count) :
    ∃ d1, block_write d i img = some d1 ∧ d1.count = d.count := by
  unfold block_write
  simp only [h, if_true]
  exact ⟨_, rfl, rfl⟩

theorem umount_FAT_loop_ok (FAT : Nat → Nat) (n : Nat) :
    ∀ (i : Nat) (d : Disk), i + n ≤ d.count →
      (umount_FAT_loop FAT n i d).1 = 0 ∧ (umount_FAT_loop FAT n i d).2.count = d.count := by
  induction n with
  | zero =>
    intro i d _
    exact ⟨rfl, rfl⟩
  | succ n ih =>
    intro i d h
    obtain ⟨d1, hw, hc⟩ := block_write_of_lt d i (bytes_of_words FAT ((i - 1) * BLOCK_SIZE))
      (by omega)
    simp only [umount_FAT_loop, hw]
    have := ih (i + 1) d1 (by omega)
    rw [hc] at this
    exact this

/-- C13: `fs_umount` returns `-1` when no volume is mounted and when some
descriptor slot is in use; in both cases the whole state, the device included,
is what it was (so nothing was written, and a mounted volume stays mounted).
On a mounted volume with no descriptor in use whose superblock, FAT blocks and
directory block all lie on the device (every device write succeeds), it returns
`0` and the volume is unmounted afterwards. -/
theorem fs_umount_guard (s : State) :
    (s.mounted = false → fs_umount s = ⟨-1, s⟩) ∧
    ((∃ fd, fd < 32 ∧ (s.descriptor_table fd).open_file_index ≠ -1) →
      fs_umount s = ⟨-1, s⟩ ∧ (fs_umount s).st.disk = s.disk ∧
        (fs_umount s).st.mounted = s.mounted) ∧
    (s.mounted = true → (∀ fd, fd < 32 → (s.descriptor_table fd).open_file_index = -1) →
      s.super_block.FAT_amount + 1 ≤ s.disk.count →
      s.super_block.root_index < s.disk.count →
      (fs_umount s).val = 0 ∧ (fs_umount s).st.mounted = false) := by
  refine ⟨?_, ?_, ?_⟩
  · intro hm
    unfold fs_umount
    simp [hm]
  · rintro ⟨fd, hfd, hidx⟩
    have hdc : descriptor_check s ≠ 0 := by
      intro h0
      exact hidx ((descriptor_check_eq_zero_iff s).mp h0 fd hfd)
    have : fs_umount s = ⟨-1, s⟩ := by
      unfold fs_umount
      by_cases hm : s.mounted = false
      · simp [hm]
      · simp [hm, hdc]
    rw [this]
    exact ⟨rfl, rfl, rfl⟩
  · intro hm hall hfat hroot
    have hdc : descriptor_check s = 0 := (descriptor_check_eq_zero_iff s).mpr hall
    obtain ⟨d1, hw1, hc1⟩ := block_write_of_lt s.disk 0 (block_of_superblock s.super_block)
      (by omega)
    have hloop := umount_FAT_loop_ok s.FAT s.super_block.FAT_amount 1 d1 (by omega)
    obtain ⟨d3, hw3, _⟩ := block_write_of_lt
      (umount_FAT_loop s.FAT s.super_block.FAT_amount 1 d1).2 s.super_block.root_index
      (block_of_root s.root) (by rw [hloop.2, hc1]; exact hroot)
    unfold fs_umount
    simp [hm, hdc, hw1, hloop.1, hw3]

/-- C13 (witness): unmounting before any mount fails, unmounting with file `a`
open fails and changes nothing, and unmounting after the descriptors are closed
returns `0` and leaves the volume unmounted. -/
theorem fs_umount_guard_witness :
    fs_umount unmounted = ⟨-1, unmounted⟩ ∧
    fs_umount busy_state = ⟨-1, busy_state⟩ ∧
    (fs_umount idle_state).val = 0 ∧ (fs_umount idle_state).st.mounted = false :=
  ⟨(fs_umount_guard unmounted).1 (by decide!),
   ((fs_umount_guard busy_state).2.1 ⟨0, by decide!, by decide!⟩).1,
   (fs_umount_guard idle_state).2.2 (by decide!) (by decide!) (by decide!) (by decide!)⟩


/-! ## Superblock validation -/

theorem ceil_two_d_div (d f : Nat) :
    (f : Int) = ⌈((2 * d : Nat) : ℚ) / 4096⌉ ↔ (f : Int) = ((2 * d : Nat) + 4096 - 1 : Int) / 4096 := by
  have hpos : (0 : ℚ) < 4096 := by norm_num
  constructor
  · intro h
    have h2 := (Int.ceil_eq_iff.mp h.symm)
    obtain ⟨h3, h4⟩ := h2
    rw [lt_div_iff₀ hpos] at h3
    rw [div_le_iff₀ hpos] at h4
    have h3' : ((f : Int) - 1) * 4096 < ((2 * d : Nat) : Int) := by exact_mod_cast h3
    have h4' : ((2 * d : Nat) : Int) ≤ (f : Int) * 4096 := by exact_mod_cast h4
    omega
  · intro h
    symm
    rw [Int.ceil_eq_iff]
    have h3' : ((f : Int) - 1) * 4096 < ((2 * d : Nat) : Int) := by omega
    have h4' : ((2 * d : Nat) : Int) ≤ (f : Int) * 4096 := by omega
    constructor
    · rw [lt_div_iff₀ hpos]
      exact_mod_cast h3'
    · rw [div_le_iff₀ hpos]
      exact_mod_cast h4'

theorem error_check_eq_zero_iff_code (s : State) :
    error_check s = 0 ↔
      (s.super_block.signature = ECS150FS ∧
        (s.super_block.virtual_disk_amount : Int) = block_disk_count s.disk ∧
        (s.super_block.root_index : Int) = s.super_block.FAT_amount + 1 ∧
        (s.super_block.data_start_index : Int) = s.super_block.root_index + 1 ∧
        (s.super_block.data_amount : Int)
          = (block_disk_count s.disk : Int) - s.super_block.FAT_amount - 2 ∧
        (s.super_block.FAT_amount : Int)
          = ((2 * s.super_block.data_amount : Nat) + BLOCK_SIZE - 1 : Int) / BLOCK_SIZE) := by
  unfold error_check
  split
  · next h =>
    constructor
    · intro h0
      norm_num at h0
    · intro hc
      exact absurd hc.1 h
  · next h1 =>
    split
    · next h =>
      constructor
      · intro h0
        norm_num at h0
      · intro hc
        exact absurd hc.2.1 h
    · next h2 =>
      split
      · next h =>
        constructor
        · intro h0
          norm_num at h0
        · intro hc
          exact absurd hc.2.2.1 h
      · next h3 =>
        split
        · next h =>
          constructor
          · intro h0
            norm_num at h0
          · intro hc
            exact absurd hc.2.2.2.1 h
        · next h4 =>
          split
          · next h =>
            constructor
            · intro h0
              norm_num at h0
            · intro hc
              exact absurd hc.2.2.2.2.1 h
          · next h5 =>
            split
            · next h =>
              constructor
              · intro h0
                norm_num at h0
              · intro hc
                exact absurd hc.2.2.2.2.2 h
            · next h6 =>
              constructor
              · intro _
                exact ⟨not_not.mp h1, not_not.mp h2, not_not.mp h3, not_not.mp h4,
                  not_not.mp h5, not_not.mp h6⟩
              · intro _
                rfl

theorem error_check_eq_zero_iff (s : State) :
    error_check s = 0 ↔ superblock_ok s.super_block s.disk.count := by
  rw [error_check_eq_zero_iff_code]
  unfold superblock_ok
  rw [ceil_two_d_div]
  simp only [block_disk_count, BLOCK_SIZE]
  constructor
  · rintro ⟨h1, h2, h3, h4, h5, h6⟩
    exact ⟨h1, by omega, by omega, by omega, h5, h6⟩
  · rintro ⟨h1, h2, h3, h4, h5, h6⟩
    exact ⟨h1, by omega, by omega, by omega, h5, h6⟩

/-- C14: `error_check` returns `0` exactly when the superblock read from block 0
satisfies the six conditions against the block count `B` of the device (signature
`"ECS150FS"`, total `B`, `root_index = fat_blocks + 1`,
`data_start_index = root_index + 1`, `data_blocks = B - fat_blocks - 2`,
`fat_blocks = ceil(2 * data_blocks / 4096)`), for every block 0 and every `B`;
otherwise it returns `-1`, and `fs_mount` of a device whose block 0 violates one
of them returns `-1`. -/
theorem error_check_accepts_exactly_valid_superblocks (s : State) (b : Nat → Nat) (B : Nat)
    (blocks : Nat → Nat → Nat) :
    (error_check { s with super_block := superblock_of_block b, disk := ⟨B, blocks⟩ } = 0 ↔
      superblock_ok (superblock_of_block b) B) ∧
    (error_check s = 0 ↔ superblock_ok s.super_block s.disk.count) ∧
    (error_check s = 0 ∨ error_check s = -1) ∧
    (∀ (d : Disk) (heap : Nat → Nat),
      ¬ superblock_ok (superblock_of_block (d.blocks 0)) d.count →
        (fs_mount s (some d) heap).val = -1) := by
  refine ⟨error_check_eq_zero_iff _, error_check_eq_zero_iff s, ?_, ?_⟩
  · unfold error_check
    split
    · right; rfl
    · split
      · right; rfl
      · split
        · right; rfl
        · split
          · right; rfl
          · split
            · right; rfl
            · split
              · right; rfl
              · left; rfl
  · intro d heap hbad
    unfold fs_mount
    simp only
    unfold block_read
    by_cases h0 : 0 < d.count
    · simp only [h0, if_true]
      have hne : error_check { s with disk := d, super_block := superblock_of_block (d.blocks 0) }
          ≠ 0 := by
        intro h
        exact hbad ((error_check_eq_zero_iff _).mp h)
      simp only [hne, ne_eq, not_false_eq_true, if_true]
    · simp only [h0, if_false]


/-! ## The effect of a successful creation -/

theorem count_loop_congr (p q : Nat → Bool) (n : Nat) :
    ∀ i, (∀ j, i ≤ j → j < i + n → q j = p j) → count_loop q n i = count_loop p n i := by
  induction n with
  | zero =>
    intro i _
    rfl
  | succ n ih =>
    intro i h
    simp only [count_loop]
    rw [h i (le_refl i) (by omega), ih (i + 1) (fun j h1 h2 => h j (by omega) (by omega))]

theorem count_loop_flip (p q : Nat → Bool) (k : Nat) (n : Nat) :
    ∀ i, i ≤ k → k < i + n → p k = true → q k = false → (∀ j, j ≠ k → q j = p j) →
      count_loop p n i = count_loop q n i + 1 := by
  induction n with
  | zero =>
    intro i h1 h2
    omega
  | succ n ih =>
    intro i h1 h2 hp hq hrest
    simp only [count_loop]
    by_cases hik : i = k
    · subst hik
      rw [hp, hq, count_loop_congr p q n (i + 1) (fun j h3 _ => hrest j (by omega))]
      simp only [if_true, Bool.false_eq_true, if_false]
      omega
    · rw [hrest i hik, ih (i + 1) (by omega) (by omega) hp hq hrest]
      omega

theorem count_loop_le (p : Nat → Bool) (n : Nat) : ∀ i, count_loop p n i ≤ n := by
  induction n with
  | zero =>
    intro i
    exact le_refl 0
  | succ n ih =>
    intro i
    simp only [count_loop]
    have := ih (i + 1)
    split <;> omega

theorem count_loop_all (p : Nat → Bool) (n : Nat) :
    ∀ i, (∀ j, i ≤ j → j < i + n → p j = true) → count_loop p n i = n := by
  induction n with
  | zero =>
    intro i _
    rfl
  | succ n ih =>
    intro i h
    simp only [count_loop]
    rw [h i (le_refl i) (by omega), ih (i + 1) (fun j h1 h2 => h j (by omega) (by omega))]
    simp only [if_true]
    omega

theorem to_uint16_of_nat (x : Nat) (h : x < 2 ^ 16) : to_uint16 (x : Int) = x := by
  unfold to_uint16
  have : ((x : Int) % 2 ^ 16) = (x : Int) := Int.emod_eq_of_lt (by omega) (by omega)
  rw [this]
  simp

theorem fs_create_success (s : State) (name : List Nat) (h0 : (fs_create s name).val = 0) :
    ∃ slot b : Nat,
      get_dir s [] = (slot : Int) ∧ get_empty_block s = (b : Int) ∧
      slot < 128 ∧ (s.root slot).filename = [] ∧ (∀ j, j < slot → (s.root j).filename ≠ []) ∧
      b < s.super_block.data_amount ∧ s.FAT b = 0 ∧ (∀ j, j < b → s.FAT j ≠ 0) ∧
      check_file s name = 0 ∧ get_dir s name = -1 ∧
      (fs_create s name).st.root = upd s.root slot ⟨name, 0, to_uint16 (b : Int)⟩ ∧
      (fs_create s name).st.FAT = upd s.FAT b FAT_EOC ∧
      (fs_create s name).st.descriptor_table = s.descriptor_table ∧
      (fs_create s name).st.file_table = s.file_table ∧
      (fs_create s name).st.mounted = s.mounted ∧
      (fs_create s name).st.super_block = s.super_block ∧
      (fs_create s name).st.disk = s.disk := by
  unfold fs_create at h0 ⊢
  by_cases hc : check_file s name = 0
  · by_cases hd : (get_empty_dir_num s : Int) ≤ 0
    · simp [hc, hd] at h0
    · by_cases hg : get_dir s name = -1
      · by_cases hb : get_empty_block s = -1
        · simp [hc, hd, hg, hb] at h0
        · have hd0 : get_empty_dir_num s ≠ 0 := by omega
          have hslot : get_dir s [] ≠ -1 := by
            intro h
            rw [get_dir_eq_neg_one_iff] at h
            exact hd0 ((get_empty_dir_num_eq_zero_iff s).mpr h)
          obtain ⟨slot, hs1, _, hs3, hs4, hs5⟩ := find_first_spec _ _ _ hslot
          obtain ⟨b, hb1, _, hb3, hb4, hb5⟩ := find_first_spec _ _ _ hb
          have hs1' : get_dir s [] = (slot : Int) := hs1
          have hb1' : get_empty_block s = (b : Int) := hb1
          simp only [FS_FILE_MAX_COUNT, Nat.zero_add, decide_eq_true_eq,
            decide_eq_false_iff_not] at hs3 hs4 hs5
          simp only [Nat.zero_add, decide_eq_true_eq, decide_eq_false_iff_not] at hb3 hb4 hb5
          refine ⟨slot, b, hs1', hb1', hs3, hs4, fun j hj => hs5 j (Nat.zero_le j) hj, hb3, hb4,
            fun j hj => hb5 j (Nat.zero_le j) hj, hc, hg, ?_⟩
          simp only [hc, hd, hg, hb, ne_eq, not_true_eq_false, if_false, hs1', hb1',
            Int.toNat_ofNat]
          exact ⟨rfl, rfl, rfl, rfl, rfl, rfl, rfl⟩
      · simp [hc, hd, hg] at h0
  · simp [hc] at h0

theorem fs_create_counts (s : State) (name : List Nat) (h0 : (fs_create s name).val = 0) :
    get_empty_block_num (fs_create s name).st + 1 = get_empty_block_num s ∧
    get_empty_dir_num (fs_create s name).st + 1 = get_empty_dir_num s := by
  obtain ⟨slot, b, _, _, hs1, hs2, _, hb1, hb2, _, hc, _, hroot, hfat, _, _, _, hsb, _⟩ :=
    fs_create_success s name h0
  have hname : name ≠ [] := ((check_file_eq_zero_iff s name).mp hc).2.1
  constructor
  · unfold get_empty_block_num
    rw [hsb, hfat]
    symm
    apply count_loop_flip _ _ b
    · exact Nat.zero_le b
    · omega
    · simp [hb2]
    · simp [upd_same, FAT_EOC]
    · intro j hj
      rw [upd_other _ _ _ _ hj]
  · unfold get_empty_dir_num
    rw [hroot]
    symm
    apply count_loop_flip _ _ slot
    · exact Nat.zero_le slot
    · simp only [FS_FILE_MAX_COUNT]
      omega
    · simp [hs2]
    · simp [upd_same, hname]
    · intro j hj
      rw [upd_other _ _ _ _ hj]

/-- C20: whenever `fs_create(name)` returns `0` (on a volume whose
`data_amount` fits its 16-bit field), the lowest-indexed directory slot that was
empty now holds `name` with `file_size = 0` and `first_index = b`, where `b` is
the lowest-indexed data block below `data_amount` whose FAT entry was `0`;
`FAT[b]` is now `0xFFFF`; every other directory slot, every other FAT entry and
the rest of the state are unchanged; and the free-block count and the free-slot
count each dropped by exactly one. -/
theorem fs_create_postcondition (s : State) (name : List Nat)
    (htype : s.super_block.data_amount ≤ 2 ^ 16) (h0 : (fs_create s name).val = 0) :
    ∃ slot b : Nat,
      slot < 128 ∧ (s.root slot).filename = [] ∧ (∀ j, j < slot → (s.root j).filename ≠ []) ∧
      b < s.super_block.data_amount ∧ s.FAT b = 0 ∧ (∀ j, j < b → s.FAT j ≠ 0) ∧
      (fs_create s name).st.root slot = ⟨name, 0, b⟩ ∧
      (fs_create s name).st.FAT b = 0xFFFF ∧
      (∀ i, i ≠ slot → (fs_create s name).st.root i = s.root i) ∧
      (∀ j, j ≠ b → (fs_create s name).st.FAT j = s.FAT j) ∧
      get_empty_block_num (fs_create s name).st + 1 = get_empty_block_num s ∧
      get_empty_dir_num (fs_create s name).st + 1 = get_empty_dir_num s ∧
      (fs_create s name).st.descriptor_table = s.descriptor_table ∧
      (fs_create s name).st.file_table = s.file_table ∧
      (fs_create s name).st.mounted = s.mounted ∧
      (fs_create s name).st.super_block = s.super_block ∧
      (fs_create s name).st.disk = s.disk := by
  obtain ⟨slot, b, _, _, hs1, hs2, hs3, hb1, hb2, hb3, hc, _, hroot, hfat, hdt, hft, hm, hsb,
    hdisk⟩ := fs_create_success s name h0
  have hname : name ≠ [] := ((check_file_eq_zero_iff s name).mp hc).2.1
  have hb16 : to_uint16 (b : Int) = b := to_uint16_of_nat b (by omega)
  refine ⟨slot, b, hs1, hs2, hs3, hb1, hb2, hb3, ?_, ?_, ?_, ?_, ?_, ?_, hdt, hft, hm, hsb, hdisk⟩
  · rw [hroot, upd_same, hb16]
  · rw [hfat, upd_same]
    rfl
  · intro i hi
    rw [hroot]
    exact upd_other _ _ _ _ hi
  · intro j hj
    rw [hfat]
    exact upd_other _ _ _ _ hj
  · exact (fs_create_counts s name h0).1
  · exact (fs_create_counts s name h0).2

/-- C20 (witness): creating `a` on a blank volume of 8 data blocks returns `0`;
slot 0 then holds `a` with first block 0, and 7 blocks and 127 slots are free. -/
theorem fs_create_postcondition_witness :
    (mounted_blank 8).super_block.data_amount ≤ 2 ^ 16 ∧
    (fs_create (mounted_blank 8) name_a).val = 0 ∧
    ∃ slot b : Nat,
      (fs_create (mounted_blank 8) name_a).st.root slot = ⟨name_a, 0, b⟩ ∧
      (fs_create (mounted_blank 8) name_a).st.FAT b = 0xFFFF ∧
      get_empty_block_num (fs_create (mounted_blank 8) name_a).st + 1
        = get_empty_block_num (mounted_blank 8) ∧
      get_empty_dir_num (fs_create (mounted_blank 8) name_a).st + 1
        = get_empty_dir_num (mounted_blank 8) := by
  obtain ⟨slot, b, _, _, _, _, _, _, h1, h2, _, _, h3, h4, _⟩ :=
    fs_create_postcondition (mounted_blank 8) name_a (by decide!) (by decide!)
  exact ⟨by decide!, by decide!, slot, b, h1, h2, h3, h4⟩


/-! ## Directory capacity -/

theorem count_loop_pos (p : Nat → Bool) (n i : Nat) (h : 0 < count_loop p n i) :
    ∃ j, i ≤ j ∧ j < i + n ∧ p j = true := by
  by_contra hc
  push_neg at hc
  have : count_loop p n i = 0 := by
    rw [count_loop_eq_zero_iff]
    intro j h1 h2
    have := hc j h1 h2
    simpa using this
  omega

theorem fs_create_returns_zero (s : State) (name : List Nat) (hm : s.mounted = true)
    (hne : name ≠ []) (hlen : name.length < 16)
    (hnew : ∀ i, i < 128 → (s.root i).filename ≠ name)
    (hslot : 0 < get_empty_dir_num s) (hblk : 0 < get_empty_block_num s) :
    (fs_create s name).val = 0 := by
  have hc : check_file s name = 0 := (check_file_eq_zero_iff s name).mpr ⟨hm, hne, hlen⟩
  have hg : get_dir s name = -1 := (get_dir_eq_neg_one_iff s name).mpr hnew
  have hd : ¬ ((get_empty_dir_num s : Int) ≤ 0) := by omega
  have hb : get_empty_block s ≠ -1 := by
    intro h
    have hz : get_empty_block_num s = 0 := by
      unfold get_empty_block_num
      rw [count_loop_eq_zero_iff]
      intro j _ h2
      have := (get_empty_block_eq_neg_one_iff s).mp h j (by omega)
      simpa using this
    omega
  unfold fs_create
  simp only [hc, hd, hg, hb, ne_eq, not_true_eq_false, if_false]

theorem fs_create_on_full_directory (s : State) (name : List Nat)
    (hfull : ∀ i, i < 128 → (s.root i).filename ≠ []) :
    (fs_create s name).val = -1 ∧ (fs_create s name).st = s := by
  have hz : get_empty_dir_num s = 0 := (get_empty_dir_num_eq_zero_iff s).mpr hfull
  have hle : (get_empty_dir_num s : Int) ≤ 0 := by omega
  unfold fs_create
  by_cases hc : check_file s name ≠ 0
  · rw [if_pos hc]
    exact ⟨rfl, rfl⟩
  · rw [if_neg hc, if_pos hle]
    exact ⟨rfl, rfl⟩

theorem create_all_succeeds (names : List (List Nat)) :
    ∀ s : State, s.mounted = true → names.Nodup →
      (∀ n ∈ names, n ≠ [] ∧ n.length < 16) →
      (∀ i, i < 128 → (s.root i).filename ∉ names) →
      names.length ≤ get_empty_dir_num s → names.length ≤ get_empty_block_num s →
      (∀ r ∈ create_results s names, r = 0) ∧
        get_empty_dir_num (create_all s names) + names.length = get_empty_dir_num s ∧
        (create_all s names).mounted = true := by
  induction names with
  | nil =>
    intro s hm _ _ _ _ _
    refine ⟨?_, ?_, hm⟩
    · intro r hr
      simp [create_results] at hr
    · simp only [create_all, List.length_nil, Nat.add_zero]
  | cons n ns ih =>
    intro s hm hnd hvalid hnew hslots hblks
    simp only [List.length_cons] at hslots hblks
    have hn := hvalid n (List.mem_cons_self n ns)
    have h0 : (fs_create s n).val = 0 :=
      fs_create_returns_zero s n hm hn.1 hn.2
        (fun i hi h => hnew i hi (by rw [h]; exact List.mem_cons_self n ns))
        (by omega) (by omega)
    obtain ⟨slot, b, _, _, _, _, _, _, _, _, _, _, hroot, _, _, _, hm2, _, _⟩ :=
      fs_create_success s n h0
    have hcounts := fs_create_counts s n h0
    have hnd2 := List.nodup_cons.mp hnd
    have hnew2 : ∀ i, i < 128 → ((fs_create s n).st.root i).filename ∉ ns := by
      intro i hi
      rw [hroot]
      by_cases his : i = slot
      · rw [his, upd_same]
        exact hnd2.1
      · rw [upd_other _ _ _ _ his]
        intro hmem
        exact hnew i hi (List.mem_cons_of_mem n hmem)
    have := ih (fs_create s n).st (by rw [hm2]; exact hm) hnd2.2
      (fun m hmem => hvalid m (List.mem_cons_of_mem n hmem)) hnew2 (by omega) (by omega)
    obtain ⟨hr, hcount, hmf⟩ := this
    refine ⟨?_, ?_, hmf⟩
    · intro r hr2
      simp only [create_results, List.mem_cons] at hr2
      rcases hr2 with h | h
      · rw [h]
        exact h0
      · exact hr r h
    · simp only [create_all, List.length_cons]
      omega

/-- C11: on a mounted volume with an empty directory and at least 128 free data
blocks, 128 consecutive `fs_create` calls with pairwise distinct valid names all
return `0`; afterwards all 128 slots are non-empty and `fs_create` with any name
returns `-1` and changes nothing.  In general `fs_create` returns `-1` in every
state whose 128 directory slots are all non-empty. -/
theorem directory_capacity (s : State) (names : List (List Nat)) :
    (s.mounted = true → (∀ i, i < 128 → (s.root i).filename = []) →
      128 ≤ get_empty_block_num s →
      names.length = 128 → names.Nodup → (∀ n ∈ names, n ≠ [] ∧ n.length < 16) →
      (create_results s names).length = 128 ∧
      (∀ r ∈ create_results s names, r = 0) ∧
      (∀ i, i < 128 → ((create_all s names).root i).filename ≠ []) ∧
      (∀ name : List Nat, (fs_create (create_all s names) name).val = -1 ∧
        (fs_create (create_all s names) name).st = create_all s names)) ∧
    (∀ name : List Nat, (∀ i, i < 128 → (s.root i).filename ≠ []) →
      (fs_create s name).val = -1) := by
  constructor
  · intro hm hempty hfree hlen hnd hvalid
    have hdir : get_empty_dir_num s = 128 := by
      unfold get_empty_dir_num
      apply count_loop_all
      intro j _ hj
      simp only [FS_FILE_MAX_COUNT, Nat.zero_add] at hj
      simp [hempty j hj]
    have hnew : ∀ i, i < 128 → (s.root i).filename ∉ names := by
      intro i hi hmem
      exact (hvalid _ hmem).1 (hempty i hi)
    obtain ⟨hr, hcount, _⟩ := create_all_succeeds names s hm hnd hvalid hnew (by omega) (by omega)
    have hfull : ∀ i, i < 128 → ((create_all s names).root i).filename ≠ [] :=
      (get_empty_dir_num_eq_zero_iff _).mp (by omega)
    have hlen2 : ∀ (l : List (List Nat)) (u : State), (create_results u l).length = l.length := by
      intro l
      induction l with
      | nil =>
        intro u
        rfl
      | cons a l ih =>
        intro u
        simp only [create_results, List.length_cons, ih]
    refine ⟨by rw [hlen2, hlen], hr, hfull, fun name => fs_create_on_full_directory _ name hfull⟩
  · intro name hfull
    exact (fs_create_on_full_directory s name hfull).1

/-- C11 (witness): on a blank volume of 200 data blocks the 128 names
`numbered_names` are all created, and creating `a` afterwards fails. -/
theorem directory_capacity_witness :
    (create_results (mounted_blank 200) numbered_names).length = 128 ∧
    (∀ r ∈ create_results (mounted_blank 200) numbered_names, r = 0) ∧
    (fs_create (create_all (mounted_blank 200) numbered_names) name_a).val = -1 :=
  have h := (directory_capacity (mounted_blank 200) numbered_names).1 (by decide!) (by decide!)
    (by decide!) (by decide!) (by decide!) (by decide!)
  ⟨h.1, h.2.1, (h.2.2.2 name_a).1⟩

/-! ## Closing a descriptor -/

theorem find_first_eq_of_first (p : Nat → Bool) (n i k : Nat) (h1 : i ≤ k) (h2 : k < i + n)
    (hp : p k = true) (hmin : ∀ j, i ≤ j → j < k → p j = false) :
    find_first p n i = (k : Int) := by
  have hne : find_first p n i ≠ -1 := by
    intro h
    have := (find_first_eq_neg_one_iff p n i).mp h k h1 h2
    rw [hp] at this
    exact Bool.noConfusion this
  obtain ⟨k2, hk, hi, _, hpk, hmin2⟩ := find_first_spec p n i hne
  rw [hk]
  have hle : ¬ k2 < k := by
    intro hlt
    have := hmin k2 hi hlt
    rw [hpk] at this
    exact Bool.noConfusion this
  have hge : ¬ k < k2 := by
    intro hlt
    have := hmin2 k h1 hlt
    rw [hp] at this
    exact Bool.noConfusion this
  have : k2 = k := by omega
  rw [this]

theorem to_uint8_of_nat (x : Nat) (h : x < 2 ^ 8) : to_uint8 (x : Int) = x := by
  unfold to_uint8
  have : ((x : Int) % 2 ^ 8) = (x : Int) := Int.emod_eq_of_lt (by omega) (by omega)
  rw [this]
  simp

theorem to_uint8_pred (x : Nat) (h1 : 1 ≤ x) (h2 : x < 2 ^ 8) :
    to_uint8 ((x : Int) - 1) = x - 1 := by
  have : ((x : Int) - 1) = ((x - 1 : Nat) : Int) := by omega
  rw [this]
  exact to_uint8_of_nat (x - 1) (by omega)

theorem fs_close_of_invalid (s : State) (fd : Int) (h : check_fd s fd = -1) :
    fs_close s fd = ⟨-1, s⟩ := by
  unfold fs_close
  simp only [h, if_true]

theorem fs_close_last (s : State) (fd : Int) (h : check_fd s fd ≠ -1)
    (hc : (s.file_table (entry_of s fd)).open_count = 1) :
    fs_close s fd = ⟨0, { s with
      descriptor_table := upd s.descriptor_table fd.toNat ⟨-1, 0⟩
      file_table := upd s.file_table (entry_of s fd) ⟨[], 0, 128⟩ }⟩ := by
  have hk := check_fd_toNat s fd h
  unfold fs_close
  simp only [h, if_false, hk, reset_descriptor, reset_file, hc, FS_FILE_MAX_COUNT]
  have h0 : to_uint8 (((1 : Nat) : Int) - 1) = 0 := by decide
  simp only [h0]
  simp only [Nat.cast_zero, le_refl, if_true, Ret.mk.injEq, true_and, State.mk.injEq, and_true]
  funext j
  unfold upd
  split <;> rfl

theorem fs_close_shared (s : State) (fd : Int) (h : check_fd s fd ≠ -1)
    (hc1 : 1 < (s.file_table (entry_of s fd)).open_count)
    (hc2 : (s.file_table (entry_of s fd)).open_count < 256) :
    fs_close s fd = ⟨0, { s with
      descriptor_table := upd s.descriptor_table fd.toNat ⟨-1, 0⟩
      file_table := upd s.file_table (entry_of s fd)
        ⟨(s.file_table (entry_of s fd)).filename, (s.file_table (entry_of s fd)).open_count - 1,
          (s.file_table (entry_of s fd)).root_index⟩ }⟩ := by
  have hk := check_fd_toNat s fd h
  have hp := to_uint8_pred (s.file_table (entry_of s fd)).open_count (by omega) (by omega)
  unfold fs_close
  simp only [h, if_false, hk, reset_descriptor, reset_file, hp]
  have hpos : ¬ ((((s.file_table (entry_of s fd)).open_count - 1 : Nat) : Int) ≤ 0) := by omega
  rw [if_neg hpos]

/-- C16: `fs_close(fd)` returns `-1` and changes nothing when `fd` is outside
`[0, 32)` or the descriptor is not bound to a live entry of the open-file table
(its index is outside `[0, 32)` or the entry has the empty name).  On a mounted
volume, for a descriptor bound to a live entry whose `open_count` is at least 1
(and fits its 8-bit field), it returns `0`, sets descriptor `fd` to unused
(`-1`, cursor 0), decrements the entry's `open_count` by one and clears the entry
(empty name, count 0, `root_index` 128) exactly when the count reaches 0; other
descriptors, other entries, the directory, the FAT, the superblock and the device
are unchanged, and a second `fs_close(fd)` returns `-1` and changes nothing. -/
theorem fs_close_contract (s : State) (fd : Int) :
    ((fd < 0 ∨ 32 ≤ fd ∨ (s.descriptor_table fd.toNat).open_file_index < 0 ∨
        32 ≤ (s.descriptor_table fd.toNat).open_file_index ∨
        (s.file_table (entry_of s fd)).filename = []) → fs_close s fd = ⟨-1, s⟩) ∧
    (s.mounted = true → 0 ≤ fd → fd < 32 →
      0 ≤ (s.descriptor_table fd.toNat).open_file_index →
      (s.descriptor_table fd.toNat).open_file_index < 32 →
      (s.file_table (entry_of s fd)).filename ≠ [] →
      1 ≤ (s.file_table (entry_of s fd)).open_count →
      (s.file_table (entry_of s fd)).open_count < 256 →
      (fs_close s fd).val = 0 ∧
      (fs_close s fd).st.descriptor_table fd.toNat = ⟨-1, 0⟩ ∧
      (∀ j, j ≠ fd.toNat → (fs_close s fd).st.descriptor_table j = s.descriptor_table j) ∧
      ((s.file_table (entry_of s fd)).open_count = 1 →
        (fs_close s fd).st.file_table (entry_of s fd) = ⟨[], 0, 128⟩) ∧
      (1 < (s.file_table (entry_of s fd)).open_count →
        (fs_close s fd).st.file_table (entry_of s fd) =
          ⟨(s.file_table (entry_of s fd)).filename,
            (s.file_table (entry_of s fd)).open_count - 1,
            (s.file_table (entry_of s fd)).root_index⟩) ∧
      (∀ k, k ≠ entry_of s fd → (fs_close s fd).st.file_table k = s.file_table k) ∧
      (fs_close s fd).st.root = s.root ∧ (fs_close s fd).st.FAT = s.FAT ∧
      (fs_close s fd).st.super_block = s.super_block ∧
      (fs_close s fd).st.mounted = s.mounted ∧ (fs_close s fd).st.disk = s.disk ∧
      fs_close (fs_close s fd).st fd = ⟨-1, (fs_close s fd).st⟩) := by
  constructor
  · intro h
    apply fs_close_of_invalid
    by_contra hne
    have := (check_fd_ne_iff s fd).mp hne
    rcases h with h | h | h | h | h
    · omega
    · omega
    · omega
    · omega
    · exact this.2.2.2.2.2 h
  · intro hm h1 h2 h3 h4 h5 h6 h7
    have hv : check_fd s fd ≠ -1 := (check_fd_ne_iff s fd).mpr ⟨hm, h1, h2, h3, h4, h5⟩
    have hagain : ∀ t : State, t.descriptor_table fd.toNat = ⟨-1, 0⟩ →
        fs_close t fd = ⟨-1, t⟩ := by
      intro t ht
      apply fs_close_of_invalid
      by_contra hne
      have := ((check_fd_ne_iff t fd).mp hne).2.2.2.1
      rw [ht] at this
      exact absurd this (by decide)
    by_cases hc : (s.file_table (entry_of s fd)).open_count = 1
    · have he := fs_close_last s fd hv hc
      rw [he]
      refine ⟨rfl, upd_same _ _ _, fun j hj => upd_other _ _ _ _ hj, fun _ => upd_same _ _ _,
        fun hlt => absurd hc (by omega), fun k hk => upd_other _ _ _ _ hk, rfl, rfl, rfl, rfl,
        rfl, hagain _ (upd_same _ _ _)⟩
    · have he := fs_close_shared s fd hv (by omega) h7
      rw [he]
      refine ⟨rfl, upd_same _ _ _, fun j hj => upd_other _ _ _ _ hj, fun h => absurd h hc,
        fun _ => upd_same _ _ _, fun k hk => upd_other _ _ _ _ hk, rfl, rfl, rfl, rfl,
        rfl, hagain _ (upd_same _ _ _)⟩

/-- C16 (witness): with `a` open twice (descriptors 0 and 1), closing descriptor
0 returns `0` and a second close of it fails; closing descriptor 7, which is not
in use, fails and changes nothing. -/
theorem fs_close_contract_witness :
    fs_close busy_state 7 = ⟨-1, busy_state⟩ ∧
    (fs_close busy_state 0).val = 0 ∧
    (fs_close busy_state 0).st.descriptor_table (0 : Int).toNat = ⟨-1, 0⟩ ∧
    fs_close (fs_close busy_state 0).st 0 = ⟨-1, (fs_close busy_state 0).st⟩ :=
  have h := (fs_close_contract busy_state 0).2 (by decide!) (by decide!) (by decide!)
    (by decide!) (by decide!) (by decide!) (by decide!) (by decide!)
  ⟨(fs_close_contract busy_state 7).1 (Or.inr (Or.inr (Or.inl (by decide!)))), h.1, h.2.1,
    h.2.2.2.2.2.2.2.2.2.2.2⟩

/-! ## Opening a file -/

theorem scan_spec (p : Nat → Bool) (n : Nat) (h : find_first p n 0 ≠ -1) :
    ∃ k : Nat, find_first p n 0 = (k : Int) ∧ k < n ∧ p k = true ∧ ∀ j, j < k → p j = false := by
  obtain ⟨k, h1, _, h3, h4, h5⟩ := find_first_spec p n 0 h
  exact ⟨k, h1, by omega, h4, fun j hj => h5 j (Nat.zero_le j) hj⟩

theorem get_dir_spec (s : State) (name : List Nat) (h : get_dir s name ≠ -1) :
    ∃ slot : Nat, get_dir s name = (slot : Int) ∧ slot < 128 ∧ (s.root slot).filename = name ∧
      ∀ j, j < slot → (s.root j).filename ≠ name := by
  obtain ⟨k, h1, h2, h3, h4⟩ := scan_spec _ _ h
  refine ⟨k, h1, h2, by simpa using h3, ?_⟩
  intro j hj
  simpa using h4 j hj

theorem get_empty_fd_spec (s : State) (h : get_empty_fd s ≠ -1) :
    ∃ fd : Nat, get_empty_fd s = (fd : Int) ∧ fd < 32 ∧
      (s.descriptor_table fd).open_file_index = -1 ∧
      ∀ j, j < fd → (s.descriptor_table j).open_file_index ≠ -1 := by
  obtain ⟨k, h1, h2, h3, h4⟩ := scan_spec _ _ h
  refine ⟨k, h1, h2, by simpa using h3, ?_⟩
  intro j hj
  simpa using h4 j hj

theorem get_empty_fd_eq_neg_one_iff (s : State) :
    get_empty_fd s = -1 ↔ ∀ fd, fd < 32 → (s.descriptor_table fd).open_file_index ≠ -1 := by
  unfold get_empty_fd
  rw [find_first_eq_neg_one_iff]
  simp only [FS_OPEN_MAX_COUNT, Nat.zero_add, decide_eq_false_iff_not, ne_eq]
  exact ⟨fun h i hi => h i (Nat.zero_le i) hi, fun h i _ hi => h i hi⟩

theorem file_is_open_spec (s : State) (name : List Nat) (h : file_is_open s name ≠ -1) :
    ∃ k : Nat, file_is_open s name = (k : Int) ∧ k < 32 ∧ (s.file_table k).filename = name ∧
      ∀ j, j < k → (s.file_table j).filename ≠ name := by
  obtain ⟨k, h1, h2, h3, h4⟩ := scan_spec _ _ h
  refine ⟨k, h1, h2, by simpa using h3, ?_⟩
  intro j hj
  simpa using h4 j hj

theorem get_empty_open_file_spec (s : State) (h : get_empty_open_file s ≠ -1) :
    ∃ k : Nat, get_empty_open_file s = (k : Int) ∧ k < 32 ∧ (s.file_table k).filename = [] ∧
      ∀ j, j < k → (s.file_table j).filename ≠ [] := by
  obtain ⟨k, h1, h2, h3, h4⟩ := scan_spec _ _ h
  refine ⟨k, h1, h2, by simpa using h3, ?_⟩
  intro j hj
  simpa using h4 j hj

theorem get_empty_open_file_eq_neg_one_iff (s : State) :
    get_empty_open_file s = -1 ↔ ∀ k, k < 32 → (s.file_table k).filename ≠ [] := by
  unfold get_empty_open_file
  rw [find_first_eq_neg_one_iff]
  simp only [FS_OPEN_MAX_COUNT, Nat.zero_add, decide_eq_false_iff_not, ne_eq]
  exact ⟨fun h i hi => h i (Nat.zero_le i) hi, fun h i _ hi => h i hi⟩

/-- The three ways `fs_open` ends: failure with nothing changed; a new
descriptor bound to the entry the file already has; a new descriptor bound to a
fresh entry. -/
theorem fs_open_cases (s : State) (name : List Nat) :
    fs_open s name = ⟨-1, s⟩ ∨
    (∃ slot fd k : Nat, check_file s name = 0 ∧
      slot < 128 ∧ (s.root slot).filename = name ∧ (∀ j, j < slot → (s.root j).filename ≠ name) ∧
      fd < 32 ∧ (s.descriptor_table fd).open_file_index = -1 ∧
      (∀ j, j < fd → (s.descriptor_table j).open_file_index ≠ -1) ∧
      k < 32 ∧ (s.file_table k).filename = name ∧
      (∀ j, j < k → (s.file_table j).filename ≠ name) ∧
      fs_open s name = ⟨fd, { s with
        file_table := upd s.file_table k ⟨(s.file_table k).filename,
          to_uint8 (((s.file_table k).open_count : Int) + 1), (s.file_table k).root_index⟩
        descriptor_table := upd s.descriptor_table fd ⟨k, 0⟩ }⟩) ∨
    (∃ slot fd k : Nat, check_file s name = 0 ∧
      slot < 128 ∧ (s.root slot).filename = name ∧ (∀ j, j < slot → (s.root j).filename ≠ name) ∧
      fd < 32 ∧ (s.descriptor_table fd).open_file_index = -1 ∧
      (∀ j, j < fd → (s.descriptor_table j).open_file_index ≠ -1) ∧
      (∀ j, j < 32 → (s.file_table j).filename ≠ name) ∧
      k < 32 ∧ (s.file_table k).filename = [] ∧
      (∀ j, j < k → (s.file_table j).filename ≠ []) ∧
      fs_open s name = ⟨fd, { s with
        file_table := upd s.file_table k ⟨name, 1, slot⟩
        descriptor_table := upd s.descriptor_table fd ⟨k, 0⟩ }⟩) := by
  by_cases hc : check_file s name ≠ 0
  · left
    unfold fs_open
    rw [if_pos hc]
  have hc0 : check_file s name = 0 := not_not.mp hc
  by_cases hd : get_dir s name = -1
  · left
    unfold fs_open
    rw [if_neg hc, if_pos hd]
  by_cases hf : get_empty_fd s = -1
  · left
    unfold fs_open
    rw [if_neg hc, if_neg hd]
    simp only [hf, if_true]
  obtain ⟨slot, hs0, hs1, hs2, hs3⟩ := get_dir_spec s name hd
  obtain ⟨fd, hf0, hf1, hf2, hf3⟩ := get_empty_fd_spec s hf
  have hfd1 : ¬ ((fd : Int) = -1) := by omega
  by_cases ho : file_is_open s name ≠ -1
  · right
    left
    obtain ⟨k, hk0, hk1, hk2, hk3⟩ := file_is_open_spec s name ho
    have hk4 : ((k : Int) ≠ -1) := by omega
    refine ⟨slot, fd, k, hc0, hs1, hs2, hs3, hf1, hf2, hf3, hk1, hk2, hk3, ?_⟩
    unfold fs_open
    rw [if_neg hc, if_neg hd]
    simp only [hf0, hk0, hfd1, if_false, hk4, if_true, Int.toNat_ofNat, reset_descriptor]
    rfl
  · have ho1 : file_is_open s name = -1 := not_not.mp ho
    have hnone := (file_is_open_eq_neg_one_iff s name).mp ho1
    by_cases he : get_empty_open_file s ≠ -1
    · right
      right
      obtain ⟨k, hk0, hk1, hk2, hk3⟩ := get_empty_open_file_spec s he
      have hk4 : ((k : Int) ≠ -1) := by omega
      have h8 : to_uint8 (slot : Int) = slot := to_uint8_of_nat slot (by omega)
      refine ⟨slot, fd, k, hc0, hs1, hs2, hs3, hf1, hf2, hf3, hnone, hk1, hk2, hk3, ?_⟩
      unfold fs_open
      rw [if_neg hc, if_neg hd]
      simp only [hf0, ho1, hfd1, if_false, ne_eq, not_true_eq_false, hk0, hk4, not_false_eq_true,
        if_true, Int.toNat_ofNat, reset_descriptor, reset_file, hs0, h8]
    · left
      unfold fs_open
      rw [if_neg hc, if_neg hd]
      simp only [hf0, ho1, hfd1, if_false, ne_eq, not_true_eq_false, he]

theorem count_loop_ge_one (p : Nat → Bool) (n i k : Nat) (h1 : i ≤ k) (h2 : k < i + n)
    (hp : p k = true) : 1 ≤ count_loop p n i := by
  by_contra hc
  have h0 : count_loop p n i = 0 := by omega
  have := (count_loop_eq_zero_iff p n i).mp h0 k h1 h2
  rw [hp] at this
  exact Bool.noConfusion this

theorem registry_ok_bound (s : State) (h : registry_ok s) (k : Nat) (hk : k < 32)
    (hne : (s.file_table k).filename ≠ []) :
    ∃ fd, fd < 32 ∧ (s.descriptor_table fd).open_file_index = (k : Int) := by
  obtain ⟨_, h2, h3⟩ := h
  have hc : (s.file_table k).open_count ≠ 0 := fun h0 => hne ((h3 k hk).mpr h0)
  rw [h2 k hk] at hc
  obtain ⟨fd, _, hfd, hp⟩ := count_loop_pos _ _ _ (Nat.pos_of_ne_zero hc)
  refine ⟨fd, ?_, by simpa using hp⟩
  simp only [FS_OPEN_MAX_COUNT] at hfd
  omega

theorem registry_ok_count_le (s : State) (h : registry_ok s) (k : Nat) (hk : k < 32) :
    (s.file_table k).open_count ≤ 32 := by
  rw [h.2.1 k hk]
  exact count_loop_le _ _ _

theorem registry_in_use_of_registry_ok (s : State) (h : registry_ok s) : registry_in_use s := by
  intro k hk hname
  obtain ⟨_, hcount, hempty⟩ := h
  have hpos : 0 < bound_count s k := by
    have h0 : (s.file_table k).open_count ≠ 0 := fun hz => hname ((hempty k hk).mpr hz)
    have := hcount k hk
    omega
  obtain ⟨fd, _, hfd, hp⟩ := count_loop_pos _ FS_OPEN_MAX_COUNT 0 hpos
  refine ⟨fd, ?_, of_decide_eq_true hp⟩
  have : FS_OPEN_MAX_COUNT = 32 := rfl
  omega

theorem registry_has_free_slot (s : State) (h : registry_ok s)
    (hfree : ∃ fd, fd < 32 ∧ (s.descriptor_table fd).open_file_index = -1) :
    ∃ k, k < 32 ∧ (s.file_table k).filename = [] := by
  by_contra hc
  push_neg at hc
  obtain ⟨fd0, hfd0, hidx0⟩ := hfree
  have hall : ∀ k : Nat, ∃ fd : Nat, k < 32 →
      (fd < 32 ∧ (s.descriptor_table fd).open_file_index = (k : Int)) := by
    intro k
    by_cases hk : k < 32
    · obtain ⟨fd, h1, h2⟩ := registry_ok_bound s h k hk (hc k hk)
      exact ⟨fd, fun _ => ⟨h1, h2⟩⟩
    · exact ⟨0, fun h => absurd h hk⟩
  choose f hf using hall
  have hmaps : ∀ k ∈ Finset.range 32, f k ∈ (Finset.range 32).erase fd0 := by
    intro k hk
    have hk2 := Finset.mem_range.mp hk
    have := hf k hk2
    refine Finset.mem_erase.mpr ⟨?_, Finset.mem_range.mpr this.1⟩
    intro heq
    have h2 := this.2
    rw [heq, hidx0] at h2
    omega
  have hinj : Set.InjOn f (Finset.range 32 : Set Nat) := by
    intro a ha b hb hab
    have ha2 := (hf a (Finset.mem_range.mp ha)).2
    have hb2 := (hf b (Finset.mem_range.mp hb)).2
    rw [hab, hb2] at ha2
    omega
  have hcard := Finset.card_le_card_of_injOn f hmaps hinj
  rw [Finset.card_erase_of_mem (Finset.mem_range.mpr hfd0), Finset.card_range] at hcard
  omega

theorem fs_open_effect (s : State) (name : List Nat)
    (hm : s.mounted = true) (hreg : registry_ok s)
    (hname : name ≠ [] ∧ name.length < 16)
    (hex : ∃ i, i < 128 ∧ (s.root i).filename = name)
    (hfree : ∃ fd, fd < 32 ∧ (s.descriptor_table fd).open_file_index = -1) :
    ∃ slot fd k : Nat,
      fd < 32 ∧ (s.descriptor_table fd).open_file_index = -1 ∧
      (∀ j, j < fd → (s.descriptor_table j).open_file_index ≠ -1) ∧
      slot < 128 ∧ (s.root slot).filename = name ∧
      (∀ j, j < slot → (s.root j).filename ≠ name) ∧
      (fs_open s name).val = (fd : Int) ∧
      (fs_open s name).st.descriptor_table fd = ⟨(k : Int), 0⟩ ∧
      (∀ j, j ≠ fd → (fs_open s name).st.descriptor_table j = s.descriptor_table j) ∧
      k < 32 ∧
      ((∃ j, j < 32 ∧ (s.file_table j).filename = name) →
        (s.file_table k).filename = name ∧ (∀ j, j < k → (s.file_table j).filename ≠ name) ∧
        (fs_open s name).st.file_table k =
          ⟨name, (s.file_table k).open_count + 1, (s.file_table k).root_index⟩) ∧
      ((∀ j, j < 32 → (s.file_table j).filename ≠ name) →
        (s.file_table k).filename = [] ∧ (∀ j, j < k → (s.file_table j).filename ≠ []) ∧
        (fs_open s name).st.file_table k = ⟨name, 1, slot⟩) ∧
      (∀ j, j ≠ k → (fs_open s name).st.file_table j = s.file_table j) ∧
      (fs_open s name).st.root = s.root ∧ (fs_open s name).st.FAT = s.FAT ∧
      (fs_open s name).st.super_block = s.super_block ∧
      (fs_open s name).st.disk = s.disk ∧ (fs_open s name).st.mounted = s.mounted := by
  have hc : check_file s name = 0 := (check_file_eq_zero_iff s name).mpr ⟨hm, hname.1, hname.2⟩
  have hd : get_dir s name ≠ -1 := by
    intro h
    obtain ⟨i, hi, hin⟩ := hex
    exact (get_dir_eq_neg_one_iff s name).mp h i hi hin
  have hf : get_empty_fd s ≠ -1 := by
    intro h
    obtain ⟨fd, hfd, hidx⟩ := hfree
    exact (get_empty_fd_eq_neg_one_iff s).mp h fd hfd hidx
  have hfail : fs_open s name ≠ ⟨-1, s⟩ := by
    intro h
    have hval : (fs_open s name).val = -1 := by rw [h]
    unfold fs_open at hval
    rw [if_neg (not_not.mpr hc), if_neg hd] at hval
    simp only [hf, if_false] at hval
    obtain ⟨fd, hf0, _⟩ := get_empty_fd_spec s hf
    by_cases ho : file_is_open s name ≠ -1
    · rw [if_pos ho] at hval
      simp only [hf0] at hval
      omega
    · rw [if_neg ho] at hval
      have he : get_empty_open_file s ≠ -1 := by
        intro he
        obtain ⟨k, hk, hkn⟩ := registry_has_free_slot s hreg hfree
        exact (get_empty_open_file_eq_neg_one_iff s).mp he k hk hkn
      rw [if_pos he] at hval
      simp only [hf0] at hval
      omega
  rcases fs_open_cases s name with h | h | h
  · exact absurd h hfail
  · obtain ⟨slot, fd, k, _, hs1, hs2, hs3, hf1, hf2, hf3, hk1, hk2, hk3, heq⟩ := h
    have h8 : to_uint8 (((s.file_table k).open_count : Int) + 1)
        = (s.file_table k).open_count + 1 := by
      have := registry_ok_count_le s hreg k hk1
      have hcast : ((s.file_table k).open_count : Int) + 1
          = (((s.file_table k).open_count + 1 : Nat) : Int) := by omega
      rw [hcast]
      exact to_uint8_of_nat _ (by omega)
    rw [heq]
    refine ⟨slot, fd, k, hf1, hf2, hf3, hs1, hs2, hs3, rfl, upd_same _ _ _,
      fun j hj => upd_other _ _ _ _ hj, hk1, ?_, ?_, fun j hj => upd_other _ _ _ _ hj,
      rfl, rfl, rfl, rfl, rfl⟩
    · intro _
      refine ⟨hk2, hk3, ?_⟩
      show upd s.file_table k _ k = _
      rw [upd_same, h8, hk2]
    · intro hno
      exact absurd hk2 (hno k hk1)
  · obtain ⟨slot, fd, k, _, hs1, hs2, hs3, hf1, hf2, hf3, hno, hk1, hk2, hk3, heq⟩ := h
    rw [heq]
    refine ⟨slot, fd, k, hf1, hf2, hf3, hs1, hs2, hs3, rfl, upd_same _ _ _,
      fun j hj => upd_other _ _ _ _ hj, hk1, ?_, ?_, fun j hj => upd_other _ _ _ _ hj,
      rfl, rfl, rfl, rfl, rfl⟩
    · intro hyes
      obtain ⟨j, hj, hjn⟩ := hyes
      exact absurd hjn (hno j hj)
    · intro _
      exact ⟨hk2, hk3, upd_same _ _ _⟩

/-- C15: on a mounted volume whose descriptor table and open-file table agree
(`registry_ok`), for a valid name held by some directory slot and with some
descriptor slot free, `fs_open(name)` returns the lowest-numbered free
descriptor `fd`, and afterwards descriptor `fd` has cursor 0 and is bound to
slot `k` of the open-file table.  If some slot already held the name, `k` is the
first such slot, its `open_count` is one more than before and its name and
`root_index` are kept; otherwise `k` is the first slot with the empty name and
now holds the name, `open_count = 1` and the index of the first directory slot
with that name.  Every other slot of the open-file table, every other
descriptor, the directory, the FAT, the superblock and the device are
unchanged. -/
theorem fs_open_contract (s : State) (name : List Nat)
    (hm : s.mounted = true) (hreg : registry_ok s)
    (hname : name ≠ [] ∧ name.length < 16)
    (hex : ∃ i, i < 128 ∧ (s.root i).filename = name)
    (hfree : ∃ fd, fd < 32 ∧ (s.descriptor_table fd).open_file_index = -1) :
    ∃ slot fd k : Nat,
      fd < 32 ∧ (s.descriptor_table fd).open_file_index = -1 ∧
      (∀ j, j < fd → (s.descriptor_table j).open_file_index ≠ -1) ∧
      slot < 128 ∧ (s.root slot).filename = name ∧
      (∀ j, j < slot → (s.root j).filename ≠ name) ∧
      (fs_open s name).val = (fd : Int) ∧
      (fs_open s name).st.descriptor_table fd = ⟨(k : Int), 0⟩ ∧
      (∀ j, j ≠ fd → (fs_open s name).st.descriptor_table j = s.descriptor_table j) ∧
      k < 32 ∧
      ((∃ j, j < 32 ∧ (s.file_table j).filename = name) →
        (s.file_table k).filename = name ∧ (∀ j, j < k → (s.file_table j).filename ≠ name) ∧
        (fs_open s name).st.file_table k =
          ⟨name, (s.file_table k).open_count + 1, (s.file_table k).root_index⟩) ∧
      ((∀ j, j < 32 → (s.file_table j).filename ≠ name) →
        (s.file_table k).filename = [] ∧ (∀ j, j < k → (s.file_table j).filename ≠ []) ∧
        (fs_open s name).st.file_table k = ⟨name, 1, slot⟩) ∧
      (∀ j, j ≠ k → (fs_open s name).st.file_table j = s.file_table j) ∧
      (fs_open s name).st.root = s.root ∧ (fs_open s name).st.FAT = s.FAT ∧
      (fs_open s name).st.super_block = s.super_block ∧
      (fs_open s name).st.disk = s.disk ∧ (fs_open s name).st.mounted = s.mounted :=
  fs_open_effect s name hm hreg hname hex hfree

/-- C15 (witness): with `a` open once on a one-block volume (descriptor 0,
entry 0), a second `fs_open` returns descriptor 1 bound to the same entry, whose
count becomes 2. -/
theorem fs_open_contract_witness :
    full_open.mounted = true ∧ registry_ok full_open ∧
    (fs_open full_open name_a).val = 1 ∧
    ((fs_open full_open name_a).st.file_table 0).open_count = 2 ∧
    ∃ fd k : Nat,
      (fs_open full_open name_a).val = (fd : Int) ∧
      (fs_open full_open name_a).st.descriptor_table fd = ⟨(k : Int), 0⟩ ∧
      (fs_open full_open name_a).st.root = full_open.root := by
  obtain ⟨_, fd, k, _, _, _, _, _, _, h1, h2, _, _, _, _, _, h3, _⟩ :=
    fs_open_contract full_open name_a (by decide!) (by decide!) ⟨by decide, by decide⟩
      ⟨0, by decide, by decide!⟩ ⟨1, by decide, by decide!⟩
  exact ⟨by decide!, by decide!, by decide!, by decide!, fd, k, h1, h2, h3⟩

/-! ## The open-file table along opens and closes -/

theorem bound_count_congr (s t : State)
    (h : ∀ fd, fd < 32 →
      (t.descriptor_table fd).open_file_index = (s.descriptor_table fd).open_file_index)
    (k : Nat) : bound_count t k = bound_count s k := by
  unfold bound_count
  apply count_loop_congr
  intro j _ hj
  simp only [FS_OPEN_MAX_COUNT, Nat.zero_add] at hj
  rw [h j hj]

theorem bound_count_bind (s t : State) (fd k c : Nat) (hfd : fd < 32)
    (hfree : (s.descriptor_table fd).open_file_index = -1)
    (ht : t.descriptor_table = upd s.descriptor_table fd ⟨(k : Int), c⟩) :
    bound_count t k = bound_count s k + 1 ∧ ∀ j, j ≠ k → bound_count t j = bound_count s j := by
  constructor
  · unfold bound_count
    apply count_loop_flip _ _ fd
    · exact Nat.zero_le fd
    · simp only [FS_OPEN_MAX_COUNT]
      omega
    · rw [ht, upd_same]
      simp
    · rw [hfree]
      simp
    · intro j hj
      rw [ht, upd_other _ _ _ _ hj]
  · intro j hj
    unfold bound_count
    apply count_loop_congr
    intro i _ _
    by_cases hi : i = fd
    · rw [hi, ht, upd_same, hfree]
      have h1 : ¬ ((k : Int) = (j : Int)) := by omega
      have h2 : ¬ ((-1 : Int) = (j : Int)) := by omega
      simp [h1, h2]
    · rw [ht, upd_other _ _ _ _ hi]

theorem bound_count_release (s t : State) (fd k c : Nat) (hfd : fd < 32)
    (hbound : (s.descriptor_table fd).open_file_index = (k : Int))
    (ht : t.descriptor_table = upd s.descriptor_table fd ⟨-1, c⟩) :
    bound_count s k = bound_count t k + 1 ∧ ∀ j, j ≠ k → bound_count t j = bound_count s j := by
  constructor
  · unfold bound_count
    apply count_loop_flip _ _ fd
    · exact Nat.zero_le fd
    · simp only [FS_OPEN_MAX_COUNT]
      omega
    · rw [hbound]
      simp
    · rw [ht, upd_same]
      simp
    · intro j hj
      rw [ht, upd_other _ _ _ _ hj]
  · intro j hj
    unfold bound_count
    apply count_loop_congr
    intro i _ _
    by_cases hi : i = fd
    · rw [hi, ht, upd_same, hbound]
      have h1 : ¬ ((k : Int) = (j : Int)) := by omega
      have h2 : ¬ ((-1 : Int) = (j : Int)) := by omega
      simp [h1, h2]
    · rw [ht, upd_other _ _ _ _ hi]

theorem registry_ok_congr (s t : State) (h : registry_ok s)
    (hd : ∀ fd, fd < 32 →
      (t.descriptor_table fd).open_file_index = (s.descriptor_table fd).open_file_index)
    (hf : t.file_table = s.file_table) : registry_ok t := by
  obtain ⟨h1, h2, h3⟩ := h
  refine ⟨?_, ?_, ?_⟩
  · intro fd hfd
    rw [hd fd hfd]
    exact h1 fd hfd
  · intro k hk
    rw [hf, bound_count_congr s t hd k]
    exact h2 k hk
  · intro k hk
    rw [hf]
    exact h3 k hk

theorem registry_ok_fs_open (s : State) (name : List Nat) (h : registry_ok s) :
    registry_ok (fs_open s name).st := by
  rcases fs_open_cases s name with hc | hc | hc
  · rw [hc]
    exact h
  · obtain ⟨slot, fd, k, hcf, _, _, _, hf1, hf2, _, hk1, hk2, _, heq⟩ := hc
    have hname : name ≠ [] := ((check_file_eq_zero_iff s name).mp hcf).2.1
    have h8 : to_uint8 (((s.file_table k).open_count : Int) + 1)
        = (s.file_table k).open_count + 1 := by
      have := registry_ok_count_le s h k hk1
      have hcast : ((s.file_table k).open_count : Int) + 1
          = (((s.file_table k).open_count + 1 : Nat) : Int) := by omega
      rw [hcast]
      exact to_uint8_of_nat _ (by omega)
    rw [heq]
    have hb := bound_count_bind s _ fd k 0 hf1 hf2 (rfl : ({ s with
        file_table := upd s.file_table k ⟨(s.file_table k).filename,
          to_uint8 (((s.file_table k).open_count : Int) + 1), (s.file_table k).root_index⟩
        descriptor_table := upd s.descriptor_table fd ⟨k, 0⟩ } : State).descriptor_table = _)
    obtain ⟨h1, h2, h3⟩ := h
    refine ⟨?_, ?_, ?_⟩
    · intro i hi
      show (upd s.descriptor_table fd _ i).open_file_index = -1 ∨ _
      by_cases hif : i = fd
      · rw [hif]
        right
        show 0 ≤ (upd s.descriptor_table fd _ fd).open_file_index ∧
          (upd s.descriptor_table fd _ fd).open_file_index < 32
        rw [upd_same]
        show (0 : Int) ≤ (k : Int) ∧ (k : Int) < 32
        omega
      · show (upd s.descriptor_table fd _ i).open_file_index = -1 ∨
          (0 ≤ (upd s.descriptor_table fd _ i).open_file_index ∧
          (upd s.descriptor_table fd _ i).open_file_index < 32)
        rw [upd_other _ _ _ _ hif]
        exact h1 i hi
    · intro j hj
      show (upd s.file_table k _ j).open_count = _
      by_cases hjk : j = k
      · rw [hjk, upd_same, hb.1, ← h2 k hk1]
        exact h8
      · rw [upd_other _ _ _ _ hjk, hb.2 j hjk]
        exact h2 j hj
    · intro j hj
      show (upd s.file_table k _ j).filename = [] ↔ (upd s.file_table k _ j).open_count = 0
      by_cases hjk : j = k
      · rw [hjk, upd_same]
        simp only [h8, hk2]
        constructor
        · intro h0
          exact absurd h0 hname
        · intro h0
          omega
      · rw [upd_other _ _ _ _ hjk]
        exact h3 j hj
  · obtain ⟨slot, fd, k, hcf, _, _, _, hf1, hf2, _, _, hk1, hk2, _, heq⟩ := hc
    have hname : name ≠ [] := ((check_file_eq_zero_iff s name).mp hcf).2.1
    rw [heq]
    have hb := bound_count_bind s _ fd k 0 hf1 hf2 (rfl : ({ s with
        file_table := upd s.file_table k ⟨name, 1, slot⟩
        descriptor_table := upd s.descriptor_table fd ⟨k, 0⟩ } : State).descriptor_table = _)
    obtain ⟨h1, h2, h3⟩ := h
    have hzero : bound_count s k = 0 := by
      rw [← h2 k hk1]
      exact (h3 k hk1).mp hk2
    refine ⟨?_, ?_, ?_⟩
    · intro i hi
      by_cases hif : i = fd
      · rw [hif]
        right
        show 0 ≤ (upd s.descriptor_table fd _ fd).open_file_index ∧
          (upd s.descriptor_table fd _ fd).open_file_index < 32
        rw [upd_same]
        show (0 : Int) ≤ (k : Int) ∧ (k : Int) < 32
        omega
      · show (upd s.descriptor_table fd _ i).open_file_index = -1 ∨
          (0 ≤ (upd s.descriptor_table fd _ i).open_file_index ∧
          (upd s.descriptor_table fd _ i).open_file_index < 32)
        rw [upd_other _ _ _ _ hif]
        exact h1 i hi
    · intro j hj
      show (upd s.file_table k _ j).open_count = _
      by_cases hjk : j = k
      · rw [hjk, upd_same, hb.1, hzero]
      · rw [upd_other _ _ _ _ hjk, hb.2 j hjk]
        exact h2 j hj
    · intro j hj
      show (upd s.file_table k _ j).filename = [] ↔ (upd s.file_table k _ j).open_count = 0
      by_cases hjk : j = k
      · rw [hjk, upd_same]
        constructor
        · intro h0
          exact absurd h0 hname
        · intro h0
          exact absurd h0 (Nat.succ_ne_zero 0)
      · rw [upd_other _ _ _ _ hjk]
        exact h3 j hj

theorem entry_of_cast (s : State) (fd : Int) (h : check_fd s fd ≠ -1) :
    entry_of s fd < 32 ∧ (s.descriptor_table fd.toNat).open_file_index = (entry_of s fd : Int) ∧
      fd.toNat < 32 ∧ ((fd.toNat : Nat) : Int) = fd := by
  obtain ⟨_, h1, h2, h3, h4, _⟩ := (check_fd_ne_iff s fd).mp h
  unfold entry_of
  omega

theorem registry_ok_open_count (s : State) (fd : Int) (h : registry_ok s)
    (hfd : check_fd s fd ≠ -1) :
    1 ≤ (s.file_table (entry_of s fd)).open_count ∧
      (s.file_table (entry_of s fd)).open_count < 256 := by
  obtain ⟨hk, hidx, hfd32, _⟩ := entry_of_cast s fd hfd
  have hle := registry_ok_count_le s h _ hk
  refine ⟨?_, by omega⟩
  rw [h.2.1 _ hk]
  unfold bound_count
  apply count_loop_ge_one _ _ _ fd.toNat (Nat.zero_le _)
  · simp only [FS_OPEN_MAX_COUNT]
    omega
  · simp [hidx]

theorem registry_ok_fs_close (s : State) (fd : Int) (h : registry_ok s) :
    registry_ok (fs_close s fd).st := by
  by_cases hfd : check_fd s fd = -1
  · rw [fs_close_of_invalid s fd hfd]
    exact h
  obtain ⟨hk, hidx, hfd32, _⟩ := entry_of_cast s fd hfd
  obtain ⟨hc1, hc2⟩ := registry_ok_open_count s fd h hfd
  have hlive : (s.file_table (entry_of s fd)).filename ≠ [] :=
    ((check_fd_ne_iff s fd).mp hfd).2.2.2.2.2
  obtain ⟨h1, h2, h3⟩ := h
  have hdesc : ∀ (t : State), t.descriptor_table = upd s.descriptor_table fd.toNat ⟨-1, 0⟩ →
      ∀ i, i < 32 → (t.descriptor_table i).open_file_index = -1 ∨
        (0 ≤ (t.descriptor_table i).open_file_index ∧
          (t.descriptor_table i).open_file_index < 32) := by
    intro t ht i hi
    rw [ht]
    by_cases hif : i = fd.toNat
    · rw [hif, upd_same]
      left
      rfl
    · rw [upd_other _ _ _ _ hif]
      exact h1 i hi
  by_cases hc : (s.file_table (entry_of s fd)).open_count = 1
  · rw [fs_close_last s fd hfd hc]
    show registry_ok { s with
      descriptor_table := upd s.descriptor_table fd.toNat ⟨-1, 0⟩
      file_table := upd s.file_table (entry_of s fd) ⟨[], 0, 128⟩ }
    have hb := bound_count_release s _ fd.toNat (entry_of s fd) 0 hfd32 hidx (rfl : ({ s with
      descriptor_table := upd s.descriptor_table fd.toNat ⟨-1, 0⟩
      file_table := upd s.file_table (entry_of s fd) ⟨[], 0, 128⟩ } : State).descriptor_table = _)
    refine ⟨hdesc _ rfl, ?_, ?_⟩
    · intro j hj
      show (upd s.file_table (entry_of s fd) _ j).open_count = _
      by_cases hjk : j = entry_of s fd
      · rw [hjk, upd_same]
        have := h2 _ hk
        have := hb.1
        show 0 = _
        omega
      · rw [upd_other _ _ _ _ hjk, hb.2 j hjk]
        exact h2 j hj
    · intro j hj
      show (upd s.file_table (entry_of s fd) _ j).filename = [] ↔
        (upd s.file_table (entry_of s fd) _ j).open_count = 0
      by_cases hjk : j = entry_of s fd
      · rw [hjk, upd_same]
        exact ⟨fun _ => rfl, fun _ => rfl⟩
      · rw [upd_other _ _ _ _ hjk]
        exact h3 j hj
  · rw [fs_close_shared s fd hfd (by omega) hc2]
    show registry_ok { s with
      descriptor_table := upd s.descriptor_table fd.toNat ⟨-1, 0⟩
      file_table := upd s.file_table (entry_of s fd)
        ⟨(s.file_table (entry_of s fd)).filename, (s.file_table (entry_of s fd)).open_count - 1,
          (s.file_table (entry_of s fd)).root_index⟩ }
    have hb := bound_count_release s _ fd.toNat (entry_of s fd) 0 hfd32 hidx (rfl : ({ s with
      descriptor_table := upd s.descriptor_table fd.toNat ⟨-1, 0⟩
      file_table := upd s.file_table (entry_of s fd)
        ⟨(s.file_table (entry_of s fd)).filename, (s.file_table (entry_of s fd)).open_count - 1,
          (s.file_table (entry_of s fd)).root_index⟩ } : State).descriptor_table = _)
    refine ⟨hdesc _ rfl, ?_, ?_⟩
    · intro j hj
      show (upd s.file_table (entry_of s fd) _ j).open_count = _
      by_cases hjk : j = entry_of s fd
      · rw [hjk, upd_same]
        have := h2 _ hk
        have := hb.1
        show (s.file_table (entry_of s fd)).open_count - 1 = _
        omega
      · rw [upd_other _ _ _ _ hjk, hb.2 j hjk]
        exact h2 j hj
    · intro j hj
      show (upd s.file_table (entry_of s fd) _ j).filename = [] ↔
        (upd s.file_table (entry_of s fd) _ j).open_count = 0
      by_cases hjk : j = entry_of s fd
      · rw [hjk, upd_same]
        show (s.file_table (entry_of s fd)).filename = [] ↔
          (s.file_table (entry_of s fd)).open_count - 1 = 0
        constructor
        · intro h0
          exact absurd h0 hlive
        · intro h0
          omega
      · rw [upd_other _ _ _ _ hjk]
        exact h3 j hj

theorem fs_open_on_full_table (s : State) (name : List Nat)
    (hfull : ∀ fd, fd < 32 → (s.descriptor_table fd).open_file_index ≠ -1) :
    fs_open s name = ⟨-1, s⟩ := by
  have hf : get_empty_fd s = -1 := (get_empty_fd_eq_neg_one_iff s).mpr hfull
  unfold fs_open
  by_cases hc : check_file s name ≠ 0
  · rw [if_pos hc]
  · rw [if_neg hc]
    by_cases hd : get_dir s name = -1
    · rw [if_pos hd]
    · rw [if_neg hd]
      simp only [hf, if_true]

theorem open_all_state (s : State) (f : List Nat)
    (hm : s.mounted = true) (hreg : registry_ok s)
    (hnone : ∀ fd, fd < 32 → (s.descriptor_table fd).open_file_index = -1)
    (hname : f ≠ [] ∧ f.length < 16) (hex : ∃ i, i < 128 ∧ (s.root i).filename = f) :
    ∀ n, n ≤ 32 →
      (open_all s f n).mounted = true ∧ (open_all s f n).root = s.root ∧
      registry_ok (open_all s f n) ∧
      (∀ j, j < n → ((open_all s f n).descriptor_table j).open_file_index ≠ -1) ∧
      (∀ j, n ≤ j → j < 32 → ((open_all s f n).descriptor_table j).open_file_index = -1) ∧
      (n = 0 → ∀ k, k < 32 → ((open_all s f n).file_table k).filename ≠ f) ∧
      (1 ≤ n → ∃ k, k < 32 ∧ ((open_all s f n).file_table k).filename = f ∧
        (∀ j, j < k → ((open_all s f n).file_table j).filename ≠ f) ∧
        ((open_all s f n).file_table k).open_count = n) ∧
      (∀ m, m < n → (fs_open (open_all s f m) f).val = (m : Int)) := by
  intro n
  induction n with
  | zero =>
    intro _
    refine ⟨hm, rfl, hreg, fun j hj => absurd hj (Nat.not_lt_zero j), fun j _ hj => hnone j hj,
      ?_, fun h => absurd h (by omega), fun m hm => absurd hm (Nat.not_lt_zero m)⟩
    intro _ k hk hkf
    have hne : (s.file_table k).filename ≠ [] := by
      show (s.file_table k).filename ≠ []
      rw [show (s.file_table k).filename = f from hkf]
      exact hname.1
    obtain ⟨fd, hfd, hidx⟩ := registry_ok_bound s hreg k hk hne
    rw [hnone fd hfd] at hidx
    omega
  | succ n ih =>
    intro hn
    obtain ⟨im, iroot, ireg, iused, ifree, inone, isome, ires⟩ := ih (by omega)
    have hex2 : ∃ i, i < 128 ∧ ((open_all s f n).root i).filename = f := by
      rw [iroot]
      exact hex
    obtain ⟨slot, fd, k, hf1, hf2, hf3, _, _, _, hval, hdfd, hdother, hk, hexist, hfresh,
      hfother, hroot, _, _, _, hmnt⟩ :=
      fs_open_effect (open_all s f n) f im ireg hname hex2 ⟨n, by omega, ifree n (le_refl n) (by omega)⟩
    have hfdn : fd = n := by
      have h1 : ¬ fd < n := fun h => iused fd h hf2
      have h2 : ¬ n < fd := fun h => hf3 n h (ifree n (le_refl n) (by omega))
      omega
    subst hfdn
    show (fs_open (open_all s f fd) f).st.mounted = true ∧ (fs_open (open_all s f fd) f).st.root = s.root ∧
      registry_ok (fs_open (open_all s f fd) f).st ∧
      (∀ j, j < fd + 1 → ((fs_open (open_all s f fd) f).st.descriptor_table j).open_file_index ≠ -1) ∧
      (∀ j, fd + 1 ≤ j → j < 32 →
        ((fs_open (open_all s f fd) f).st.descriptor_table j).open_file_index = -1) ∧
      (fd + 1 = 0 → ∀ k, k < 32 → ((fs_open (open_all s f fd) f).st.file_table k).filename ≠ f) ∧
      (1 ≤ fd + 1 → ∃ k, k < 32 ∧ ((fs_open (open_all s f fd) f).st.file_table k).filename = f ∧
        (∀ j, j < k → ((fs_open (open_all s f fd) f).st.file_table j).filename ≠ f) ∧
        ((fs_open (open_all s f fd) f).st.file_table k).open_count = fd + 1) ∧
      (∀ m, m < fd + 1 → (fs_open (open_all s f m) f).val = (m : Int))
    refine ⟨by rw [hmnt]; exact im, by rw [hroot]; exact iroot,
      registry_ok_fs_open _ _ ireg, ?_, ?_, fun h => absurd h (Nat.succ_ne_zero fd), ?_, ?_⟩
    · intro j hj
      by_cases hjf : j = fd
      · rw [hjf, hdfd]
        show ((k : Int)) ≠ -1
        omega
      · rw [hdother j hjf]
        exact iused j (by omega)
    · intro j hj1 hj2
      rw [hdother j (by omega)]
      exact ifree j (by omega) hj2
    · intro _
      by_cases h0 : fd = 0
      · have hno := inone h0
        obtain ⟨hk1, hk2, hk3⟩ := hfresh hno
        refine ⟨k, hk, by rw [hk3], ?_, by rw [hk3, h0]⟩
        intro j hj
        rw [hfother j (by omega)]
        exact hno j (by omega)
      · obtain ⟨k0, hk0, hk0f, hk0min, hk0c⟩ := isome (by omega)
        obtain ⟨hk1, hk2, hk3⟩ := hexist ⟨k0, hk0, hk0f⟩
        have hkk : k = k0 := by
          have h1 : ¬ k < k0 := fun h => hk0min k h hk1
          have h2 : ¬ k0 < k := fun h => hk2 k0 h hk0f
          omega
        subst hkk
        refine ⟨k, hk, by rw [hk3], ?_, by rw [hk3, hk0c]⟩
        intro j hj
        rw [hfother j (by omega)]
        exact hk2 j hj
    · intro m hm
      by_cases hmf : m = fd
      · rw [hmf]
        exact hval
      · exact ires m (by omega)

/-- C12: on a mounted volume whose descriptor table and open-file table agree
and where no descriptor is in use, for a valid name `f` held by some directory
slot, the `n`-th of 32 consecutive `fs_open(f)` calls returns descriptor `n - 1`
(so the calls return `0, 1, ..., 31` in that order); the 33rd call returns `-1`
and leaves the whole state as it was, with `f` held by an entry of the open-file
table whose `open_count` is 32 before and after.  In general `fs_open` returns
`-1` and changes nothing in every state whose 32 descriptor slots are all in
use. -/
theorem descriptor_capacity (s : State) (f : List Nat) :
    (s.mounted = true → registry_ok s →
      (∀ fd, fd < 32 → (s.descriptor_table fd).open_file_index = -1) →
      f ≠ [] ∧ f.length < 16 → (∃ i, i < 128 ∧ (s.root i).filename = f) →
      (∀ n, n < 32 → (fs_open (open_all s f n) f).val = (n : Int)) ∧
      fs_open (open_all s f 32) f = ⟨-1, open_all s f 32⟩ ∧
      (∃ k, k < 32 ∧ ((open_all s f 32).file_table k).filename = f ∧
        ((open_all s f 32).file_table k).open_count = 32 ∧
        ((fs_open (open_all s f 32) f).st.file_table k).open_count = 32) ∧
      (fs_open (open_all s f 32) f).st.descriptor_table = (open_all s f 32).descriptor_table ∧
      (fs_open (open_all s f 32) f).st.file_table = (open_all s f 32).file_table) ∧
    (∀ name : List Nat, (∀ fd, fd < 32 → (s.descriptor_table fd).open_file_index ≠ -1) →
      fs_open s name = ⟨-1, s⟩) := by
  constructor
  · intro hm hreg hnone hname hex
    obtain ⟨_, _, _, iused, _, _, isome, ires⟩ :=
      open_all_state s f hm hreg hnone hname hex 32 (le_refl 32)
    have hfail := fs_open_on_full_table (open_all s f 32) f iused
    obtain ⟨k, hk, hkf, _, hkc⟩ := isome (by omega)
    refine ⟨ires, hfail, ⟨k, hk, hkf, hkc, ?_⟩, ?_, ?_⟩
    · rw [hfail]
      dsimp only
      exact hkc
    · rw [hfail]
    · rw [hfail]
  · intro name hfull
    exact fs_open_on_full_table s name hfull

/-- C12 (witness): on a one-block volume holding the file `a`, 32 opens of `a`
return `0, ..., 31` and the 33rd fails. -/
theorem descriptor_capacity_witness :
    (∀ n, n < 32 → (fs_open (open_all (fs_create (mounted_blank 1) name_a).st name_a n) name_a).val
      = (n : Int)) ∧
    (fs_open (open_all (fs_create (mounted_blank 1) name_a).st name_a 32) name_a).val = -1 :=
  have h := (descriptor_capacity (fs_create (mounted_blank 1) name_a).st name_a).1 (by decide!)
    (by decide!) (by decide!) ⟨by decide, by decide⟩ ⟨0, by decide, by decide!⟩
  ⟨h.1, congrArg Ret.val h.2.1⟩

/-! ## Runs of calls and the directory names -/

theorem fs_create_cases (s : State) (name : List Nat) :
    fs_create s name = ⟨-1, s⟩ ∨ (fs_create s name).val = 0 := by
  unfold fs_create
  split
  · left; rfl
  · split
    · left; rfl
    · split
      · left; rfl
      · dsimp only
        split
        · left; rfl
        · right; rfl

theorem fs_delete_cases (fuel : Nat) (s : State) (name : List Nat) (r : Ret)
    (h : fs_delete fuel s name = some r) :
    r = ⟨-1, s⟩ ∨
    (check_file s name = 0 ∧ file_is_open s name = -1 ∧
      ∃ (slot : Nat) (F : Nat → Nat), slot < 128 ∧ (s.root slot).filename = name ∧
        r = ⟨0, { s with
          root := upd s.root slot ⟨[], (s.root slot).file_size, (s.root slot).first_index⟩
          FAT := F }⟩) := by
  unfold fs_delete at h
  by_cases hc : check_file s name ≠ 0
  · rw [if_pos hc] at h
    left
    exact (Option.some.inj h).symm
  rw [if_neg hc] at h
  by_cases hd : get_dir s name = -1
  · rw [if_pos hd] at h
    left
    exact (Option.some.inj h).symm
  rw [if_neg hd] at h
  by_cases ho : file_is_open s name ≠ -1
  · rw [if_pos ho] at h
    left
    exact (Option.some.inj h).symm
  rw [if_neg ho] at h
  right
  obtain ⟨slot, hs0, hs1, hs2, _⟩ := get_dir_spec s name hd
  refine ⟨not_not.mp hc, not_not.mp ho, slot, ?_⟩
  simp only [hs0, Int.toNat_ofNat] at h
  split at h
  · exact absurd h (by simp)
  · next F hF =>
    exact ⟨F, hs1, hs2, (Option.some.inj h).symm⟩

theorem fs_open_root (s : State) (name : List Nat) : (fs_open s name).st.root = s.root := by
  rcases fs_open_cases s name with h | h | h
  · rw [h]
  · obtain ⟨_, _, _, _, _, _, _, _, _, _, _, _, _, heq⟩ := h
    rw [heq]
  · obtain ⟨_, _, _, _, _, _, _, _, _, _, _, _, _, _, heq⟩ := h
    rw [heq]

theorem fs_close_root (s : State) (fd : Int) : (fs_close s fd).st.root = s.root := by
  unfold fs_close
  dsimp only
  split
  · rfl
  · split <;> rfl

theorem fs_lseek_cases (s : State) (fd : Int) (offset : Nat) :
    fs_lseek s fd offset = ⟨-1, s⟩ ∨
    (check_fd s fd ≠ -1 ∧ check_offset s fd offset = 0 ∧
      fs_lseek s fd offset = ⟨0, with_cursor s fd.toNat (to_uint32 offset)⟩) := by
  unfold fs_lseek
  by_cases h1 : check_fd s fd = -1
  · left
    rw [if_pos h1]
  · by_cases h2 : check_offset s fd offset ≠ 0
    · left
      rw [if_neg h1, if_pos h2]
    · right
      rw [if_neg h1, if_neg h2]
      exact ⟨h1, not_not.mp h2, rfl⟩

theorem fs_read_cases (s : State) (junk : Nat → Nat) (fd : Int) (buf : Nat → Nat) (count : Nat) :
    (fs_read s junk fd buf count).st = s ∨
    (check_fd s fd ≠ -1 ∧ cursor_of s fd < to_uint32 (fs_stat s fd) ∧
      (fs_read s junk fd buf count).st = with_cursor s fd.toNat
        (to_uint32 ((cursor_of s fd + to_size_t
          (if (cursor_of s fd + count) % 2 ^ 64 ≤ to_size_t (fs_stat s fd) then to_int count
            else to_int (to_uint32 (fs_stat s fd - cursor_of s fd))) : Nat) : Int))) := by
  unfold fs_read
  dsimp only
  by_cases h1 : check_fd s fd = -1
  · left
    rw [if_pos h1]
  · rw [if_neg h1]
    by_cases h2 : (s.descriptor_table fd.toNat).offset ≥ to_uint32 (fs_stat s fd)
    · left
      rw [if_pos h2]
    · right
      rw [if_neg h2]
      refine ⟨h1, by unfold cursor_of; omega, ?_⟩
      dsimp only
      rw [(read_blks_result s junk fd.toNat buf _).2]
      rfl

theorem fs_write_of_invalid (s : State) (fd : Int) (buf : Nat → Nat) (count : Nat)
    (h : check_fd s fd = -1) : fs_write s fd buf count = ⟨-1, s⟩ := by
  unfold fs_write
  simp only [h, if_true]

/-- One call changes the names held by the directory in one of three ways: not
at all, by putting a valid new name into an empty slot, or by emptying a slot. -/
theorem step_names (fuel : Nat) (s t : State) (c : Call) (h : step fuel s c = some t) :
    (∀ i, (t.root i).filename = (s.root i).filename) ∨
    (∃ (slot : Nat) (name : List Nat), slot < 128 ∧ (s.root slot).filename = [] ∧
      name ≠ [] ∧ name.length < 16 ∧ (∀ i, i < 128 → (s.root i).filename ≠ name) ∧
      (t.root slot).filename = name ∧ ∀ i, i ≠ slot → (t.root i).filename = (s.root i).filename) ∨
    (∃ slot : Nat, (t.root slot).filename = [] ∧
      ∀ i, i ≠ slot → (t.root i).filename = (s.root i).filename) := by
  cases c with
  | create name =>
    have ht : t = (fs_create s name).st := (Option.some.inj h).symm
    rcases fs_create_cases s name with hc | hc
    · left
      intro i
      rw [ht, hc]
    · right
      left
      obtain ⟨slot, b, _, _, hs1, hs2, _, _, _, _, hcf, hgd, hroot, _⟩ :=
        fs_create_success s name hc
      obtain ⟨_, hn1, hn2⟩ := (check_file_eq_zero_iff s name).mp hcf
      refine ⟨slot, name, hs1, hs2, hn1, hn2, (get_dir_eq_neg_one_iff s name).mp hgd, ?_, ?_⟩
      · rw [ht, hroot, upd_same]
      · intro i hi
        rw [ht, hroot, upd_other _ _ _ _ hi]
  | delete name =>
    simp only [step] at h
    cases hr : fs_delete fuel s name with
    | none =>
      rw [hr] at h
      exact absurd h (by simp)
    | some r =>
      rw [hr] at h
      have ht : t = r.st := (Option.some.inj h).symm
      rcases fs_delete_cases fuel s name r hr with hc | hc
      · left
        intro i
        rw [ht, hc]
      · right
        right
        obtain ⟨_, _, slot, F, _, _, hreq⟩ := hc
        refine ⟨slot, ?_, ?_⟩
        · rw [ht, hreq]
          show (upd s.root slot _ slot).filename = []
          rw [upd_same]
        · intro i hi
          rw [ht, hreq]
          show (upd s.root slot _ i).filename = _
          rw [upd_other _ _ _ _ hi]
  | open_ name =>
    left
    intro i
    rw [(Option.some.inj h).symm, fs_open_root]
  | close fd =>
    left
    intro i
    rw [(Option.some.inj h).symm, fs_close_root]
  | stat fd =>
    left
    intro i
    rw [(Option.some.inj h).symm]
  | lseek fd offset =>
    left
    intro i
    rw [(Option.some.inj h).symm]
    rcases fs_lseek_cases s fd offset with hc | hc
    · rw [hc]
    · rw [hc.2.2]
      rfl
  | read fd junk buf count =>
    left
    intro i
    rw [(Option.some.inj h).symm]
    rcases fs_read_cases s junk fd buf count with hc | hc
    · rw [hc]
    · rw [hc.2.2]
      rfl
  | write fd buf count =>
    left
    intro i
    rw [(Option.some.inj h).symm]
    by_cases hfd : check_fd s fd = -1
    · rw [fs_write_of_invalid s fd buf count hfd]
    · obtain ⟨w, _, _, _, _, _, hroot, hname, _⟩ := fs_write_exact s fd buf count hfd
      by_cases hi : i = slot_of s fd
      · rw [hi, hname]
      · rw [hroot i hi]

theorem step_names_ok (fuel : Nat) (s t : State) (c : Call) (h : step fuel s c = some t)
    (hd : names_distinct s) (hs : names_short s) : names_distinct t ∧ names_short t := by
  rcases step_names fuel s t c h with hn | hn | hn
  · constructor
    · intro i hi j hj hne heq
      rw [hn i] at hne
      rw [hn i, hn j] at heq
      exact hd i hi j hj hne heq
    · intro i hi
      rw [hn i]
      exact hs i hi
  · obtain ⟨slot, name, hslot, hempty, hne0, hlen, hnew, hat, hother⟩ := hn
    constructor
    · intro i hi j hj hne heq
      by_cases his : i = slot
      · by_cases hjs : j = slot
        · rw [his, hjs]
        · rw [his, hat, hother j hjs] at heq
          exact absurd heq.symm (hnew j hj)
      · by_cases hjs : j = slot
        · rw [hjs, hat, hother i his] at heq
          exact absurd heq (hnew i hi)
        · rw [hother i his] at hne
          rw [hother i his, hother j hjs] at heq
          exact hd i hi j hj hne heq
    · intro i hi
      by_cases his : i = slot
      · rw [his, hat]
        exact hlen
      · rw [hother i his]
        exact hs i hi
  · obtain ⟨slot, hat, hother⟩ := hn
    constructor
    · intro i hi j hj hne heq
      by_cases his : i = slot
      · rw [his] at hne
        exact absurd hat hne
      · by_cases hjs : j = slot
        · rw [hjs, hat] at heq
          exact absurd heq hne
        · rw [hother i his] at hne
          rw [hother i his, hother j hjs] at heq
          exact hd i hi j hj hne heq
    · intro i hi
      by_cases his : i = slot
      · rw [his, hat]
        exact Nat.zero_lt_succ 15
      · rw [hother i his]
        exact hs i hi

/-- C19 (as amended): if the non-empty directory slots hold pairwise distinct
names and every name is shorter than 16 bytes, then after any sequence of
`fs_create`, `fs_delete`, `fs_open`, `fs_close`, `fs_stat`, `fs_lseek`, `fs_read` and
`fs_write` calls (each of which returns) the non-empty slots still hold pairwise
distinct names and every name is still shorter than 16 bytes; so for a
non-empty name at most one slot holds it. -/
theorem filename_uniqueness (fuel : Nat) (calls : List Call) :
    ∀ (s t : State), names_distinct s → names_short s → run fuel s calls = some t →
      names_distinct t ∧ names_short t ∧
      (∀ name : List Nat, name ≠ [] → ∀ i j, i < 128 → j < 128 →
        (t.root i).filename = name → (t.root j).filename = name → i = j) := by
  induction calls with
  | nil =>
    intro s t hd hs h
    have ht : t = s := (Option.some.inj h).symm
    rw [ht]
    refine ⟨hd, hs, ?_⟩
    intro name hne i j hi hj h1 h2
    exact hd i hi j hj (by rw [h1]; exact hne) (by rw [h1, h2])
  | cons c cs ih =>
    intro s t hd hs h
    simp only [run] at h
    cases hstep : step fuel s c with
    | none =>
      rw [hstep] at h
      exact absurd h (by simp)
    | some u =>
      rw [hstep] at h
      obtain ⟨hd2, hs2⟩ := step_names_ok fuel s u c hstep hd hs
      exact ih u t hd2 hs2 h

/-- C19 (witness): on a blank volume, create `a`, create `b`, delete `a` ends
in a state whose names are pairwise distinct and short. -/
theorem filename_uniqueness_witness :
    names_distinct (mounted_blank 8) ∧ names_short (mounted_blank 8) ∧
    ∃ t, run 8 (mounted_blank 8) [.create name_a, .create name_b, .delete name_a] = some t ∧
      names_distinct t ∧ names_short t := by
  obtain ⟨t, ht⟩ := Option.isSome_iff_exists.mp
    (by decide! : (run 8 (mounted_blank 8)
      [.create name_a, .create name_b, .delete name_a]).isSome = true)
  have h := filename_uniqueness 8 _ (mounted_blank 8) t (by decide!) (by decide!) ht
  exact ⟨by decide!, by decide!, t, ht, h.1, h.2.1⟩

/-- C19 (counterexample): the device `long_name_disk` mounts; the one non-empty
directory slot of the mounted volume holds a name of 16 bytes, so the names are
pairwise distinct but not all shorter than 16 bytes, and this is still so after
`fs_create("b")` has returned `0`. -/
theorem long_name_survives :
    (fs_mount unmounted (some long_name_disk) zero_mem).val = 0 ∧
    long_name_mounted.mounted = true ∧
    decide (names_distinct long_name_mounted) = true ∧
    (long_name_mounted.root 0).filename.length = 16 ∧
    (fs_create long_name_mounted name_b).val = 0 ∧
    decide (names_distinct (fs_create long_name_mounted name_b).st) = true ∧
    ((fs_create long_name_mounted name_b).st.root 0).filename.length = 16 ∧
    decide (names_short (fs_create long_name_mounted name_b).st) = false := by
  refine ⟨by decide!, by decide!, by decide!, by decide!, by decide!, by decide!, by decide!,
    by decide!⟩

/-! ## The cursor invariant -/

theorem read_cursor_le (cursor count size : Nat) (hs : size < 2 ^ 31) (hc : cursor < size) :
    to_uint32 ((cursor + to_size_t
      (if (cursor + count) % 2 ^ 64 ≤ size then to_int count
        else to_int (to_uint32 ((size : Int) - cursor))) : Nat) : Int) ≤ size := by
  unfold to_uint32 to_size_t to_int
  split
  · split <;> omega
  · split <;> omega

theorem initialize_loop_tables (n : Nat) :
    ∀ (i : Nat) (s : State),
      (∀ j, i ≤ j → j < i + n → (initialize_loop n i s).descriptor_table j = ⟨-1, 0⟩ ∧
        (initialize_loop n i s).file_table j = ⟨[], 0, 128⟩) ∧
      (∀ j, j < i → (initialize_loop n i s).descriptor_table j = s.descriptor_table j ∧
        (initialize_loop n i s).file_table j = s.file_table j) ∧
      (initialize_loop n i s).root = s.root := by
  induction n with
  | zero =>
    intro i s
    refine ⟨?_, fun j _ => ⟨rfl, rfl⟩, rfl⟩
    intro j h1 h2
    omega
  | succ n ih =>
    intro i s
    simp only [initialize_loop]
    obtain ⟨h1, h2, h3⟩ := ih (i + 1)
      (reset_file (reset_descriptor s i 0 (-1)) i [] 0 FS_FILE_MAX_COUNT)
    refine ⟨?_, ?_, ?_⟩
    · intro j hj1 hj2
      by_cases hji : j = i
      · have := h2 j (by omega)
        rw [this.1, this.2, hji]
        simp only [reset_file, reset_descriptor, upd_same, FS_FILE_MAX_COUNT]
        exact ⟨trivial, trivial⟩
      · exact h1 j (by omega) (by omega)
    · intro j hj
      have := h2 j (by omega)
      rw [this.1, this.2]
      simp only [reset_file, reset_descriptor]
      rw [upd_other _ _ _ _ (by omega), upd_other _ _ _ _ (by omega)]
      exact ⟨rfl, rfl⟩
    · rw [h3]
      rfl

theorem fs_mount_tables (s : State) (d : Disk) (heap : Nat → Nat)
    (h : (fs_mount s (some d) heap).val = 0) :
    (fs_mount s (some d) heap).st.mounted = true ∧
    (∀ j, j < 32 → (fs_mount s (some d) heap).st.descriptor_table j = ⟨-1, 0⟩ ∧
      (fs_mount s (some d) heap).st.file_table j = ⟨[], 0, 128⟩) := by
  unfold fs_mount at h ⊢
  cases hb0 : block_read d 0 with
  | none =>
    simp [hb0] at h
  | some b0 =>
    simp only [hb0] at h ⊢
    by_cases he : error_check { s with disk := d, super_block := superblock_of_block b0 } ≠ 0
    · rw [if_pos he] at h
      simp at h
    · rw [if_neg he] at h ⊢
      by_cases hr : (mount_FAT_loop d (superblock_of_block b0).FAT_amount 1 heap).1 ≠ 0
      · rw [if_pos hr] at h
        simp at h
      · rw [if_neg hr] at h ⊢
        cases hbr : block_read d (superblock_of_block b0).root_index with
        | none =>
          simp [hbr] at h
        | some br =>
          simp only [hbr]
          refine ⟨trivial, ?_⟩
          intro j hj
          exact (initialize_loop_tables 32 0 _).1 j (Nat.zero_le j) (by omega)

theorem volume_ok_fs_mount (s : State) (d : Disk) (heap : Nat → Nat)
    (h : (fs_mount s (some d) heap).val = 0) (hsizes : sizes_ok (fs_mount s (some d) heap).st) :
    volume_ok (fs_mount s (some d) heap).st := by
  obtain ⟨hm, htab⟩ := fs_mount_tables s d heap h
  have hidx : ∀ fd, fd < 32 →
      ((fs_mount s (some d) heap).st.descriptor_table fd).open_file_index = -1 := by
    intro fd hfd
    rw [(htab fd hfd).1]
  refine ⟨hm, ⟨?_, ?_, ?_⟩, ?_, hsizes, ?_⟩
  · intro fd hfd
    left
    exact hidx fd hfd
  · intro k hk
    rw [(htab k hk).2]
    symm
    unfold bound_count
    rw [count_loop_eq_zero_iff]
    intro j _ hj
    simp only [FS_OPEN_MAX_COUNT, Nat.zero_add] at hj
    rw [hidx j hj]
    simp
  · intro k hk
    rw [(htab k hk).2]
    exact ⟨fun _ => rfl, fun _ => rfl⟩
  · intro k hk hne
    rw [(htab k hk).2] at hne
    exact absurd rfl hne
  · intro fd k hfd _ hbound
    rw [hidx fd hfd] at hbound
    omega

theorem volume_ok_with_cursor (s : State) (n k c : Nat) (hok : volume_ok s)
    (hidx : (s.descriptor_table n).open_file_index = (k : Int))
    (hc : (s.file_table k).filename ≠ [] → c ≤ (s.root (s.file_table k).root_index).file_size) :
    volume_ok (with_cursor s n c) := by
  obtain ⟨hm, hreg, hlinks, hsizes, hcur⟩ := hok
  have hdesc : ∀ fd, ((with_cursor s n c).descriptor_table fd).open_file_index
      = (s.descriptor_table fd).open_file_index := by
    intro fd
    show (upd s.descriptor_table n _ fd).open_file_index = _
    by_cases hfd : fd = n
    · rw [hfd, upd_same]
    · rw [upd_other _ _ _ _ hfd]
  refine ⟨hm, registry_ok_congr s _ hreg (fun fd _ => hdesc fd) rfl, hlinks, hsizes, ?_⟩
  intro fd k2 hfd hk2 hbound hlive
  rw [hdesc fd] at hbound
  show (upd s.descriptor_table n _ fd).offset ≤ (s.root (s.file_table k2).root_index).file_size
  by_cases hfn : fd = n
  · rw [hfn, upd_same]
    rw [hfn, hidx] at hbound
    have hkk : k2 = k := by omega
    rw [hkk] at hlive ⊢
    exact hc hlive
  · rw [upd_other _ _ _ _ hfn]
    exact hcur fd k2 hfd hk2 hbound hlive

theorem volume_ok_size (s : State) (fd : Int) (hok : volume_ok s) (hfd : check_fd s fd ≠ -1) :
    size_of s fd < 2 ^ 31 ∧ cursor_of s fd ≤ size_of s fd ∧
      slot_of s fd < 128 ∧ (s.file_table (entry_of s fd)).filename ≠ [] := by
  obtain ⟨_, _, hlinks, hsizes, hcur⟩ := hok
  obtain ⟨hk, hidx, hfd32, _⟩ := entry_of_cast s fd hfd
  have hlive : (s.file_table (entry_of s fd)).filename ≠ [] :=
    ((check_fd_ne_iff s fd).mp hfd).2.2.2.2.2
  have hslot := (hlinks _ hk hlive).1
  exact ⟨hsizes _ hslot, hcur fd.toNat (entry_of s fd) hfd32 hk hidx hlive, hslot, hlive⟩

theorem volume_ok_fs_lseek (s : State) (fd : Int) (offset : Nat) (hok : volume_ok s) :
    volume_ok (fs_lseek s fd offset).st := by
  rcases fs_lseek_cases s fd offset with h | h
  · rw [h]
    exact hok
  · obtain ⟨hfd, hoff, heq⟩ := h
    rw [heq]
    obtain ⟨hk, hidx, hfd32, _⟩ := entry_of_cast s fd hfd
    obtain ⟨hsize, _, _, _⟩ := volume_ok_size s fd hok hfd
    apply volume_ok_with_cursor s fd.toNat (entry_of s fd) _ hok hidx
    intro _
    show to_uint32 (offset : Int) ≤ size_of s fd
    unfold check_offset at hoff
    rw [fs_stat_of_valid s fd hfd, to_int_of_lt hsize] at hoff
    by_cases h1 : ((size_of s fd : Nat) : Int) < 0
    · omega
    · rw [if_neg h1, to_size_t_of_nat _ (by omega)] at hoff
      by_cases h2 : offset > size_of s fd
      · rw [if_pos h2] at hoff
        exact absurd hoff (by decide)
      · rw [to_uint32_of_nat _ (by omega)]
        omega

theorem volume_ok_fs_read (s : State) (junk : Nat → Nat) (fd : Int) (buf : Nat → Nat)
    (count : Nat) (hok : volume_ok s) : volume_ok (fs_read s junk fd buf count).st := by
  rcases fs_read_cases s junk fd buf count with h | h
  · rw [h]
    exact hok
  · obtain ⟨hfd, hlt, heq⟩ := h
    rw [heq]
    obtain ⟨hk, hidx, hfd32, _⟩ := entry_of_cast s fd hfd
    obtain ⟨hsize, _, _, _⟩ := volume_ok_size s fd hok hfd
    have hst : fs_stat s fd = (size_of s fd : Int) := by
      rw [fs_stat_of_valid s fd hfd, to_int_of_lt hsize]
    rw [hst] at hlt ⊢
    rw [to_uint32_of_nat _ (by omega)] at hlt
    rw [to_size_t_of_nat _ (by omega)]
    apply volume_ok_with_cursor s fd.toNat (entry_of s fd) _ hok hidx
    intro _
    exact read_cursor_le (cursor_of s fd) count (size_of s fd) hsize hlt

theorem volume_ok_root_change (s t : State) (hok : volume_ok s) (hm : t.mounted = s.mounted)
    (hdt : t.descriptor_table = s.descriptor_table) (hft : t.file_table = s.file_table)
    (hkeep : ∀ k, k < 32 → (s.file_table k).filename ≠ [] →
      t.root (s.file_table k).root_index = s.root (s.file_table k).root_index)
    (hsizes : sizes_ok t) : volume_ok t := by
  obtain ⟨hm0, hreg, hlinks, _, hcur⟩ := hok
  refine ⟨by rw [hm]; exact hm0, registry_ok_congr s t hreg (fun fd _ => by rw [hdt]) hft, ?_,
    hsizes, ?_⟩
  · intro k hk hlive
    rw [hft] at hlive ⊢
    rw [hkeep k hk hlive]
    exact hlinks k hk hlive
  · intro fd k hfd hk hbound hlive
    rw [hdt] at hbound ⊢
    rw [hft] at hlive ⊢
    rw [hkeep k hk hlive]
    exact hcur fd k hfd hk hbound hlive

theorem volume_ok_fs_create (s : State) (name : List Nat) (hok : volume_ok s) :
    volume_ok (fs_create s name).st := by
  rcases fs_create_cases s name with h | h
  · rw [h]
    exact hok
  · obtain ⟨slot, b, _, _, _, hs2, _, _, _, _, _, _, hroot, _, hdt, hft, hm, _, _⟩ :=
      fs_create_success s name h
    apply volume_ok_root_change s _ hok hm hdt hft
    · intro k hk hlive
      have hl := hok.2.2.1 k hk hlive
      have hne : (s.file_table k).root_index ≠ slot := by
        intro heq
        rw [heq, hs2] at hl
        exact hlive hl.2.symm
      rw [hroot, upd_other _ _ _ _ hne]
    · intro i hi
      rw [hroot]
      by_cases his : i = slot
      · rw [his, upd_same]
        exact Nat.two_pow_pos 31
      · rw [upd_other _ _ _ _ his]
        exact hok.2.2.2.1 i hi

theorem volume_ok_fs_delete (fuel : Nat) (s : State) (name : List Nat) (r : Ret)
    (h : fs_delete fuel s name = some r) (hok : volume_ok s) : volume_ok r.st := by
  rcases fs_delete_cases fuel s name r h with hc | hc
  · rw [hc]
    exact hok
  · obtain ⟨_, hopen, slot, F, _, hsn, hreq⟩ := hc
    have hnone := (file_is_open_eq_neg_one_iff s name).mp hopen
    rw [hreq]
    refine volume_ok_root_change s { s with
      root := upd s.root slot ⟨[], (s.root slot).file_size, (s.root slot).first_index⟩
      FAT := F } hok rfl rfl rfl ?_ ?_
    · intro k hk hlive
      have hl := hok.2.2.1 k hk hlive
      have hne : (s.file_table k).root_index ≠ slot := by
        intro heq
        rw [heq, hsn] at hl
        exact hnone k hk hl.2.symm
      show upd s.root slot _ _ = _
      rw [upd_other _ _ _ _ hne]
    · intro i hi
      show (upd s.root slot _ i).file_size < 2 ^ 31
      by_cases his : i = slot
      · rw [his, upd_same]
        exact hok.2.2.2.1 slot (by omega)
      · rw [upd_other _ _ _ _ his]
        exact hok.2.2.2.1 i hi

theorem volume_ok_fs_write (s : State) (fd : Int) (buf : Nat → Nat) (count : Nat)
    (hok : volume_ok s) (hr : check_fd s fd ≠ -1 → cursor_of s fd + count < 2 ^ 31) :
    volume_ok (fs_write s fd buf count).st := by
  by_cases hfd : check_fd s fd = -1
  · rw [fs_write_of_invalid s fd buf count hfd]
    exact hok
  · have hrange := hr hfd
    obtain ⟨w, hle, _, _, hroot, hdesc, hft, hm, _⟩ := fs_write_effect s fd buf count hfd
    obtain ⟨hsize, hcurfd, hslot, hlive⟩ := volume_ok_size s fd hok hfd
    obtain ⟨hk, hidx, hfd32, _⟩ := entry_of_cast s fd hfd
    have h64 : to_size_t (to_int (size_of s fd)) = size_of s fd := by
      rw [to_int_of_lt hsize]
      exact to_size_t_of_nat _ (by omega)
    have hmod : (cursor_of s fd + w) % 2 ^ 64 = cursor_of s fd + w := Nat.mod_eq_of_lt (by omega)
    have h32 : to_uint32 ((cursor_of s fd + w : Nat) : Int) = cursor_of s fd + w :=
      to_uint32_of_nat _ (by omega)
    rw [h64, hmod, h32] at hroot
    rw [h32] at hdesc
    have hnames : ∀ i, ((fs_write s fd buf count).st.root i).filename = (s.root i).filename := by
      intro i
      rw [hroot]
      split
      · by_cases hi : i = slot_of s fd
        · rw [hi, upd_same]
        · rw [upd_other _ _ _ _ hi]
      · rfl
    have hmono : ∀ i, (s.root i).file_size ≤ ((fs_write s fd buf count).st.root i).file_size := by
      intro i
      rw [hroot]
      split
      · next hgt =>
        by_cases hi : i = slot_of s fd
        · rw [hi, upd_same]
          show size_of s fd ≤ cursor_of s fd + w
          omega
        · rw [upd_other _ _ _ _ hi]
      · exact le_refl _
    have hbound : ∀ i, i < 128 → ((fs_write s fd buf count).st.root i).file_size < 2 ^ 31 := by
      intro i hi
      rw [hroot]
      split
      · by_cases his : i = slot_of s fd
        · rw [his, upd_same]
          show cursor_of s fd + w < 2 ^ 31
          omega
        · rw [upd_other _ _ _ _ his]
          exact hok.2.2.2.1 i hi
      · exact hok.2.2.2.1 i hi
    have hfdsize : cursor_of s fd + w
        ≤ ((fs_write s fd buf count).st.root (slot_of s fd)).file_size := by
      rw [hroot]
      split
      · rw [upd_same]
      · next hgt =>
        show cursor_of s fd + w ≤ size_of s fd
        omega
    have hdidx : ∀ i, ((fs_write s fd buf count).st.descriptor_table i).open_file_index
        = (s.descriptor_table i).open_file_index := by
      intro i
      rw [hdesc]
      by_cases hi : i = fd.toNat
      · rw [hi, upd_same]
      · rw [upd_other _ _ _ _ hi]
    obtain ⟨hm0, hreg, hlinks, _, hcur⟩ := hok
    refine ⟨by rw [hm]; exact hm0, registry_ok_congr s _ hreg (fun i _ => hdidx i) hft, ?_,
      hbound, ?_⟩
    · intro k hk2 hlive2
      rw [hft] at hlive2 ⊢
      rw [hnames]
      exact hlinks k hk2 hlive2
    · intro i k hi hk2 hb hlive2
      rw [hdidx i] at hb
      rw [hft] at hlive2 ⊢
      by_cases hif : i = fd.toNat
      · rw [hif, hidx] at hb
        have hkk : k = entry_of s fd := by omega
        rw [hif, hdesc, upd_same, hkk]
        exact hfdsize
      · rw [hdesc, upd_other _ _ _ _ hif]
        exact le_trans (hcur i k hi hk2 hb hlive2) (hmono _)

theorem volume_ok_fs_open (s : State) (name : List Nat) (hok : volume_ok s) :
    volume_ok (fs_open s name).st := by
  have hreg2 := registry_ok_fs_open s name hok.2.1
  rcases fs_open_cases s name with h | h | h
  · rw [h]
    exact hok
  · obtain ⟨slot, fd, k, hcf, _, _, _, hf1, hf2, _, hk1, hk2, _, heq⟩ := h
    have hname : name ≠ [] := ((check_file_eq_zero_iff s name).mp hcf).2.1
    have hklive : (s.file_table k).filename ≠ [] := by
      rw [hk2]
      exact hname
    rw [heq] at hreg2 ⊢
    obtain ⟨hm, hreg, hlinks, hsizes, hcur⟩ := hok
    refine ⟨hm, hreg2, ?_, hsizes, ?_⟩
    · intro j hj hlive
      have hlive2 : (upd s.file_table k _ j).filename ≠ [] := hlive
      show (upd s.file_table k _ j).root_index < 128 ∧
        (s.root (upd s.file_table k _ j).root_index).filename = (upd s.file_table k _ j).filename
      by_cases hjk : j = k
      · rw [hjk, upd_same]
        exact hlinks k hk1 hklive
      · rw [upd_other _ _ _ _ hjk] at hlive2 ⊢
        exact hlinks j hj hlive2
    · intro i k2 hi hk2i hb hlive
      have hb2 : (upd s.descriptor_table fd _ i).open_file_index = (k2 : Int) := hb
      have hlive2 : (upd s.file_table k _ k2).filename ≠ [] := hlive
      show (upd s.descriptor_table fd _ i).offset
        ≤ (s.root (upd s.file_table k _ k2).root_index).file_size
      by_cases hif : i = fd
      · rw [hif, upd_same]
        exact Nat.zero_le _
      · rw [upd_other _ _ _ _ hif] at hb2 ⊢
        by_cases hkk : k2 = k
        · rw [hkk, upd_same]
          rw [hkk] at hb2
          exact hcur i k hi hk1 hb2 hklive
        · rw [upd_other _ _ _ _ hkk] at hlive2 ⊢
          exact hcur i k2 hi hk2i hb2 hlive2
  · obtain ⟨slot, fd, k, hcf, hs1, hs2, _, hf1, hf2, _, _, hk1, hk2, _, heq⟩ := h
    have hname : name ≠ [] := ((check_file_eq_zero_iff s name).mp hcf).2.1
    rw [heq] at hreg2 ⊢
    obtain ⟨hm, hreg, hlinks, hsizes, hcur⟩ := hok
    have hunbound : ∀ i, i < 32 → (s.descriptor_table i).open_file_index ≠ (k : Int) := by
      intro i hi hb
      have hz : bound_count s k = 0 := by
        rw [← hreg.2.1 k hk1]
        exact (hreg.2.2 k hk1).mp hk2
      have hge : 1 ≤ bound_count s k := by
        unfold bound_count
        apply count_loop_ge_one _ _ _ i (Nat.zero_le _)
        · simp only [FS_OPEN_MAX_COUNT]
          omega
        · simp [hb]
      omega
    refine ⟨hm, hreg2, ?_, hsizes, ?_⟩
    · intro j hj hlive
      have hlive2 : (upd s.file_table k _ j).filename ≠ [] := hlive
      show (upd s.file_table k _ j).root_index < 128 ∧
        (s.root (upd s.file_table k _ j).root_index).filename = (upd s.file_table k _ j).filename
      by_cases hjk : j = k
      · rw [hjk, upd_same]
        exact ⟨hs1, hs2⟩
      · rw [upd_other _ _ _ _ hjk] at hlive2 ⊢
        exact hlinks j hj hlive2
    · intro i k2 hi hk2i hb hlive
      have hb2 : (upd s.descriptor_table fd _ i).open_file_index = (k2 : Int) := hb
      have hlive2 : (upd s.file_table k _ k2).filename ≠ [] := hlive
      show (upd s.descriptor_table fd _ i).offset
        ≤ (s.root (upd s.file_table k _ k2).root_index).file_size
      by_cases hif : i = fd
      · rw [hif, upd_same]
        exact Nat.zero_le _
      · rw [upd_other _ _ _ _ hif] at hb2 ⊢
        by_cases hkk : k2 = k
        · rw [hkk] at hb2
          exact absurd hb2 (hunbound i hi)
        · rw [upd_other _ _ _ _ hkk] at hlive2 ⊢
          exact hcur i k2 hi hk2i hb2 hlive2

theorem volume_ok_fs_close (s : State) (fd : Int) (hok : volume_ok s) :
    volume_ok (fs_close s fd).st := by
  have hreg2 := registry_ok_fs_close s fd hok.2.1
  by_cases hfd : check_fd s fd = -1
  · rw [fs_close_of_invalid s fd hfd]
    exact hok
  obtain ⟨hc1, hc2⟩ := registry_ok_open_count s fd hok.2.1 hfd
  obtain ⟨hm, hreg, hlinks, hsizes, hcur⟩ := hok
  by_cases hc : (s.file_table (entry_of s fd)).open_count = 1
  · rw [fs_close_last s fd hfd hc] at hreg2 ⊢
    refine ⟨hm, hreg2, ?_, hsizes, ?_⟩
    · intro j hj hlive
      have hlive2 : (upd s.file_table (entry_of s fd) _ j).filename ≠ [] := hlive
      show (upd s.file_table (entry_of s fd) _ j).root_index < 128 ∧
        (s.root (upd s.file_table (entry_of s fd) _ j).root_index).filename
          = (upd s.file_table (entry_of s fd) _ j).filename
      by_cases hjk : j = entry_of s fd
      · rw [hjk, upd_same] at hlive2
        exact absurd rfl hlive2
      · rw [upd_other _ _ _ _ hjk] at hlive2 ⊢
        exact hlinks j hj hlive2
    · intro i k2 hi hk2i hb hlive
      have hb2 : (upd s.descriptor_table fd.toNat _ i).open_file_index = (k2 : Int) := hb
      have hlive2 : (upd s.file_table (entry_of s fd) _ k2).filename ≠ [] := hlive
      show (upd s.descriptor_table fd.toNat _ i).offset
        ≤ (s.root (upd s.file_table (entry_of s fd) _ k2).root_index).file_size
      by_cases hif : i = fd.toNat
      · rw [hif, upd_same] at hb2
        have : (-1 : Int) = (k2 : Int) := hb2
        omega
      · rw [upd_other _ _ _ _ hif] at hb2 ⊢
        by_cases hkk : k2 = entry_of s fd
        · rw [hkk, upd_same] at hlive2
          exact absurd rfl hlive2
        · rw [upd_other _ _ _ _ hkk] at hlive2 ⊢
          exact hcur i k2 hi hk2i hb2 hlive2
  · rw [fs_close_shared s fd hfd (by omega) hc2] at hreg2 ⊢
    refine ⟨hm, hreg2, ?_, hsizes, ?_⟩
    · intro j hj hlive
      have hlive2 : (upd s.file_table (entry_of s fd) _ j).filename ≠ [] := hlive
      show (upd s.file_table (entry_of s fd) _ j).root_index < 128 ∧
        (s.root (upd s.file_table (entry_of s fd) _ j).root_index).filename
          = (upd s.file_table (entry_of s fd) _ j).filename
      by_cases hjk : j = entry_of s fd
      · rw [hjk, upd_same] at hlive2 ⊢
        exact hlinks _ (by omega) hlive2
      · rw [upd_other _ _ _ _ hjk] at hlive2 ⊢
        exact hlinks j hj hlive2
    · intro i k2 hi hk2i hb hlive
      have hb2 : (upd s.descriptor_table fd.toNat _ i).open_file_index = (k2 : Int) := hb
      have hlive2 : (upd s.file_table (entry_of s fd) _ k2).filename ≠ [] := hlive
      show (upd s.descriptor_table fd.toNat _ i).offset
        ≤ (s.root (upd s.file_table (entry_of s fd) _ k2).root_index).file_size
      by_cases hif : i = fd.toNat
      · rw [hif, upd_same] at hb2
        have : (-1 : Int) = (k2 : Int) := hb2
        omega
      · rw [upd_other _ _ _ _ hif] at hb2 ⊢
        by_cases hkk : k2 = entry_of s fd
        · rw [hkk, upd_same] at hlive2 ⊢
          rw [hkk] at hb2
          exact hcur i _ hi (by omega) hb2 hlive2
        · rw [upd_other _ _ _ _ hkk] at hlive2 ⊢
          exact hcur i k2 hi hk2i hb2 hlive2

theorem volume_ok_step (fuel : Nat) (s t : State) (c : Call) (h : step fuel s c = some t)
    (hok : volume_ok s) (hr : write_in_range s c = true) : volume_ok t := by
  cases c with
  | create name =>
    rw [(Option.some.inj h).symm]
    exact volume_ok_fs_create s name hok
  | delete name =>
    simp only [step] at h
    cases hd : fs_delete fuel s name with
    | none =>
      rw [hd] at h
      exact absurd h (by simp)
    | some r =>
      rw [hd] at h
      rw [(Option.some.inj h).symm]
      exact volume_ok_fs_delete fuel s name r hd hok
  | open_ name =>
    rw [(Option.some.inj h).symm]
    exact volume_ok_fs_open s name hok
  | close fd =>
    rw [(Option.some.inj h).symm]
    exact volume_ok_fs_close s fd hok
  | stat fd =>
    rw [(Option.some.inj h).symm]
    exact hok
  | lseek fd offset =>
    rw [(Option.some.inj h).symm]
    exact volume_ok_fs_lseek s fd offset hok
  | read fd junk buf count =>
    rw [(Option.some.inj h).symm]
    exact volume_ok_fs_read s junk fd buf count hok
  | write fd buf count =>
    rw [(Option.some.inj h).symm]
    apply volume_ok_fs_write s fd buf count hok
    exact of_decide_eq_true hr

theorem volume_ok_run (fuel : Nat) (calls : List Call) :
    ∀ (s t : State), volume_ok s → writes_in_range fuel s calls = true →
      run fuel s calls = some t → volume_ok t := by
  induction calls with
  | nil =>
    intro s t hok _ h
    rw [(Option.some.inj h).symm]
    exact hok
  | cons c cs ih =>
    intro s t hok hr h
    simp only [run] at h
    simp only [writes_in_range, Bool.and_eq_true] at hr
    cases hstep : step fuel s c with
    | none =>
      rw [hstep] at h
      exact absurd h (by simp)
    | some u =>
      rw [hstep] at h hr
      exact ih u t (volume_ok_step fuel s u c hstep hok hr.1) hr.2 h

/-- C18 (as amended): take a successful mount of a device whose directory
records sizes below `2 ^ 31` in all 128 slots, followed by any sequence of
`fs_create`, `fs_delete`, `fs_open`, `fs_close`, `fs_stat`, `fs_lseek`, `fs_read` and
`fs_write` calls (each of which returns) in which every `fs_write` through a
valid descriptor has cursor plus count below `2 ^ 31`.  In the state reached,
every in-use descriptor `fd` has `0 <= offset <= file_size` of the file it
refers to, whichever descriptor wrote to or extended that file. -/
theorem cursor_invariant (s0 : State) (d : Disk) (heap : Nat → Nat) (fuel : Nat)
    (calls : List Call) (t : State)
    (hmount : (fs_mount s0 (some d) heap).val = 0)
    (hsizes : sizes_ok (fs_mount s0 (some d) heap).st)
    (hrange : writes_in_range fuel (fs_mount s0 (some d) heap).st calls = true)
    (hrun : run fuel (fs_mount s0 (some d) heap).st calls = some t) :
    ∀ fd : Int, check_fd t fd ≠ -1 → 0 ≤ cursor_of t fd ∧ cursor_of t fd ≤ size_of t fd := by
  intro fd hfd
  have hok := volume_ok_run fuel calls _ t (volume_ok_fs_mount s0 d heap hmount hsizes) hrange hrun
  exact ⟨Nat.zero_le _, (volume_ok_size t fd hok hfd).2.1⟩

/-- C18 (witness): `sample_calls` on a freshly mounted blank volume of 8 data
blocks ends in a state where descriptor 1 is in use with cursor 8 on a file of
size 10. -/
theorem cursor_invariant_witness :
    ∃ t, run 8 (fs_mount unmounted (some (blank_disk 8)) zero_mem).st sample_calls = some t ∧
      check_fd t 1 = 0 ∧ cursor_of t 1 = 8 ∧ size_of t 1 = 10 ∧
      ∀ fd : Int, check_fd t fd ≠ -1 → 0 ≤ cursor_of t fd ∧ cursor_of t fd ≤ size_of t fd := by
  obtain ⟨t, ht⟩ := Option.isSome_iff_exists.mp
    (by decide! : (run 8 (fs_mount unmounted (some (blank_disk 8)) zero_mem).st
      sample_calls).isSome = true)
  have hfacts : (run 8 (fs_mount unmounted (some (blank_disk 8)) zero_mem).st sample_calls).map
      (fun u => (check_fd u 1, cursor_of u 1, size_of u 1)) = some (0, 8, 10) := by decide!
  rw [ht] at hfacts
  have hf := Option.some.inj hfacts
  refine ⟨t, ht, congrArg Prod.fst hf, congrArg (fun p => p.2.1) hf,
    congrArg (fun p => p.2.2) hf, ?_⟩
  exact cursor_invariant unmounted (blank_disk 8) zero_mem 8 sample_calls t (by decide!)
    (by decide!) (by decide!) ht

/-- C18 (counterexample): the device `looped_disk` mounts; its directory
records the size `2 ^ 31` for file `a`.  After `fs_open("a")`, a read of
`2 ^ 31 - 1` bytes and a read of 2 bytes through descriptor 0, the descriptor is
in use and its cursor is `2 ^ 31 + 1`, beyond the file size `2 ^ 31`: `fs_read`
compares with the size read through `fs_stat`, a negative `int`. -/
theorem cursor_passes_huge_size :
    (fs_mount unmounted (some looped_disk) zero_mem).val = 0 ∧
    run 0 looped_mounted
      [.open_ name_a, .read 0 zero_mem zero_mem (2 ^ 31 - 1), .read 0 zero_mem zero_mem 2]
      = some looped_far ∧
    check_fd looped_far 0 = 0 ∧ cursor_of looped_far 0 = 2 ^ 31 + 1 ∧
    size_of looped_far 0 = 2 ^ 31 ∧ decide (sizes_ok looped_mounted) = false := by
  refine ⟨by decide!, rfl, by decide!, by decide!, by decide!, by decide!⟩

/-! ## Bytes outside the written range -/

/-- C17 (the code at the failing input): on a blank volume of 30721 data blocks,
after create `a`, create `b`, delete `a`, open `b` and a write of 8192 bytes of
value 1, descriptor 0 is valid with cursor 8192 on a file of size 8192 whose
chain is `1, 0`, ended by the end-of-chain mark.  The byte at position 4096 is 1.
`fs_write` of 4096 bytes at cursor 8192 returns 4096.  Position 4096 lies below
the old size and below the cursor of the write, yet the byte read there
afterwards is no longer the byte stored: the seek and the one-byte read succeed
and hand back the content of the scratch buffer (0 or 2 below), because
`allocate_new_block` took block 1, whose entry `0` is the index of its successor,
for a free block and made it the end of the chain; the chain is `1` and position
4096 resolves to block `data_start_index + 0xFFFF`, which the device does not
have. -/
theorem fs_write_changes_byte_below_cursor :
    wide_written.mounted = true ∧ check_fd wide_written 0 = 0 ∧
    cursor_of wide_written 0 = 8192 ∧ size_of wide_written 0 = 8192 ∧
    (wide_written.root (slot_of wide_written 0)).first_index = 1 ∧
    is_chain wide_written.FAT 1 [1, 0] = true ∧
    byte_at wide_written zero_mem 0 4096 = 1 ∧ byte_at wide_written twos 0 4096 = 1 ∧
    (fs_write wide_written 0 twos 4096).val = 4096 ∧
    size_of wide_extended 0 = 12288 ∧
    is_chain wide_extended.FAT 1 [1] = true ∧
    (fs_lseek wide_extended 0 4096).val = 0 ∧
    (fs_read (fs_lseek wide_extended 0 4096).st zero_mem 0 zero_mem 1).val = 1 ∧
    byte_at wide_extended zero_mem 0 4096 = 0 ∧ byte_at wide_extended twos 0 4096 = 2 ∧
    wide_extended.disk.count < wide_extended.super_block.data_start_index + 0xFFFF := by
  decide!

/-! ## The open-file table in reachable states -/

theorem registry_ok_fs_mount (s : State) (d : Disk) (heap : Nat → Nat)
    (h : (fs_mount s (some d) heap).val = 0) : registry_ok (fs_mount s (some d) heap).st := by
  obtain ⟨_, htab⟩ := fs_mount_tables s d heap h
  have hidx : ∀ fd, fd < 32 →
      ((fs_mount s (some d) heap).st.descriptor_table fd).open_file_index = -1 := by
    intro fd hfd
    rw [(htab fd hfd).1]
  refine ⟨?_, ?_, ?_⟩
  · intro fd hfd
    left
    exact hidx fd hfd
  · intro k hk
    rw [(htab k hk).2]
    symm
    unfold bound_count
    rw [count_loop_eq_zero_iff]
    intro j _ hj
    simp only [FS_OPEN_MAX_COUNT, Nat.zero_add] at hj
    rw [hidx j hj]
    simp
  · intro k hk
    rw [(htab k hk).2]
    exact ⟨fun _ => rfl, fun _ => rfl⟩

theorem registry_ok_with_cursor (s : State) (n c : Nat) (h : registry_ok s) :
    registry_ok (with_cursor s n c) := by
  refine registry_ok_congr s (with_cursor s n c) h ?_ rfl
  intro fd _
  show (upd s.descriptor_table n _ fd).open_file_index = _
  by_cases hfd : fd = n
  · rw [hfd, upd_same]
  · rw [upd_other _ _ _ _ hfd]

theorem registry_ok_step (fuel : Nat) (s t : State) (c : Call) (h : step fuel s c = some t)
    (hok : registry_ok s) : registry_ok t := by
  cases c with
  | create name =>
    rw [(Option.some.inj h).symm]
    rcases fs_create_cases s name with hc | hc
    · rw [hc]
      exact hok
    · obtain ⟨_, _, _, _, _, _, _, _, _, _, _, _, _, _, hdt, hft, _⟩ := fs_create_success s name hc
      exact registry_ok_congr s _ hok (fun fd _ => by rw [hdt]) hft
  | delete name =>
    simp only [step] at h
    cases hd : fs_delete fuel s name with
    | none =>
      rw [hd] at h
      exact absurd h (by simp)
    | some r =>
      rw [hd] at h
      rw [(Option.some.inj h).symm]
      rcases fs_delete_cases fuel s name r hd with hc | hc
      · rw [hc]
        exact hok
      · obtain ⟨_, _, slot, F, _, _, hreq⟩ := hc
        rw [hreq]
        exact registry_ok_congr s _ hok (fun fd _ => rfl) rfl
  | open_ name =>
    rw [(Option.some.inj h).symm]
    exact registry_ok_fs_open s name hok
  | close fd =>
    rw [(Option.some.inj h).symm]
    exact registry_ok_fs_close s fd hok
  | stat fd =>
    rw [(Option.some.inj h).symm]
    exact hok
  | lseek fd offset =>
    rw [(Option.some.inj h).symm]
    rcases fs_lseek_cases s fd offset with hc | hc
    · rw [hc]
      exact hok
    · rw [hc.2.2]
      exact registry_ok_with_cursor s _ _ hok
  | read fd junk buf count =>
    rw [(Option.some.inj h).symm]
    rcases fs_read_cases s junk fd buf count with hc | hc
    · rw [hc]
      exact hok
    · rw [hc.2.2]
      exact registry_ok_with_cursor s _ _ hok
  | write fd buf count =>
    rw [(Option.some.inj h).symm]
    by_cases hfd : check_fd s fd = -1
    · rw [fs_write_of_invalid s fd buf count hfd]
      exact hok
    · obtain ⟨w, _, _, _, _, hdesc, hft, _⟩ := fs_write_effect s fd buf count hfd
      refine registry_ok_congr s (fs_write s fd buf count).st hok ?_ hft
      intro i _
      rw [hdesc]
      by_cases hi : i = fd.toNat
      · rw [hi, upd_same]
      · rw [upd_other _ _ _ _ hi]

/-- The descriptor table and the open-file table agree in every state reached
from a successful mount by a run of calls. -/
theorem registry_ok_run (fuel : Nat) (calls : List Call) :
    ∀ (s t : State), registry_ok s → run fuel s calls = some t → registry_ok t := by
  induction calls with
  | nil =>
    intro s t hok h
    rw [(Option.some.inj h).symm]
    exact hok
  | cons c cs ih =>
    intro s t hok h
    simp only [run] at h
    cases hstep : step fuel s c with
    | none =>
      rw [hstep] at h
      exact absurd h (by simp)
    | some u =>
      rw [hstep] at h
      exact ih u t (registry_ok_step fuel s u c hstep hok) h

/-! ## Chains and allocation on concrete volumes -/

/-- C21 (the code at the failing input): the blank volume of 8 data blocks has
an empty directory and all its FAT entries are 0.  After create `a`, create `b`,
delete `a`, open `b`, write 8192 bytes, close, the file `b` (slot 1) has the chain
`1, 0`, and the entry of block 1, which lies on that chain, is `0`: the scan of
`get_empty_block` stops at it and returns 1.  After one more call, create `c`,
the distinct directory slots 0 (`c`) and 1 (`b`) both have first block 1, and
both chains are `1`: they share data block 1. -/
theorem chains_share_block_after_create :
    get_empty_dir_num (mounted_blank 8) = 128 ∧ get_empty_block_num (mounted_blank 8) = 8 ∧
    (run 8 (mounted_blank 8) hole_calls).map
      (fun t => ((t.root 1).filename, (t.root 1).first_index, is_chain t.FAT 1 [1, 0], t.FAT 1,
        get_empty_block t)) = some (name_b, 1, true, 0, 1) ∧
    (run 8 (mounted_blank 8) (hole_calls ++ [.create name_c])).map
      (fun t => ((t.root 0).filename, (t.root 0).first_index, (t.root 1).filename,
        (t.root 1).first_index, is_chain t.FAT 1 [1])) = some (name_c, 1, name_b, 1, true) := by
  decide!

/-- C22 (the code at the failing input): on a blank volume of 8 data blocks with
file `a` open as descriptor 0, the descriptor is valid, its cursor is 0, the
file has the one-block chain `0` and 7 blocks are free.  `fs_write` of 0 bytes
returns 0, but afterwards no block is free and the chain of `a` runs through all
8 blocks: `(offset + written_size - 1) / BLOCK_SIZE` is computed in `size_t`, where
`0 + 0 - 1` wraps around, and `allocate_new_block` hands out blocks until none is
left. -/
theorem zero_length_write_takes_every_block :
    check_fd single_open 0 = 0 ∧ cursor_of single_open 0 = 0 ∧ size_of single_open 0 = 0 ∧
    (single_open.root (slot_of single_open 0)).first_index = 0 ∧
    is_chain single_open.FAT 0 [0] = true ∧ get_empty_block_num single_open = 7 ∧
    (fs_write single_open 0 ones 0).val = 0 ∧
    size_of (fs_write single_open 0 ones 0).st 0 = 0 ∧
    get_empty_block_num (fs_write single_open 0 ones 0).st = 0 ∧
    is_chain (fs_write single_open 0 ones 0).st.FAT 0 [0, 1, 2, 3, 4, 5, 6, 7] = true ∧
    (fs_write single_open 0 ones 0).st.FAT 0 = 1 ∧ single_open.FAT 0 = 0xFFFF := by
  decide!

/-! ## Reference counts in reachable states -/

theorem registry_distinct_congr (s t : State) (h : registry_distinct s)
    (hf : t.file_table = s.file_table) : registry_distinct t := by
  intro j hj k hk hne heq
  rw [hf] at hne heq
  exact h j hj k hk hne heq

theorem registry_distinct_fs_mount (s : State) (d : Disk) (heap : Nat → Nat)
    (h : (fs_mount s (some d) heap).val = 0) : registry_distinct (fs_mount s (some d) heap).st := by
  obtain ⟨_, htab⟩ := fs_mount_tables s d heap h
  intro j hj k _ hne _
  rw [(htab j hj).2] at hne
  exact absurd rfl hne

theorem registry_distinct_fs_open (s : State) (name : List Nat) (h : registry_distinct s) :
    registry_distinct (fs_open s name).st := by
  rcases fs_open_cases s name with hc | hc | hc
  · rw [hc]
    exact h
  · obtain ⟨_, fd, k, _, _, _, _, _, _, _, hk1, _, _, heq⟩ := hc
    rw [heq]
    have hnames : ∀ j, (upd s.file_table k ⟨(s.file_table k).filename,
        to_uint8 (((s.file_table k).open_count : Int) + 1), (s.file_table k).root_index⟩ j).filename
        = (s.file_table j).filename := by
      intro j
      by_cases hjk : j = k
      · rw [hjk, upd_same]
      · rw [upd_other _ _ _ _ hjk]
    intro i hi j hj hne heq2
    have hne2 : (upd s.file_table k _ i).filename ≠ [] := hne
    have heq3 : (upd s.file_table k _ i).filename = (upd s.file_table k _ j).filename := heq2
    rw [hnames i] at hne2
    rw [hnames i, hnames j] at heq3
    exact h i hi j hj hne2 heq3
  · obtain ⟨slot, fd, k, hcf, _, _, _, _, _, _, hno, hk1, _, _, heq⟩ := hc
    rw [heq]
    intro i hi j hj hne heq2
    have hne2 : (upd s.file_table k ⟨name, 1, slot⟩ i).filename ≠ [] := hne
    have heq3 : (upd s.file_table k ⟨name, 1, slot⟩ i).filename
        = (upd s.file_table k ⟨name, 1, slot⟩ j).filename := heq2
    by_cases hik : i = k
    · by_cases hjk : j = k
      · rw [hik, hjk]
      · rw [hik, upd_same, upd_other _ _ _ _ hjk] at heq3
        exact absurd heq3.symm (hno j hj)
    · by_cases hjk : j = k
      · rw [hjk, upd_same, upd_other _ _ _ _ hik] at heq3
        exact absurd heq3 (hno i hi)
      · rw [upd_other _ _ _ _ hik] at hne2
        rw [upd_other _ _ _ _ hik, upd_other _ _ _ _ hjk] at heq3
        exact h i hi j hj hne2 heq3

theorem registry_distinct_fs_close (s : State) (fd : Int) (hreg : registry_ok s)
    (h : registry_distinct s) : registry_distinct (fs_close s fd).st := by
  by_cases hfd : check_fd s fd = -1
  · rw [fs_close_of_invalid s fd hfd]
    exact h
  obtain ⟨hc1, hc2⟩ := registry_ok_open_count s fd hreg hfd
  by_cases hc : (s.file_table (entry_of s fd)).open_count = 1
  · rw [fs_close_last s fd hfd hc]
    intro i hi j hj hne heq2
    have hne2 : (upd s.file_table (entry_of s fd) ⟨[], 0, 128⟩ i).filename ≠ [] := hne
    have heq3 : (upd s.file_table (entry_of s fd) ⟨[], 0, 128⟩ i).filename
        = (upd s.file_table (entry_of s fd) ⟨[], 0, 128⟩ j).filename := heq2
    by_cases hik : i = entry_of s fd
    · rw [hik, upd_same] at hne2
      exact absurd rfl hne2
    · rw [upd_other _ _ _ _ hik] at hne2 heq3
      by_cases hjk : j = entry_of s fd
      · rw [hjk, upd_same] at heq3
        exact absurd heq3 hne2
      · rw [upd_other _ _ _ _ hjk] at heq3
        exact h i hi j hj hne2 heq3
  · rw [fs_close_shared s fd hfd (by omega) hc2]
    have hnames : ∀ j, (upd s.file_table (entry_of s fd)
        ⟨(s.file_table (entry_of s fd)).filename, (s.file_table (entry_of s fd)).open_count - 1,
          (s.file_table (entry_of s fd)).root_index⟩ j).filename = (s.file_table j).filename := by
      intro j
      by_cases hjk : j = entry_of s fd
      · rw [hjk, upd_same]
      · rw [upd_other _ _ _ _ hjk]
    intro i hi j hj hne heq2
    have hne2 : (upd s.file_table (entry_of s fd) _ i).filename ≠ [] := hne
    have heq3 : (upd s.file_table (entry_of s fd) _ i).filename
        = (upd s.file_table (entry_of s fd) _ j).filename := heq2
    rw [hnames i] at hne2
    rw [hnames i, hnames j] at heq3
    exact h i hi j hj hne2 heq3

theorem registry_distinct_step (fuel : Nat) (s t : State) (c : Call)
    (h : step fuel s c = some t) (hreg : registry_ok s) (hd : registry_distinct s) :
    registry_distinct t := by
  cases c with
  | create name =>
    rw [(Option.some.inj h).symm]
    rcases fs_create_cases s name with hc | hc
    · rw [hc]
      exact hd
    · obtain ⟨_, _, _, _, _, _, _, _, _, _, _, _, _, _, _, hft, _⟩ := fs_create_success s name hc
      exact registry_distinct_congr s _ hd hft
  | delete name =>
    simp only [step] at h
    cases hdel : fs_delete fuel s name with
    | none =>
      rw [hdel] at h
      exact absurd h (by simp)
    | some r =>
      rw [hdel] at h
      rw [(Option.some.inj h).symm]
      rcases fs_delete_cases fuel s name r hdel with hc | hc
      · rw [hc]
        exact hd
      · obtain ⟨_, _, slot, F, _, _, hreq⟩ := hc
        rw [hreq]
        exact registry_distinct_congr s _ hd rfl
  | open_ name =>
    rw [(Option.some.inj h).symm]
    exact registry_distinct_fs_open s name hd
  | close fd =>
    rw [(Option.some.inj h).symm]
    exact registry_distinct_fs_close s fd hreg hd
  | stat fd =>
    rw [(Option.some.inj h).symm]
    exact hd
  | lseek fd offset =>
    rw [(Option.some.inj h).symm]
    rcases fs_lseek_cases s fd offset with hc | hc
    · rw [hc]
      exact hd
    · rw [hc.2.2]
      exact registry_distinct_congr s _ hd rfl
  | read fd junk buf count =>
    rw [(Option.some.inj h).symm]
    rcases fs_read_cases s junk fd buf count with hc | hc
    · rw [hc]
      exact hd
    · rw [hc.2.2]
      exact registry_distinct_congr s _ hd rfl
  | write fd buf count =>
    rw [(Option.some.inj h).symm]
    by_cases hfd : check_fd s fd = -1
    · rw [fs_write_of_invalid s fd buf count hfd]
      exact hd
    · obtain ⟨w, _, _, _, _, _, hft, _⟩ := fs_write_effect s fd buf count hfd
      exact registry_distinct_congr s _ hd hft

theorem registry_distinct_run (fuel : Nat) (calls : List Call) :
    ∀ (s t : State), registry_ok s → registry_distinct s → run fuel s calls = some t →
      registry_ok t ∧ registry_distinct t := by
  induction calls with
  | nil =>
    intro s t hreg hd h
    rw [(Option.some.inj h).symm]
    exact ⟨hreg, hd⟩
  | cons c cs ih =>
    intro s t hreg hd h
    simp only [run] at h
    cases hstep : step fuel s c with
    | none =>
      rw [hstep] at h
      exact absurd h (by simp)
    | some u =>
      rw [hstep] at h
      exact ih u t (registry_ok_step fuel s u c hstep hreg)
        (registry_distinct_step fuel s u c hstep hreg hd) h

theorem fs_open_fails_only_as_documented (s : State) (name : List Nat)
    (hslot : get_empty_fd s ≠ -1 → get_empty_open_file s ≠ -1)
    (hval : (fs_open s name).val = -1) :
    check_file s name ≠ 0 ∨ get_dir s name = -1 ∨ get_empty_fd s = -1 := by
  by_contra hcon
  push_neg at hcon
  obtain ⟨hc, hd, hf⟩ := hcon
  unfold fs_open at hval
  rw [if_neg (not_not.mpr hc), if_neg hd] at hval
  simp only [hf, if_false] at hval
  obtain ⟨fd, hf0, _⟩ := get_empty_fd_spec s hf
  by_cases ho : file_is_open s name ≠ -1
  · rw [if_pos ho] at hval
    simp only [hf0] at hval
    omega
  · rw [if_neg ho, if_pos (hslot hf)] at hval
    simp only [hf0] at hval
    omega

/-- C23: in every state reached from a successful mount by a run of
`fs_create`, `fs_delete`, `fs_open`, `fs_close`, `fs_stat`, `fs_lseek`, `fs_read` and
`fs_write` calls (each of which returns), the `open_count` of every slot of the
open-file table is the number of descriptor slots bound to it, a slot has a
non-empty name exactly when its `open_count` is at least 1, and no two slots with
a non-empty name hold the same name.  Hence, when some descriptor slot is free,
some slot of the open-file table is free too: `get_empty_open_file` does not
return `-1` when `get_empty_fd` does not, and `fs_open` returns `-1` only for an
invalid name or unmounted volume, a name not in the directory, or a full
descriptor table. -/
theorem reference_count_invariant (s0 : State) (d : Disk) (heap : Nat → Nat) (fuel : Nat)
    (calls : List Call) (t : State)
    (hmount : (fs_mount s0 (some d) heap).val = 0)
    (hrun : run fuel (fs_mount s0 (some d) heap).st calls = some t) :
    (∀ k, k < 32 → (t.file_table k).open_count = bound_count t k) ∧
    (∀ k, k < 32 → ((t.file_table k).filename ≠ [] ↔ 1 ≤ (t.file_table k).open_count)) ∧
    (∀ j k, j < 32 → k < 32 → (t.file_table j).filename ≠ [] →
      (t.file_table j).filename = (t.file_table k).filename → j = k) ∧
    ((∃ fd, fd < 32 ∧ (t.descriptor_table fd).open_file_index = -1) →
      ∃ k, k < 32 ∧ (t.file_table k).filename = []) ∧
    (get_empty_fd t ≠ -1 → get_empty_open_file t ≠ -1) ∧
    (∀ name : List Nat, (fs_open t name).val = -1 →
      check_file t name ≠ 0 ∨ get_dir t name = -1 ∨ get_empty_fd t = -1) := by
  obtain ⟨hreg, hdist⟩ := registry_distinct_run fuel calls _ t
    (registry_ok_fs_mount s0 d heap hmount) (registry_distinct_fs_mount s0 d heap hmount) hrun
  have hslot : get_empty_fd t ≠ -1 → get_empty_open_file t ≠ -1 := by
    intro hf he
    obtain ⟨fd, _, hfd, hidx, _⟩ := get_empty_fd_spec t hf
    obtain ⟨k, hk, hkn⟩ := registry_has_free_slot t hreg ⟨fd, hfd, hidx⟩
    exact (get_empty_open_file_eq_neg_one_iff t).mp he k hk hkn
  refine ⟨hreg.2.1, ?_, fun j k hj hk => hdist j hj k hk,
    registry_has_free_slot t hreg, hslot,
    fun name => fs_open_fails_only_as_documented t name hslot⟩
  intro k hk
  have := hreg.2.2 k hk
  constructor
  · intro hne
    have h0 : (t.file_table k).open_count ≠ 0 := fun h0 => hne (this.mpr h0)
    omega
  · intro h1 h0
    have := this.mp h0
    omega

/-- C23 (witness): `sample_calls` on a freshly mounted blank volume of 8 data
blocks ends in a state where slot 0 of the open-file table holds `a` with
`open_count` 1, the one descriptor bound to it being descriptor 1. -/
theorem reference_count_invariant_witness :
    ∃ t, run 8 (fs_mount unmounted (some (blank_disk 8)) zero_mem).st sample_calls = some t ∧
      (t.file_table 0).filename = name_a ∧ (t.file_table 0).open_count = 1 ∧
      (t.descriptor_table 1).open_file_index = 0 ∧
      (∀ k, k < 32 → (t.file_table k).open_count = bound_count t k) ∧
      (get_empty_fd t ≠ -1 → get_empty_open_file t ≠ -1) := by
  obtain ⟨t, ht⟩ := Option.isSome_iff_exists.mp
    (by decide! : (run 8 (fs_mount unmounted (some (blank_disk 8)) zero_mem).st
      sample_calls).isSome = true)
  have hfacts : (run 8 (fs_mount unmounted (some (blank_disk 8)) zero_mem).st sample_calls).map
      (fun u => ((u.file_table 0).filename, (u.file_table 0).open_count,
        (u.descriptor_table 1).open_file_index)) = some (name_a, 1, 0) := by decide!
  rw [ht] at hfacts
  have hf := Option.some.inj hfacts
  have h := reference_count_invariant unmounted (blank_disk 8) zero_mem 8 sample_calls t
    (by decide!) ht
  exact ⟨t, ht, congrArg Prod.fst hf, congrArg (fun p => p.2.1) hf,
    congrArg (fun p => p.2.2) hf, h.1, h.2.2.2.2.1⟩

end FS
